import Mathlib

/-!
# wirecheck: coupling analysis of wire provider functions

A shallow embedding of `scripts/go/wirecheck/analyzer.go`.

* The Go syntax tree (`go/ast`) is a family of inductive types; `ast.Inspect` with a callback
  that always answers `true` is the depth-first pre-order listing of the nodes (`Inspect`).
  Comment groups and struct tags are left out of the tree: a comment group holds only comments
  and a tag is a basic literal, so neither holds a call expression or a function declaration.
  `Node.children` lists the nodes directly below a node; the traversal is proved to be the node
  followed by the traversals of its children, and to list exactly the nodes the tree contains.
* `pass.Report` is an append to an ordered output. The walk returns the ordered list of what it
  did (`Event`): every entry into `analyzeProviderFunctionForTightCoupling` and every report.
  `diagnostics` projects that list to what the host receives; `run` returns the list together
  with its error result.
* The walk is defined by well-founded recursion; a second, step-indexed form of it (suffix
  `Fuel`) is proved equal to it and is the one evaluated on concrete packages.
* `map[string]bool` is a total function `String → Bool` (a missing key reads `false`).
* Slices are lists; `append(callPath, x)` is `callPath ++ [x]`. A second form of the walk
  (suffix `H`) keeps the call path as a Go slice (backing array, length, capacity) in a heap of
  arrays, where `append` may write in place; it is proved to produce the events of the list form.

Two further packages follow in namespaces of their own: the provenance annotation of alert rules
(`apps/alerting/rules/pkg/apis/alerting/v0alpha1`) and `MigrateResourceStore`
(`pkg/storage/unified/sql/db/migrations`), the latter over the operations of the migrator
package as parameters.
-/

namespace Wirecheck

/-! ## Syntax trees -/

mutual
/-- Go expressions and type expressions (`ast.Expr`). `callExpr` carries `pos`, the value of
`callExpr.Pos()`. -/
inductive Expr where
  | badExpr
  | ident (name : String)
  | ellipsis (elt : Option Expr)
  | basicLit (value : String)
  | funcLit (type : FuncType) (body : Block)
  | compositeLit (type : Option Expr) (elts : List Expr)
  | parenExpr (x : Expr)
  | selectorExpr (x : Expr) (sel : String)
  | indexExpr (x : Expr) (index : Expr)
  | indexListExpr (x : Expr) (indices : List Expr)
  | sliceExpr (x : Expr) (low : Option Expr) (high : Option Expr) (max : Option Expr)
  | typeAssertExpr (x : Expr) (type : Option Expr)
  | callExpr (pos : Nat) (fn : Expr) (args : List Expr)
  | starExpr (x : Expr)
  | unaryExpr (op : String) (x : Expr)
  | binaryExpr (x : Expr) (op : String) (y : Expr)
  | keyValueExpr (key : Expr) (value : Expr)
  | arrayType (len : Option Expr) (elt : Expr)
  | structType (fields : FieldList)
  | funcType (type : FuncType)
  | interfaceType (methods : FieldList)
  | mapType (key : Expr) (value : Expr)
  | chanType (value : Expr)
/-- One entry of a parameter, result, receiver, field or method list (`ast.Field`). -/
inductive Field where
  | mk (names : List String) (type : Option Expr)
/-- A parenthesised list of fields (`ast.FieldList`). -/
inductive FieldList where
  | mk (list : List Field)
/-- A function signature (`ast.FuncType`): `TypeParams` is nil for a signature without type
parameters, `Params` is never nil, `Results` may be. -/
inductive FuncType where
  | mk (typeParams : Option FieldList) (params : FieldList) (results : Option FieldList)
/-- A braced statement list (`ast.BlockStmt`). -/
inductive Block where
  | mk (list : List Stmt)
/-- Go statements (`ast.Stmt`). -/
inductive Stmt where
  | badStmt
  | declStmt (decl : GenDecl)
  | emptyStmt
  | labeledStmt (label : String) (stmt : Stmt)
  | exprStmt (x : Expr)
  | sendStmt (chan : Expr) (value : Expr)
  | incDecStmt (x : Expr) (tok : String)
  | assignStmt (lhs : List Expr) (tok : String) (rhs : List Expr)
  | goStmt (call : Expr)
  | deferStmt (call : Expr)
  | returnStmt (results : List Expr)
  | branchStmt (tok : String) (label : Option String)
  | blockStmt (block : Block)
  | ifStmt (init : Option Stmt) (cond : Expr) (body : Block) (els : Option Stmt)
  | caseClause (list : List Expr) (body : List Stmt)
  | switchStmt (init : Option Stmt) (tag : Option Expr) (body : Block)
  | typeSwitchStmt (init : Option Stmt) (assign : Stmt) (body : Block)
  | commClause (comm : Option Stmt) (body : List Stmt)
  | selectStmt (body : Block)
  | forStmt (init : Option Stmt) (cond : Option Expr) (post : Option Stmt) (body : Block)
  | rangeStmt (key : Option Expr) (value : Option Expr) (x : Expr) (body : Block)
/-- One line of an import, const, var or type declaration (`ast.Spec`). -/
inductive Spec where
  | importSpec (name : Option String) (path : String)
  | valueSpec (names : List String) (type : Option Expr) (values : List Expr)
  | typeSpec (name : String) (typeParams : Option FieldList) (type : Expr)
/-- An import, const, var or type declaration (`ast.GenDecl`). -/
inductive GenDecl where
  | mk (tok : String) (specs : List Spec)
end

/-- The field names, `field.Names`. -/
def Field.names : Field → List String
  | .mk names _ => names

/-- The entries, `fieldList.List`. -/
def FieldList.list : FieldList → List Field
  | .mk list => list

/-- The parameter list, `funcType.Params`. -/
def FuncType.params : FuncType → FieldList
  | .mk _ params _ => params

/-- A function or method declaration (`ast.FuncDecl`): `recv` is nil for a plain function, `body`
is nil for an external declaration. -/
structure FuncDecl where
  recv : Option FieldList
  name : String
  type : FuncType
  body : Option Block

/-- A top-level declaration (`ast.Decl`). -/
inductive Decl where
  | badDecl
  | genDecl (d : GenDecl)
  | funcDecl (d : FuncDecl)

/-- A parsed source file (`ast.File`): its package clause and its declarations. -/
structure File where
  name : String
  decls : List Decl

/-- A syntax-tree node as a traversal callback receives it (`ast.Node`). -/
inductive Node where
  | expr (e : Expr)
  | field (f : Field)
  | fieldList (l : FieldList)
  | stmt (s : Stmt)
  | spec (s : Spec)
  | decl (d : Decl)
  | file (f : File)

/-- The identifier nodes of a name list. -/
def walkIdents (names : List String) : List Node :=
  names.map (fun n => Node.expr (.ident n))

/-- The identifier node of an optional name. -/
def walkOptIdent : Option String → List Node
  | none => []
  | some n => [Node.expr (.ident n)]

/-! ## Traversal: `ast.Walk` in pre-order, children in the order of `go/ast/walk.go` -/

mutual
/-- Pre-order nodes of an expression. -/
def walkExpr : Expr → List Node
  | .badExpr => [.expr .badExpr]
  | .ident n => [.expr (.ident n)]
  | .ellipsis elt => .expr (.ellipsis elt) :: walkOptExpr elt
  | .basicLit v => [.expr (.basicLit v)]
  | .funcLit t b => .expr (.funcLit t b) :: (walkFuncType t ++ walkBlock b)
  | .compositeLit t es => .expr (.compositeLit t es) :: (walkOptExpr t ++ walkExprs es)
  | .parenExpr x => .expr (.parenExpr x) :: walkExpr x
  | .selectorExpr x s => .expr (.selectorExpr x s) :: (walkExpr x ++ [.expr (.ident s)])
  | .indexExpr x i => .expr (.indexExpr x i) :: (walkExpr x ++ walkExpr i)
  | .indexListExpr x is => .expr (.indexListExpr x is) :: (walkExpr x ++ walkExprs is)
  | .sliceExpr x l h m =>
      .expr (.sliceExpr x l h m) :: (walkExpr x ++ walkOptExpr l ++ walkOptExpr h ++ walkOptExpr m)
  | .typeAssertExpr x t => .expr (.typeAssertExpr x t) :: (walkExpr x ++ walkOptExpr t)
  | .callExpr p f as => .expr (.callExpr p f as) :: (walkExpr f ++ walkExprs as)
  | .starExpr x => .expr (.starExpr x) :: walkExpr x
  | .unaryExpr op x => .expr (.unaryExpr op x) :: walkExpr x
  | .binaryExpr x op y => .expr (.binaryExpr x op y) :: (walkExpr x ++ walkExpr y)
  | .keyValueExpr k v => .expr (.keyValueExpr k v) :: (walkExpr k ++ walkExpr v)
  | .arrayType l e => .expr (.arrayType l e) :: (walkOptExpr l ++ walkExpr e)
  | .structType fs => .expr (.structType fs) :: walkFieldList fs
  | .funcType t => walkFuncType t
  | .interfaceType ms => .expr (.interfaceType ms) :: walkFieldList ms
  | .mapType k v => .expr (.mapType k v) :: (walkExpr k ++ walkExpr v)
  | .chanType v => .expr (.chanType v) :: walkExpr v
/-- Pre-order nodes of an expression that may be nil. -/
def walkOptExpr : Option Expr → List Node
  | none => []
  | some e => walkExpr e
/-- Pre-order nodes of an expression list (`walkList`). -/
def walkExprs : List Expr → List Node
  | [] => []
  | e :: es => walkExpr e ++ walkExprs es
/-- Pre-order nodes of a field: the field, its names, its type. -/
def walkField : Field → List Node
  | .mk names t => .field (.mk names t) :: (walkIdents names ++ walkOptExpr t)
/-- Pre-order nodes of the entries of a field list. -/
def walkFields : List Field → List Node
  | [] => []
  | f :: fs => walkField f ++ walkFields fs
/-- Pre-order nodes of a field list. -/
def walkFieldList : FieldList → List Node
  | .mk l => .fieldList (.mk l) :: walkFields l
/-- Pre-order nodes of a field list that may be nil. -/
def walkOptFieldList : Option FieldList → List Node
  | none => []
  | some l => walkFieldList l
/-- Pre-order nodes of a signature: the signature, its type parameters, its parameters, its
results. -/
def walkFuncType : FuncType → List Node
  | .mk tps ps rs =>
      .expr (.funcType (.mk tps ps rs)) ::
        (walkOptFieldList tps ++ walkFieldList ps ++ walkOptFieldList rs)
/-- Pre-order nodes of a block. -/
def walkBlock : Block → List Node
  | .mk l => .stmt (.blockStmt (.mk l)) :: walkStmts l
/-- Pre-order nodes of a statement. -/
def walkStmt : Stmt → List Node
  | .badStmt => [.stmt .badStmt]
  | .declStmt d => .stmt (.declStmt d) :: walkGenDecl d
  | .emptyStmt => [.stmt .emptyStmt]
  | .labeledStmt l s => .stmt (.labeledStmt l s) :: (.expr (.ident l) :: walkStmt s)
  | .exprStmt x => .stmt (.exprStmt x) :: walkExpr x
  | .sendStmt c v => .stmt (.sendStmt c v) :: (walkExpr c ++ walkExpr v)
  | .incDecStmt x tok => .stmt (.incDecStmt x tok) :: walkExpr x
  | .assignStmt lhs tok rhs => .stmt (.assignStmt lhs tok rhs) :: (walkExprs lhs ++ walkExprs rhs)
  | .goStmt c => .stmt (.goStmt c) :: walkExpr c
  | .deferStmt c => .stmt (.deferStmt c) :: walkExpr c
  | .returnStmt rs => .stmt (.returnStmt rs) :: walkExprs rs
  | .branchStmt tok l => .stmt (.branchStmt tok l) :: walkOptIdent l
  | .blockStmt b => walkBlock b
  | .ifStmt i c b e =>
      .stmt (.ifStmt i c b e) :: (walkOptStmt i ++ walkExpr c ++ walkBlock b ++ walkOptStmt e)
  | .caseClause l b => .stmt (.caseClause l b) :: (walkExprs l ++ walkStmts b)
  | .switchStmt i t b => .stmt (.switchStmt i t b) :: (walkOptStmt i ++ walkOptExpr t ++ walkBlock b)
  | .typeSwitchStmt i a b =>
      .stmt (.typeSwitchStmt i a b) :: (walkOptStmt i ++ walkStmt a ++ walkBlock b)
  | .commClause c b => .stmt (.commClause c b) :: (walkOptStmt c ++ walkStmts b)
  | .selectStmt b => .stmt (.selectStmt b) :: walkBlock b
  | .forStmt i c p b =>
      .stmt (.forStmt i c p b) :: (walkOptStmt i ++ walkOptExpr c ++ walkOptStmt p ++ walkBlock b)
  | .rangeStmt k v x b =>
      .stmt (.rangeStmt k v x b) :: (walkOptExpr k ++ walkOptExpr v ++ walkExpr x ++ walkBlock b)
/-- Pre-order nodes of a statement that may be nil. -/
def walkOptStmt : Option Stmt → List Node
  | none => []
  | some s => walkStmt s
/-- Pre-order nodes of a statement list (`walkList`). -/
def walkStmts : List Stmt → List Node
  | [] => []
  | s :: ss => walkStmt s ++ walkStmts ss
/-- Pre-order nodes of a spec. -/
def walkSpec : Spec → List Node
  | .importSpec n p => .spec (.importSpec n p) :: (walkOptIdent n ++ [.expr (.basicLit p)])
  | .valueSpec ns t vs => .spec (.valueSpec ns t vs) :: (walkIdents ns ++ walkOptExpr t ++ walkExprs vs)
  | .typeSpec n tps t =>
      .spec (.typeSpec n tps t) :: (.expr (.ident n) :: (walkOptFieldList tps ++ walkExpr t))
/-- Pre-order nodes of a spec list. -/
def walkSpecs : List Spec → List Node
  | [] => []
  | s :: ss => walkSpec s ++ walkSpecs ss
/-- Pre-order nodes of a general declaration. -/
def walkGenDecl : GenDecl → List Node
  | .mk tok specs => .decl (.genDecl (.mk tok specs)) :: walkSpecs specs
end

/-- Pre-order nodes of a block that may be nil. -/
def walkOptBlock : Option Block → List Node
  | none => []
  | some b => walkBlock b

/-- Pre-order nodes of a function declaration: the declaration, its receiver, its name, its
signature, its body. -/
def walkFuncDecl (d : FuncDecl) : List Node :=
  .decl (.funcDecl d) ::
    (walkOptFieldList d.recv ++ [.expr (.ident d.name)] ++ walkFuncType d.type ++ walkOptBlock d.body)

/-- Pre-order nodes of a top-level declaration. -/
def walkDecl : Decl → List Node
  | .badDecl => [.decl .badDecl]
  | .genDecl d => walkGenDecl d
  | .funcDecl d => walkFuncDecl d

/-- Pre-order nodes of a file: the file, its package name, its declarations. -/
def walkFile (f : File) : List Node :=
  .file f :: (.expr (.ident f.name) :: f.decls.flatMap walkDecl)

/-- The nodes on which `ast.Inspect(node, f)` calls `f`, in call order, when `f` always returns
`true`. -/
def Inspect : Node → List Node
  | .expr e => walkExpr e
  | .field f => walkField f
  | .fieldList l => walkFieldList l
  | .stmt s => walkStmt s
  | .spec s => walkSpec s
  | .decl d => walkDecl d
  | .file f => walkFile f

/-! ## The analyzer's data -/

/-- The plugin configuration (`Settings`). -/
structure Settings where
  WireGen : String
  Recursive : Bool

/-- A method call found in a provider function (`methodCall`). -/
structure methodCall where
  receiver : String
  method : String
  line : Nat
  pos : Nat
  callPath : List String
deriving DecidableEq, Repr

/-- A function call to be analysed recursively (`functionCall`). -/
structure functionCall where
  funcName : String
  pos : Nat
  pkg : String
deriving DecidableEq, Repr

/-- What the host receives from `pass.Report` (`analysis.Diagnostic`). -/
structure Diagnostic where
  Pos : Nat
  Message : String
deriving DecidableEq, Repr

/-- The position table (`token.FileSet`): `Line p` is `fset.Position(p).Line`. -/
structure FileSet where
  Line : Nat → Nat

/-- What the host hands to the analyzer (`analysis.Pass`): the position table, the syntax trees
of the package under analysis, and `PkgName`, the value of `pass.Pkg.Name()`. -/
structure Pass where
  Fset : FileSet
  Files : List File
  PkgName : String

/-- One observable step of the analysis, in execution order. -/
inductive Event where
  /-- Entry into `analyzeProviderFunctionForTightCoupling` with this declaration and call path. -/
  | scan (funcDecl : FuncDecl) (callPath : List String)
  /-- One iteration of the reporting loop: the finding `call`, with its call path attached, and
  the diagnostic handed to `pass.Report`. -/
  | finding (call : methodCall) (d : Diagnostic)
  /-- The diagnostic reported when the initializer file does not parse. -/
  | failure (d : Diagnostic)

/-- The diagnostic of an event, if it reports one. -/
def Event.diagnostic? : Event → Option Diagnostic
  | .scan _ _ => none
  | .finding _ d => some d
  | .failure d => some d

/-- The ordered diagnostics the host receives from a run. -/
def diagnostics (events : List Event) : List Diagnostic :=
  events.filterMap Event.diagnostic?

/-- The scans of a run, in order: declaration and call path of every entry into
`analyzeProviderFunctionForTightCoupling`. -/
def scans (events : List Event) : List (FuncDecl × List String) :=
  events.filterMap (fun e => match e with
    | .scan d p => some (d, p)
    | _ => none)

/-- The findings of a run, in order. -/
def findings (events : List Event) : List methodCall :=
  events.filterMap (fun e => match e with
    | .finding c _ => some c
    | _ => none)

/-- Go's `strings.HasPrefix`. -/
def HasPrefix (s pre : String) : Bool :=
  pre.data.isPrefixOf s.data

/-- Go's `strings.Join`. -/
def Join (elems : List String) (sep : String) : String :=
  sep.intercalate elems

/-- The empty map, `make(map[string]bool)`. -/
def emptyMap : String → Bool :=
  fun _ => false

/-- The map after `m[key] = true`. -/
def setTrue (m : String → Bool) (key : String) : String → Bool :=
  fun k => if k = key then true else m k

/-! ## Provider discovery -/

/-- `extractProviderFromCall`: record the callee name of a direct or qualified call. -/
def extractProviderFromCall (callFun : Expr) (wireFunctions : String → Bool) : String → Bool :=
  match callFun with
  | .ident name => setTrue wireFunctions name
  | .selectorExpr _ sel => setTrue wireFunctions sel
  | _ => wireFunctions

/-- `extractProviderFunctionsFromInitialize`: walk the declaration, recording every call. -/
def extractProviderFunctionsFromInitialize (funcDecl : FuncDecl) (wireFunctions : String → Bool) :
    String → Bool :=
  (Inspect (.decl (.funcDecl funcDecl))).foldl (fun wf n =>
    match n with
    | .expr (.callExpr _ fn _) => extractProviderFromCall fn wf
    | _ => wf) wireFunctions

/-- `parseWireGenFile`: parse the initializer file with the host's parser `parseFile`
(`parser.ParseFile`), then collect the calls of every `Initialize*` function declaration. -/
def parseWireGenFile (parseFile : String → Except String File) (filePath : String) :
    Except String (String → Bool) :=
  match parseFile filePath with
  | .error err => .error err
  | .ok file =>
    .ok ((Inspect (.file file)).foldl (fun wireFunctions n =>
      match n with
      | .decl (.funcDecl funcDecl) =>
        if funcDecl.name = "Initialize" || HasPrefix funcDecl.name "Initialize" then
          extractProviderFunctionsFromInitialize funcDecl wireFunctions
        else wireFunctions
      | _ => wireFunctions) emptyMap)

/-! ## Coupling scanner -/

/-- `isParameter`: is the identifier one of the declared parameter names? -/
def isParameter (ident : String) (funcDecl : FuncDecl) : Bool :=
  funcDecl.type.params.list.any (fun field => field.names.any (fun name => name = ident))

/-- `findMethodCallsInFunction`: every call `x.m(...)` in the declaration whose `x` is an
identifier naming a parameter, in traversal order. -/
def findMethodCallsInFunction (funcDecl : FuncDecl) (fset : FileSet) : List methodCall :=
  (Inspect (.decl (.funcDecl funcDecl))).foldl (fun calls n =>
    match n with
    | .expr (.callExpr pos (.selectorExpr (.ident name) sel) _) =>
      if isParameter name funcDecl then
        calls ++ [{ receiver := name, method := sel, line := fset.Line pos, pos := pos,
                    callPath := [] }]
      else calls
    | _ => calls) []

/-- `findFunctionCallsInFunction`: every direct call `f(...)` and every call `x.f(...)` whose `x`
is an identifier, in traversal order. -/
def findFunctionCallsInFunction (funcDecl : FuncDecl) (_fset : FileSet) : List functionCall :=
  (Inspect (.decl (.funcDecl funcDecl))).foldl (fun calls n =>
    match n with
    | .expr (.callExpr pos (.ident name) _) =>
      calls ++ [{ funcName := name, pos := pos, pkg := "" }]
    | .expr (.callExpr pos (.selectorExpr (.ident pkgIdent) sel) _) =>
      calls ++ [{ funcName := sel, pos := pos, pkg := pkgIdent }]
    | _ => calls) []

/-! ## Call-graph walker -/

/-- `containsFunction`: is the name already in the call path? -/
def containsFunction (callPath : List String) (funcName : String) : Bool :=
  callPath.any (fun name => name = funcName)

/-- `findFunctionDeclaration`: the first function declaration of the package, files in order and
declarations in order, that has the name, provided the qualifier is empty or the package name. -/
def findFunctionDeclaration (pass : Pass) (funcName pkg : String) : Option FuncDecl :=
  pass.Files.findSome? (fun file =>
    file.decls.findSome? (fun decl =>
      match decl with
      | .funcDecl funcDecl =>
        if funcDecl.name = funcName then
          if pkg = "" || pkg = pass.PkgName then some funcDecl else none
        else none
      | _ => none))

/-- The message built in the reporting loop for one finding. -/
def reportMessage (funcDecl : FuncDecl) (call : methodCall) (callPath : List String) : String :=
  let message := funcDecl.name ++ "() directly calls " ++ call.receiver ++ "." ++ call.method ++
    "() in wire provider function"
  if callPath.length > 1 then
    message ++ (" (via call path: " ++ Join callPath " -> " ++ ")")
  else message

/-- The reporting loop of `analyzeProviderFunctionForTightCoupling`: for each finding, attach
the call path and report at the call's position. -/
def reportCalls (funcDecl : FuncDecl) (calls : List methodCall) (callPath : List String) :
    List Event :=
  calls.map (fun call =>
    let call := { call with callPath := callPath }
    Event.finding call { Pos := call.pos, Message := reportMessage funcDecl call callPath })

mutual
/-- `analyzeProviderFunctionForTightCoupling`: report the declaration's own findings, then, in
recursive mode, follow the function calls in its body. -/
def analyzeProviderFunctionForTightCoupling (settings : Settings) (pass : Pass)
    (funcDecl : FuncDecl) (callPath : List String) : List Event :=
  let calls := findMethodCallsInFunction funcDecl pass.Fset
  Event.scan funcDecl callPath :: (reportCalls funcDecl calls callPath ++
    (if settings.Recursive then
      analyzeRecursiveFunctionCalls settings pass
        (findFunctionCallsInFunction funcDecl pass.Fset) callPath
    else []))
termination_by 2 * (11 - callPath.length) + 1
/-- `analyzeRecursiveFunctionCalls`: give up when the call path is longer than 10; otherwise, for
each call, skip a name already on the path, look the callee up in the package and analyse it
with the path extended by its name. -/
def analyzeRecursiveFunctionCalls (settings : Settings) (pass : Pass)
    (functionCalls : List functionCall) (callPath : List String) : List Event :=
  if _h : callPath.length > 10 then []
  else
    functionCalls.flatMap (fun funcCall =>
      if containsFunction callPath funcCall.funcName then []
      else
        match findFunctionDeclaration pass funcCall.funcName funcCall.pkg with
        | some funcDecl =>
          analyzeProviderFunctionForTightCoupling settings pass funcDecl
            (callPath ++ [funcCall.funcName])
        | none => [])
termination_by 2 * (11 - callPath.length)
decreasing_by
  all_goals simp_wf
  all_goals omega
end

/-- The type assertion `n.(*ast.FuncDecl)`. -/
def Node.funcDecl? : Node → Option FuncDecl
  | .decl (.funcDecl d) => some d
  | _ => none

/-- The type assertion `decl.(*ast.FuncDecl)`. -/
def Decl.funcDecl? : Decl → Option FuncDecl
  | .funcDecl d => some d
  | _ => none

/-- The function declarations the inspector visits, `insp.Preorder` with the `*ast.FuncDecl`
filter: every file of the pass in order, its nodes in pre-order. -/
def preorderFuncDecls (pass : Pass) : List FuncDecl :=
  (pass.Files.flatMap (fun f => Inspect (.file f))).filterMap Node.funcDecl?

/-- What a call of `run` leaves behind: the events in order, and the error it returns (`none`
for a nil error). -/
structure RunResult where
  events : List Event
  err : Option String

/-- `WireChecker.run`: nothing without a wire-gen path; one diagnostic when the file does not
parse; otherwise the analysis of every function declaration named in the initializer file. The
returned error is nil on every path. -/
def run (parseFile : String → Except String File) (settings : Settings) (pass : Pass) :
    RunResult :=
  if settings.WireGen = "" then { events := [], err := none }
  else
    match parseWireGenFile parseFile settings.WireGen with
    | .error err =>
      { events := [Event.failure
          { Pos := 0,
            Message := "failed to parse wire-gen file " ++ settings.WireGen ++ ": " ++ err }]
        err := none }
    | .ok wireFunctions =>
      { events := (preorderFuncDecls pass).flatMap (fun funcDecl =>
          if wireFunctions funcDecl.name then
            analyzeProviderFunctionForTightCoupling settings pass funcDecl [funcDecl.name]
          else [])
        err := none }

/-! ## The shape of a traversal -/

/-- The nodes of an expression list. -/
def exprNodes (es : List Expr) : List Node :=
  es.map Node.expr

/-- The node of an expression that may be nil. -/
def optExprNodes (e : Option Expr) : List Node :=
  e.toList.map Node.expr

/-- The nodes of a statement list. -/
def stmtNodes (ss : List Stmt) : List Node :=
  ss.map Node.stmt

/-- The node of a statement that may be nil. -/
def optStmtNodes (s : Option Stmt) : List Node :=
  s.toList.map Node.stmt

/-- The node of a field list that may be nil. -/
def optFieldListNodes (l : Option FieldList) : List Node :=
  l.toList.map Node.fieldList

/-- The node of a block that may be nil. -/
def optBlockNodes (b : Option Block) : List Node :=
  b.toList.map (fun b => Node.stmt (.blockStmt b))

/-- The nodes directly below a node: the fields of the node that hold nodes, in the order of
their declaration in `go/ast`, which is the order in which `ast.Walk` descends into them. -/
def Node.children : Node → List Node
  | .expr .badExpr => []
  | .expr (.ident _) => []
  | .expr (.ellipsis elt) => optExprNodes elt
  | .expr (.basicLit _) => []
  | .expr (.funcLit t b) => [.expr (.funcType t), .stmt (.blockStmt b)]
  | .expr (.compositeLit t es) => optExprNodes t ++ exprNodes es
  | .expr (.parenExpr x) => [.expr x]
  | .expr (.selectorExpr x s) => [.expr x, .expr (.ident s)]
  | .expr (.indexExpr x i) => [.expr x, .expr i]
  | .expr (.indexListExpr x is) => .expr x :: exprNodes is
  | .expr (.sliceExpr x l h m) => .expr x :: (optExprNodes l ++ optExprNodes h ++ optExprNodes m)
  | .expr (.typeAssertExpr x t) => .expr x :: optExprNodes t
  | .expr (.callExpr _ f as) => .expr f :: exprNodes as
  | .expr (.starExpr x) => [.expr x]
  | .expr (.unaryExpr _ x) => [.expr x]
  | .expr (.binaryExpr x _ y) => [.expr x, .expr y]
  | .expr (.keyValueExpr k v) => [.expr k, .expr v]
  | .expr (.arrayType l e) => optExprNodes l ++ [.expr e]
  | .expr (.structType fs) => [.fieldList fs]
  | .expr (.funcType (.mk tps ps rs)) =>
      optFieldListNodes tps ++ [.fieldList ps] ++ optFieldListNodes rs
  | .expr (.interfaceType ms) => [.fieldList ms]
  | .expr (.mapType k v) => [.expr k, .expr v]
  | .expr (.chanType v) => [.expr v]
  | .field (.mk names t) => walkIdents names ++ optExprNodes t
  | .fieldList (.mk l) => l.map Node.field
  | .stmt .badStmt => []
  | .stmt (.declStmt d) => [.decl (.genDecl d)]
  | .stmt .emptyStmt => []
  | .stmt (.labeledStmt l s) => [.expr (.ident l), .stmt s]
  | .stmt (.exprStmt x) => [.expr x]
  | .stmt (.sendStmt c v) => [.expr c, .expr v]
  | .stmt (.incDecStmt x _) => [.expr x]
  | .stmt (.assignStmt lhs _ rhs) => exprNodes lhs ++ exprNodes rhs
  | .stmt (.goStmt c) => [.expr c]
  | .stmt (.deferStmt c) => [.expr c]
  | .stmt (.returnStmt rs) => exprNodes rs
  | .stmt (.branchStmt _ l) => walkOptIdent l
  | .stmt (.blockStmt (.mk l)) => stmtNodes l
  | .stmt (.ifStmt i c b e) =>
      optStmtNodes i ++ [.expr c, .stmt (.blockStmt b)] ++ optStmtNodes e
  | .stmt (.caseClause l b) => exprNodes l ++ stmtNodes b
  | .stmt (.switchStmt i t b) => optStmtNodes i ++ optExprNodes t ++ [.stmt (.blockStmt b)]
  | .stmt (.typeSwitchStmt i a b) => optStmtNodes i ++ [.stmt a, .stmt (.blockStmt b)]
  | .stmt (.commClause c b) => optStmtNodes c ++ stmtNodes b
  | .stmt (.selectStmt b) => [.stmt (.blockStmt b)]
  | .stmt (.forStmt i c p b) =>
      optStmtNodes i ++ optExprNodes c ++ optStmtNodes p ++ [.stmt (.blockStmt b)]
  | .stmt (.rangeStmt k v x b) =>
      optExprNodes k ++ optExprNodes v ++ [.expr x, .stmt (.blockStmt b)]
  | .spec (.importSpec n p) => walkOptIdent n ++ [.expr (.basicLit p)]
  | .spec (.valueSpec ns t vs) => walkIdents ns ++ optExprNodes t ++ exprNodes vs
  | .spec (.typeSpec n tps t) => .expr (.ident n) :: (optFieldListNodes tps ++ [.expr t])
  | .decl .badDecl => []
  | .decl (.genDecl (.mk _ specs)) => specs.map Node.spec
  | .decl (.funcDecl d) =>
      optFieldListNodes d.recv ++ [.expr (.ident d.name), .expr (.funcType d.type)] ++
        optBlockNodes d.body
  | .file f => .expr (.ident f.name) :: f.decls.map Node.decl

/-- `root.Contains n`: the node `n` lies in the syntax tree of `root`, at any depth: it is
`root` itself, or it is contained in a child of `root`. -/
def Node.Contains (root n : Node) : Prop :=
  Relation.ReflTransGen (fun a b => b ∈ a.children) root n

/-- A node that lies strictly inside a declaration: not a function declaration, not a file. -/
def Node.inner : Node → Prop
  | .decl (.funcDecl _) => False
  | .file _ => False
  | _ => True

/-- A node list that holds, with each of its nodes, the whole traversal of that node, and that
holds no function declaration and no file. -/
def Closed (l : List Node) : Prop :=
  ∀ n ∈ l, n.inner ∧ ∀ m ∈ Inspect n, m ∈ l

/-! ## Specification-side definitions -/

/-- The declared parameter names of a function declaration, in order. -/
def paramNames (funcDecl : FuncDecl) : List String :=
  funcDecl.type.params.list.flatMap Field.names

/-- The finding a single node gives rise to, in the words of the specification: a call
expression of shape `<identifier>.<method>(...)` whose identifier is a declared parameter name
gives one finding with that receiver and method; any other node gives none. -/
def couplingFinding? (funcDecl : FuncDecl) (fset : FileSet) : Node → Option methodCall
  | .expr (.callExpr pos (.selectorExpr (.ident x) m) _) =>
    if x ∈ paramNames funcDecl then
      some { receiver := x, method := m, line := fset.Line pos, pos := pos, callPath := [] }
    else none
  | _ => none

/-- Is the node a call expression of shape `<identifier>.<method>(...)` whose identifier is a
declared parameter name of the declaration? -/
def isCouplingCallSite (funcDecl : FuncDecl) : Node → Bool
  | .expr (.callExpr _ (.selectorExpr (.ident x) _) _) => decide (x ∈ paramNames funcDecl)
  | _ => false

/-- Is the node a call whose callee is a selector expression on something other than a bare
identifier? -/
def Node.isIndirectSelectorCall : Node → Bool
  | .expr (.callExpr _ (.selectorExpr (.ident _) _) _) => false
  | .expr (.callExpr _ (.selectorExpr _ _) _) => true
  | _ => false

/-- The name provider discovery records for a node: the callee of a direct call, the selected
name of a qualified call, nothing for any other node. -/
def calleeName? : Node → Option String
  | .expr (.callExpr _ (.ident n) _) => some n
  | .expr (.callExpr _ (.selectorExpr _ sel) _) => some sel
  | _ => none

/-- The call reference a single node gives rise to: a direct call `f(...)` gives the name `f`
without qualifier, a call `x.f(...)` on an identifier `x` gives the name `f` with qualifier `x`,
any other node gives none. -/
def functionCallOf? : Node → Option functionCall
  | .expr (.callExpr pos (.ident name) _) => some { funcName := name, pos := pos, pkg := "" }
  | .expr (.callExpr pos (.selectorExpr (.ident pkgIdent) sel) _) =>
    some { funcName := sel, pos := pos, pkg := pkgIdent }
  | _ => none

/-- The declaration contains a call expression whose callee name is `name`: the callee is the
bare identifier `name` or a selector expression selecting `name`. -/
def CallsName (d : FuncDecl) (name : String) : Prop :=
  ∃ pos fn args, Node.expr (.callExpr pos fn args) ∈ Inspect (.decl (.funcDecl d)) ∧
    (fn = .ident name ∨ ∃ x, fn = .selectorExpr x name)

/-- Some `Initialize*` function declaration of the file contains a call expression whose callee
name is `name`. -/
def InitializerCalls (file : File) (name : String) : Prop :=
  ∃ d, Decl.funcDecl d ∈ file.decls ∧ HasPrefix d.name "Initialize" = true ∧ CallsName d name

/-- The function declarations of the package at top level: files in order, declarations in
order. -/
def topLevelFuncDecls (pass : Pass) : List FuncDecl :=
  pass.Files.flatMap (fun f => f.decls.filterMap Decl.funcDecl?)

/-- The diagnostics of a declaration's own findings when it is scanned as a provider: one for
each finding of the coupling scanner, in order, positioned at the call, without call-path
suffix. -/
def ownDiagnostics (pass : Pass) (funcDecl : FuncDecl) : List Diagnostic :=
  (findMethodCallsInFunction funcDecl pass.Fset).map (fun c =>
    { Pos := c.pos
      Message := funcDecl.name ++ "() directly calls " ++ c.receiver ++ "." ++ c.method ++
        "() in wire provider function" })

/-- The events one call contributes to the loop of `analyzeRecursiveFunctionCalls`. -/
def followCall (settings : Settings) (pass : Pass) (callPath : List String)
    (funcCall : functionCall) : List Event :=
  if containsFunction callPath funcCall.funcName then []
  else
    match findFunctionDeclaration pass funcCall.funcName funcCall.pkg with
    | some funcDecl =>
      analyzeProviderFunctionForTightCoupling settings pass funcDecl
        (callPath ++ [funcCall.funcName])
    | none => []

/-- One step of the recursive walk: in recursive mode, under a call path of length at most 10,
a call in the declaration's body whose name is not on the path and which resolves to `callee`
leads from the scan of the declaration to the scan of `callee` under the extended path. -/
inductive Follows (settings : Settings) (pass : Pass) :
    FuncDecl × List String → FuncDecl × List String → Prop where
  | call (funcDecl : FuncDecl) (callPath : List String) (funcCall : functionCall)
      (callee : FuncDecl) :
      settings.Recursive = true → callPath.length ≤ 10 →
      funcCall ∈ findFunctionCallsInFunction funcDecl pass.Fset →
      containsFunction callPath funcCall.funcName = false →
      findFunctionDeclaration pass funcCall.funcName funcCall.pkg = some callee →
      Follows settings pass (funcDecl, callPath) (callee, callPath ++ [funcCall.funcName])

/-- The scans reachable from a scan by following calls. -/
def Reaches (settings : Settings) (pass : Pass) :
    FuncDecl × List String → FuncDecl × List String → Prop :=
  Relation.ReflTransGen (Follows settings pass)

/-- `CallChain events provider d p`: the call path `p` leads from the provider, scanned under
the path of its own name, to the declaration `d` scanned under `p`, each step being a call in
the declaration scanned under the path so far. -/
inductive CallChain (events : List Event) (provider : FuncDecl) :
    FuncDecl → List String → Prop where
  | start : Event.scan provider [provider.name] ∈ events →
      CallChain events provider provider [provider.name]
  | call (d : FuncDecl) (p : List String) (callee : FuncDecl) :
      CallChain events provider d p → CallsName d callee.name →
      Event.scan callee (p ++ [callee.name]) ∈ events →
      CallChain events provider callee (p ++ [callee.name])

/-- The names and call paths of the scans of a run, in order. -/
def scanNames (events : List Event) : List (String × List String) :=
  (scans events).map (fun sp => (sp.1.name, sp.2))

/-- The findings of a run with their diagnostics, in order. -/
def findingPairs (events : List Event) : List (methodCall × Diagnostic) :=
  events.filterMap (fun e => match e with
    | .finding c d => some (c, d)
    | _ => none)

/-! ## The walk with a budget of nested calls -/

/-- The loop of `analyzeRecursiveFunctionCalls` over the calls, where the analysis of a callee
is `step` and may give out (`none`). -/
def analyzeCallsFuel (step : FuncDecl → List String → Option (List Event)) (pass : Pass)
    (callPath : List String) : List functionCall → Option (List Event)
  | [] => some []
  | funcCall :: rest =>
    if containsFunction callPath funcCall.funcName then analyzeCallsFuel step pass callPath rest
    else
      match findFunctionDeclaration pass funcCall.funcName funcCall.pkg with
      | some funcDecl =>
        match step funcDecl (callPath ++ [funcCall.funcName]) with
        | some events => (analyzeCallsFuel step pass callPath rest).map (fun r => events ++ r)
        | none => none
      | none => analyzeCallsFuel step pass callPath rest

/-- `analyzeRecursiveFunctionCalls` where the analysis of a callee is `step`. -/
def analyzeRecursiveFunctionCallsFuel (step : FuncDecl → List String → Option (List Event))
    (pass : Pass) (functionCalls : List functionCall) (callPath : List String) :
    Option (List Event) :=
  if callPath.length > 10 then some []
  else analyzeCallsFuel step pass callPath functionCalls

/-- `analyzeProviderFunctionForTightCoupling` run with a budget of nested calls: every entry
into the function spends one unit, and `none` means the budget ran out before the walk
returned. -/
def analyzeProviderFunctionForTightCouplingFuel (settings : Settings) (pass : Pass) :
    Nat → FuncDecl → List String → Option (List Event)
  | 0, _, _ => none
  | fuel + 1, funcDecl, callPath =>
    let calls := findMethodCallsInFunction funcDecl pass.Fset
    let own := Event.scan funcDecl callPath :: reportCalls funcDecl calls callPath
    if settings.Recursive then
      (analyzeRecursiveFunctionCallsFuel
        (analyzeProviderFunctionForTightCouplingFuel settings pass fuel) pass
        (findFunctionCallsInFunction funcDecl pass.Fset) callPath).map (fun r => own ++ r)
    else some own

/-- The loop of `run` over the function declarations, with a budget of nested calls for each
provider. -/
def analyzeProvidersFuel (settings : Settings) (pass : Pass) (fuel : Nat)
    (wireFunctions : String → Bool) : List FuncDecl → Option (List Event)
  | [] => some []
  | funcDecl :: rest =>
    if wireFunctions funcDecl.name then
      match analyzeProviderFunctionForTightCouplingFuel settings pass fuel funcDecl
          [funcDecl.name] with
      | some events =>
        (analyzeProvidersFuel settings pass fuel wireFunctions rest).map (fun r => events ++ r)
      | none => none
    else analyzeProvidersFuel settings pass fuel wireFunctions rest

/-- `WireChecker.run` with a budget of nested calls for each provider. -/
def runFuel (fuel : Nat) (parseFile : String → Except String File) (settings : Settings)
    (pass : Pass) : Option RunResult :=
  if settings.WireGen = "" then some { events := [], err := none }
  else
    match parseWireGenFile parseFile settings.WireGen with
    | .error err =>
      some { events := [Event.failure
               { Pos := 0,
                 Message := "failed to parse wire-gen file " ++ settings.WireGen ++ ": " ++ err }]
             err := none }
    | .ok wireFunctions =>
      (analyzeProvidersFuel settings pass fuel wireFunctions (preorderFuncDecls pass)).map
        (fun events => { events := events, err := none })

/-! ## The walk with call paths as slices -/

/-- A Go slice of strings (`[]string`): the backing array it points into, its length and its
capacity. -/
structure Slice where
  array : Nat
  len : Nat
  cap : Nat
deriving DecidableEq, Repr

/-- The backing arrays allocated so far, each with its cells. -/
abbrev Heap := List (List String)

/-- The cells of a backing array. -/
def Heap.cells (h : Heap) (array : Nat) : List String :=
  (h[array]?).getD []

/-- The elements of a slice: the first `len` cells of its backing array. -/
def Slice.elems (s : Slice) (h : Heap) : List String :=
  (h.cells s.array).take s.len

/-- The slice points into an allocated array whose size is the slice's capacity, and its length
is within the capacity. -/
def Slice.WF (s : Slice) (h : Heap) : Prop :=
  s.array < h.length ∧ (h.cells s.array).length = s.cap ∧ s.len ≤ s.cap

/-- Go's `append(s, x)`: when the capacity allows, the element is written into the backing array
in place, behind the slice's elements, and the result shares the array; otherwise a new array
is allocated, of the capacity `grow` chooses (at least the new length), the elements are copied
and the element is written behind them. -/
def appendSlice (grow : Nat → Nat → Nat) (h : Heap) (s : Slice) (x : String) : Heap × Slice :=
  if s.len < s.cap then
    (h.set s.array ((h.cells s.array).set s.len x), { s with len := s.len + 1 })
  else
    let newcap := max (grow s.cap (s.len + 1)) (s.len + 1)
    (h ++ [s.elems h ++ [x] ++ List.replicate (newcap - (s.len + 1)) ""],
      { array := h.length, len := s.len + 1, cap := newcap })

mutual
/-- `analyzeProviderFunctionForTightCoupling` with the call path as a slice into the heap: the
heap after the call and the events. -/
def analyzeProviderFunctionForTightCouplingH (grow : Nat → Nat → Nat) (settings : Settings)
    (pass : Pass) (h : Heap) (funcDecl : FuncDecl) (callPath : Slice) : Heap × List Event :=
  let calls := findMethodCallsInFunction funcDecl pass.Fset
  let own := Event.scan funcDecl (callPath.elems h) ::
    reportCalls funcDecl calls (callPath.elems h)
  if settings.Recursive then
    let r := analyzeRecursiveFunctionCallsH grow settings pass h
      (findFunctionCallsInFunction funcDecl pass.Fset) callPath
    (r.1, own ++ r.2)
  else (h, own)
termination_by 2 * (11 - callPath.len) + 1
/-- `analyzeRecursiveFunctionCalls` with the call path as a slice into the heap: the loop
threads the heap, and `newCallPath := append(callPath, funcCall.funcName)` may write into the
array that `callPath` points into. -/
def analyzeRecursiveFunctionCallsH (grow : Nat → Nat → Nat) (settings : Settings)
    (pass : Pass) (h : Heap) (functionCalls : List functionCall) (callPath : Slice) :
    Heap × List Event :=
  if _h : callPath.len > 10 then (h, [])
  else
    functionCalls.foldl (fun acc funcCall =>
      if containsFunction (callPath.elems acc.1) funcCall.funcName then acc
      else
        match findFunctionDeclaration pass funcCall.funcName funcCall.pkg with
        | some funcDecl =>
          let newCallPath := appendSlice grow acc.1 callPath funcCall.funcName
          let r := analyzeProviderFunctionForTightCouplingH grow settings pass newCallPath.1
            funcDecl newCallPath.2
          (r.1, acc.2 ++ r.2)
        | none => acc) (h, [])
termination_by 2 * (11 - callPath.len)
decreasing_by
  all_goals simp_wf
  · unfold appendSlice
    split
    · simp only
      omega
    · simp only
      omega
end

/-- The events one call contributes to the loop of `analyzeRecursiveFunctionCallsH`, and the
heap after it. -/
def followCallH (grow : Nat → Nat → Nat) (settings : Settings) (pass : Pass)
    (callPath : Slice) (acc : Heap × List Event) (funcCall : functionCall) :
    Heap × List Event :=
  if containsFunction (callPath.elems acc.1) funcCall.funcName then acc
  else
    match findFunctionDeclaration pass funcCall.funcName funcCall.pkg with
    | some funcDecl =>
      let newCallPath := appendSlice grow acc.1 callPath funcCall.funcName
      let r := analyzeProviderFunctionForTightCouplingH grow settings pass newCallPath.1
        funcDecl newCallPath.2
      (r.1, acc.2 ++ r.2)
    | none => acc

/-- What a walk under the slice `s` may do to the heap: allocate arrays, and write into the
array of `s` behind the elements of `s`. Every other array allocated before, the elements of `s`
and the size of its array stay as they are. -/
def Frame (h h' : Heap) (s : Slice) : Prop :=
  h.length ≤ h'.length ∧
  (∀ a, a < h.length → a ≠ s.array → h'.cells a = h.cells a) ∧
  (h'.cells s.array).take s.len = (h.cells s.array).take s.len ∧
  (h'.cells s.array).length = (h.cells s.array).length

/-- `WireChecker.run` with the call paths as slices into a heap: every provider starts from the
freshly allocated one-element slice `[]string{funcDecl.Name.Name}`. -/
def runH (grow : Nat → Nat → Nat) (parseFile : String → Except String File)
    (settings : Settings) (pass : Pass) : RunResult :=
  if settings.WireGen = "" then { events := [], err := none }
  else
    match parseWireGenFile parseFile settings.WireGen with
    | .error err =>
      { events := [Event.failure
          { Pos := 0,
            Message := "failed to parse wire-gen file " ++ settings.WireGen ++ ": " ++ err }]
        err := none }
    | .ok wireFunctions =>
      { events := ((preorderFuncDecls pass).foldl (fun (acc : Heap × List Event) funcDecl =>
          if wireFunctions funcDecl.name then
            let r := analyzeProviderFunctionForTightCouplingH grow settings pass
              (acc.1 ++ [[funcDecl.name]]) funcDecl { array := acc.1.length, len := 1, cap := 1 }
            (r.1, acc.2 ++ r.2)
          else acc) ([], [])).2
        err := none }

/-! ## Example programs -/

/-- A position table with 100 positions to the line. -/
def exampleFset : FileSet :=
  { Line := fun p => p / 100 }

/-- A one-file package `wire` with the given function declarations. -/
def packageOf (decls : List FuncDecl) : Pass :=
  { Fset := exampleFset
    Files := [{ name := "wire", decls := decls.map Decl.funcDecl }]
    PkgName := "wire" }

/-- Recursive mode with a wire-gen path. -/
def recursiveSettings : Settings :=
  { WireGen := "wire_gen.go", Recursive := true }

/-- Non-recursive mode with a wire-gen path. -/
def directSettings : Settings :=
  { WireGen := "wire_gen.go", Recursive := false }

/-- A declaration `func f(p T) { p.m(); ...; p.m() }` with `k` copies of the same call. -/
def repeatedCallDecl (f p m : String) (pos k : Nat) : FuncDecl :=
  { recv := none
    name := f
    type := .mk none (.mk [.mk [p] (some (.ident "T"))]) none
    body := some (.mk (List.replicate k
      (.exprStmt (.callExpr pos (.selectorExpr (.ident p) m) [])))) }

/-- The declaration `func f(<p> T) { <e> }` with the single expression statement `e`. -/
def exprDecl (p : String) (e : Expr) : FuncDecl :=
  { recv := none
    name := "f"
    type := .mk none (.mk [.mk [p] (some (.ident "T"))]) none
    body := some (.mk [.exprStmt e]) }

/-- The expression `<p>.Foo().Bar()`: both calls start at position 10. -/
def chainedCall (p : String) : Expr :=
  .callExpr 10 (.selectorExpr (.callExpr 10 (.selectorExpr (.ident p) "Foo") []) "Bar") []

/-- The expression `<p>.field.M()`. -/
def fieldCall (p : String) : Expr :=
  .callExpr 10 (.selectorExpr (.selectorExpr (.ident p) "field") "M") []

/-- The expression `<p>.A(<p>.B())`: the outer call at position 10, its argument, the inner
call, at position 20. -/
def nestedArgCall (p : String) : Expr :=
  .callExpr 10 (.selectorExpr (.ident p) "A") [.callExpr 20 (.selectorExpr (.ident p) "B") []]

/-- The expression `Make[A, B](<p>.M())`: the call of the instantiated function at position 10,
its argument at position 20. -/
def indexListCall (p : String) : Expr :=
  .callExpr 10 (.indexListExpr (.ident "Make") [.ident "A", .ident "B"])
    [.callExpr 20 (.selectorExpr (.ident p) "M") []]

/-- The type-parameter list `[T interface{ ~[unsafe.Sizeof(int32(0))]byte }]`: the call of
`unsafe.Sizeof` at position 5, the conversion `int32(0)` at position 6. -/
def sizeofTypeParams : FieldList :=
  .mk [.mk ["T"] (some (.interfaceType (.mk [.mk [] (some (.unaryExpr "~"
    (.arrayType
      (some (.callExpr 5 (.selectorExpr (.ident "unsafe") "Sizeof")
        [.callExpr 6 (.ident "int32") [.basicLit "0"]]))
      (.ident "byte"))))])))]

/-- The declaration
`func Provide[T interface{ ~[unsafe.Sizeof(int32(0))]byte }](unsafe Dep) {}`: a parameter
carries the name of the package used in the constraint. -/
def genericDecl : FuncDecl :=
  { recv := none
    name := "Provide"
    type := .mk (some sizeofTypeParams) (.mk [.mk ["unsafe"] (some (.ident "Dep"))]) none
    body := some (.mk []) }

/-- The declaration `func Provide(p Dep) { foo(func() { p.M() }) }`: the closure is an argument
of the call at position 10, `p.M()` sits at position 20. -/
def closureArgDecl : FuncDecl :=
  { recv := none
    name := "Provide"
    type := .mk none (.mk [.mk ["p"] (some (.ident "Dep"))]) none
    body := some (.mk [.exprStmt (.callExpr 10 (.ident "foo")
      [.funcLit (.mk none (.mk []) none)
        (.mk [.exprStmt (.callExpr 20 (.selectorExpr (.ident "p") "M") [])])])]) }

/-- The declaration
`func Provide(p Dep) { go func() { defer func(q Dep) { p.M(); q.N() }(p) }() }`: a closure in a
closure; `p.M()` sits at position 30 and `q.N()` at position 40. -/
def nestedClosureDecl : FuncDecl :=
  { recv := none
    name := "Provide"
    type := .mk none (.mk [.mk ["p"] (some (.ident "Dep"))]) none
    body := some (.mk [.goStmt (.callExpr 10
      (.funcLit (.mk none (.mk []) none)
        (.mk [.deferStmt (.callExpr 20
          (.funcLit (.mk none (.mk [.mk ["q"] (some (.ident "Dep"))]) none)
            (.mk [.exprStmt (.callExpr 30 (.selectorExpr (.ident "p") "M") []),
                  .exprStmt (.callExpr 40 (.selectorExpr (.ident "q") "N") [])]))
          [.ident "p"])]))
      [])]) }

/-- The declaration `func Provide(p Dep) { func(q Dep) { p.M(); q.M() }(p) }`: the closure is
called at position 10, `p.M()` sits at position 20 and `q.M()` at position 30. -/
def closureDecl : FuncDecl :=
  { recv := none
    name := "Provide"
    type := .mk none (.mk [.mk ["p"] (some (.ident "Dep"))]) none
    body := some (.mk [.exprStmt (.callExpr 10
      (.funcLit (.mk none (.mk [.mk ["q"] (some (.ident "Dep"))]) none)
        (.mk [.exprStmt (.callExpr 20 (.selectorExpr (.ident "p") "M") []),
              .exprStmt (.callExpr 30 (.selectorExpr (.ident "q") "M") [])]))
      [.ident "p"])]) }

/-- The initializer file `func <name>(){ x := ProvideA(); y := pkg.ProvideB(x) }`. -/
def initializerFile (name : String) : File :=
  { name := "main"
    decls := [.funcDecl
      { recv := none
        name := name
        type := .mk none (.mk []) none
        body := some (.mk
          [.assignStmt [.ident "x"] ":=" [.callExpr 10 (.ident "ProvideA") []],
           .assignStmt [.ident "y"] ":="
             [.callExpr 20 (.selectorExpr (.ident "pkg") "ProvideB") [.ident "x"]]]) }] }

/-- The initializer file `func InitializeApp() { ProvideA(ProvideB()) }`: one provider call is
the argument of another. -/
def nestedInitializerFile : File :=
  { name := "main"
    decls := [.funcDecl
      { recv := none
        name := "InitializeApp"
        type := .mk none (.mk []) none
        body := some (.mk [.exprStmt
          (.callExpr 10 (.ident "ProvideA") [.callExpr 20 (.ident "ProvideB") []])]) }] }

/-- The initializer file
`func InitializeApp[T interface{ ~[unsafe.Sizeof(int32(0))]byte }]() { ProvideFoo() }`: the
constraint of the type parameter holds two call expressions. -/
def genericInitializerFile : File :=
  { name := "main"
    decls := [.funcDecl
      { recv := none
        name := "InitializeApp"
        type := .mk (some sizeofTypeParams) (.mk []) none
        body := some (.mk [.exprStmt (.callExpr 10 (.ident "ProvideFoo") [])]) }] }

/-- The initializer file `func InitializeApp(){ n1(); n2(); ... }` calling the given names. -/
def initializerCalling (names : List String) : File :=
  { name := "main"
    decls := [.funcDecl
      { recv := none
        name := "InitializeApp"
        type := .mk none (.mk []) none
        body := some (.mk (names.map (fun n => Stmt.exprStmt (.callExpr 1 (.ident n) [])))) }] }

/-- A parser that answers every path with the initializer file calling the given names. -/
def parseCalling (names : List String) : String → Except String File :=
  fun _ => .ok (initializerCalling names)

/-- A parser that fails on every path with the given error text. -/
def parseFailing (err : String) : String → Except String File :=
  fun _ => .error err

/-- The declaration `func <name>(dep Dep) { <callee>(dep) }`, its call at position `pos`. -/
def callerDecl (name callee : String) (pos : Nat) : FuncDecl :=
  { recv := none
    name := name
    type := .mk none (.mk [.mk ["dep"] (some (.ident "Dep"))]) none
    body := some (.mk [.exprStmt (.callExpr pos (.ident callee) [.ident "dep"])]) }

/-- The declaration `func <name>(dep Dep) { <pkg>.<callee>(dep) }`, its call at position
`pos`. -/
def qualifiedCallerDecl (name pkg callee : String) (pos : Nat) : FuncDecl :=
  { recv := none
    name := name
    type := .mk none (.mk [.mk ["dep"] (some (.ident "Dep"))]) none
    body := some (.mk [.exprStmt
      (.callExpr pos (.selectorExpr (.ident pkg) callee) [.ident "dep"])]) }

/-- The declaration `func <name>(dep Dep) { dep.Start() }`, its call at position `pos`. -/
def leafDecl (name : String) (pos : Nat) : FuncDecl :=
  { recv := none
    name := name
    type := .mk none (.mk [.mk ["dep"] (some (.ident "Dep"))]) none
    body := some (.mk [.exprStmt (.callExpr pos (.selectorExpr (.ident "dep") "Start") [])]) }

/-- A chain of declarations: each function calls the next one, the last one calls
`dep.Start()`. The call in the `i`-th function from the end sits at position `100 * i`. -/
def chainDecls : List String → List FuncDecl
  | [] => []
  | [a] => [leafDecl a 100]
  | a :: b :: rest => callerDecl a b (100 * (rest.length + 2)) :: chainDecls (b :: rest)

/-- The names `A1`, ..., `A11`. -/
def chain11 : List String :=
  ["A1", "A2", "A3", "A4", "A5", "A6", "A7", "A8", "A9", "A10", "A11"]

/-- The names `A1`, ..., `A12`. -/
def chain12 : List String :=
  chain11 ++ ["A12"]

/-- The two-function package with a call cycle: `func A(dep Dep) { B(dep) }` and
`func B(dep Dep) { A(dep) }`. -/
def cyclePackage : Pass :=
  packageOf [callerDecl "A" "B" 100, callerDecl "B" "A" 200]

/-- The provider `func ProvideFoo(dep *Dep) *Foo { dep.Start(); return &Foo{dep} }`, the call
`dep.Start()` at position 50. -/
def provideFooDecl : FuncDecl :=
  { recv := none
    name := "ProvideFoo"
    type := .mk none (.mk [.mk ["dep"] (some (.starExpr (.ident "Dep")))])
      (some (.mk [.mk [] (some (.starExpr (.ident "Foo")))]))
    body := some (.mk
      [.exprStmt (.callExpr 50 (.selectorExpr (.ident "dep") "Start") []),
       .returnStmt [.unaryExpr "&" (.compositeLit (some (.ident "Foo")) [.ident "dep"])]]) }

/-- The package of `func ProvideFoo(dep Dep) { helper(dep) }` and
`func helper(dep Dep) { dep.Start() }`. -/
def helperPackage : Pass :=
  packageOf (chainDecls ["ProvideFoo", "helper"])

/-- The package of `func ProvideFoo(dep *Dep) *Foo { dep.Start(); return &Foo{dep} }`,
`func ProvideBar(dep Dep) { helper(dep) }` and `func helper(dep Dep) { dep.Start() }`. -/
def mixedPackage : Pass :=
  packageOf [provideFooDecl, callerDecl "ProvideBar" "helper" 200, leafDecl "helper" 100]

/-- The package of `ProvideFoo`, `ProvideBar` and `helper` with another position table. -/
def mixedPackageOtherLines : Pass :=
  { mixedPackage with Fset := { Line := fun p => p } }

/-- The package `wire` of `func ProvideX(dep Dep) { <pkg>.helper(dep) }` and
`func helper(dep Dep) { dep.Start() }`. -/
def qualifiedPackage (pkg : String) : Pass :=
  packageOf [qualifiedCallerDecl "ProvideX" pkg "helper" 200, leafDecl "helper" 100]

/-- The method `func (t T) helper(dep Dep) { dep.Start() }`, the call at position 100. -/
def helperMethodDecl : FuncDecl :=
  { recv := some (.mk [.mk ["t"] (some (.ident "T"))])
    name := "helper"
    type := .mk none (.mk [.mk ["dep"] (some (.ident "Dep"))]) none
    body := some (.mk [.exprStmt (.callExpr 100 (.selectorExpr (.ident "dep") "Start") [])]) }

/-- The function `func helper() {}`. -/
def helperFuncDecl : FuncDecl :=
  { recv := none
    name := "helper"
    type := .mk none (.mk []) none
    body := some (.mk []) }

/-- The provider `func ProvideX(dep Dep) { helper() }`, the call at position 300. -/
def bareCallerDecl : FuncDecl :=
  { recv := none
    name := "ProvideX"
    type := .mk none (.mk [.mk ["dep"] (some (.ident "Dep"))]) none
    body := some (.mk [.exprStmt (.callExpr 300 (.ident "helper") [])]) }

/-- The package `wire` of the provider `ProvideX`, the method `helper` and, after it, the
function `helper`. -/
def methodPackage : Pass :=
  packageOf [bareCallerDecl, helperMethodDecl, helperFuncDecl]

/-- A parser that answers every path with the initializer file calling `ProvideFoo`. -/
def parseProvideFoo : String → Except String File :=
  fun _ => .ok (initializerCalling ["ProvideFoo"])

/-- A parser that answers every path with the initializer file calling `ProvideFoo` and
`ProvideBar`. -/
def parseProvideFooBar : String → Except String File :=
  fun _ => .ok (initializerCalling ["ProvideFoo", "ProvideBar"])

/-- A growth policy that doubles the capacity. -/
def doubling : Nat → Nat → Nat :=
  fun cap _ => 2 * cap

/-- A heap with one array of capacity 2 that holds the path `[ProvideBar]` and a spare cell. -/
def spareHeap : Heap :=
  [["ProvideBar", ""]]

/-- The slice `[ProvideBar]` of length 1 and capacity 2 in `spareHeap`: an append to it writes
in place. -/
def sparePath : Slice :=
  { array := 0, len := 1, cap := 2 }

end Wirecheck

/-! # Alert rule provenance (`apps/alerting/rules/pkg/apis/alerting/v0alpha1`) -/

namespace V0alpha1

/-- `InternalPrefix`. -/
def InternalPrefix : String := "grafana.app/"

/-- `GroupLabelKey`. -/
def GroupLabelKey : String := InternalPrefix ++ "group"

/-- `GroupIndexLabelKey`. -/
def GroupIndexLabelKey : String := GroupLabelKey ++ "-index"

/-- `ProvenanceStatusAnnotationKey`. -/
def ProvenanceStatusAnnotationKey : String := InternalPrefix ++ "provenance"

/-- `ProvenanceStatusNone`. -/
def ProvenanceStatusNone : String := "none"

/-- The fields of `AlertRuleSpec` that the source reads. -/
structure AlertRuleSpec where
  NoDataState : String
  ExecErrState : String

/-- An alert rule (`AlertRule`): its annotation map, a `map[string]string` that may be nil
(`none`) and whose lookup of a missing key is `none`, and its spec. -/
structure AlertRule where
  Annotations : Option (String → Option String)
  Spec : AlertRuleSpec

/-- The annotation stored under a key, reading a nil map as an empty one. -/
def AlertRule.annotation (o : AlertRule) (key : String) : Option String :=
  match o.Annotations with
  | none => none
  | some m => m key

/-- `(*AlertRule).GetProvenanceStatus`; the receiver may be nil (`none`). -/
def GetProvenanceStatus (o : Option AlertRule) : String :=
  match o with
  | none => ""
  | some o =>
    match o.Annotations with
    | none => ""
    | some annotations =>
      match annotations ProvenanceStatusAnnotationKey with
      | none => ProvenanceStatusNone
      | some s => if s = "" then ProvenanceStatusNone else s

/-- `(*AlertRule).SetProvenanceStatus`: the rule after the call; `none` stands for the panic of
a nil receiver. -/
def SetProvenanceStatus (o : Option AlertRule) (status : String) : Option AlertRule :=
  match o with
  | none => none
  | some o =>
    let annotations : String → Option String :=
      match o.Annotations with
      | none => fun _ => none
      | some m => m
    let status := if status = "" then ProvenanceStatusNone else status
    some { o with
      Annotations := some (fun k =>
        if k = ProvenanceStatusAnnotationKey then some status else annotations k) }

/-- `DefaultNoDataState`. -/
def DefaultNoDataState : String := "NoData"

/-- `DefaultExecErrState`. -/
def DefaultExecErrState : String := "Error"

/-- `(*AlertRuleSpec).NoDataStateOrDefault`. -/
def NoDataStateOrDefault (s : AlertRuleSpec) : String :=
  if s.NoDataState = "" then DefaultNoDataState else s.NoDataState

/-- `(*AlertRuleSpec).ExecErrStateOrDefault`. -/
def ExecErrStateOrDefault (s : AlertRuleSpec) : String :=
  if s.ExecErrState = "" then DefaultExecErrState else s.ExecErrState

/-- A rule with a nil annotation map. -/
def bareRule : AlertRule :=
  { Annotations := none, Spec := { NoDataState := "", ExecErrState := "" } }

/-- A rule annotated with a provenance and a folder. -/
def annotatedRule : AlertRule :=
  { Annotations := some (fun k =>
      if k = "grafana.app/provenance" then some "api"
      else if k = "grafana.app/folder" then some "f1" else none)
    Spec := { NoDataState := "OK", ExecErrState := "" } }

end V0alpha1

/-! # Resource store migrations (`pkg/storage/unified/sql/db/migrations`) -/

namespace Migrations

/-- The configuration as `MigrateResourceStore` reads it (`cfg.Raw`): the string a key of a
section reads as, the empty string when the section or the key is absent. -/
structure Cfg where
  Raw : String → String → String

/-- The boolean a key's string stands for in the ini library (`parseBool`), if any. -/
def parseBool (str : String) : Option Bool :=
  if str ∈ ["1", "t", "T", "true", "TRUE", "True", "YES", "yes", "Yes", "y", "ON", "on", "On"]
  then some true
  else if str ∈ ["0", "f", "F", "false", "FALSE", "False", "NO", "no", "No", "n", "OFF", "off",
    "Off"]
  then some false
  else none

/-- `key.MustBool(defaultVal)`: the parsed boolean, the default when the string does not
parse. -/
def MustBool (value : String) (defaultVal : Bool) : Bool :=
  match parseBool value with
  | some b => b
  | none => defaultVal

/-- What `MigrateResourceStore` calls outside its own file: the integer a key reads as
(`key.MustInt()`), and the migrator with its operations, each returning the migrator after the
call. `RunMigrations` also returns the error, `none` for nil. -/
structure Env (Ctx Engine Mg : Type) where
  MustInt : String → Int
  NewScopedMigrator : Option Engine → Cfg → String → Mg
  AddCreateMigration : Mg → Mg
  initResourceTables : Mg → Mg
  RunMigrations : Mg → Ctx → Bool → Int → Option String

/-- A call `MigrateResourceStore` makes on the migrator package. -/
inductive Call where
  | NewScopedMigrator (scope : String)
  | AddCreateMigration
  | initResourceTables
  | RunMigrations (isDatabaseLockingEnabled : Bool) (lockAttemptTimeout : Int)
deriving DecidableEq, Repr

/-- What a call of `MigrateResourceStore` leaves behind: the returned error (`none` for nil)
and the calls made on the migrator package, in order. -/
structure Result where
  err : Option String
  calls : List Call
deriving DecidableEq, Repr

/-- `MigrateResourceStore`; the engine may be nil (`none`). -/
def MigrateResourceStore {Ctx Engine Mg : Type} (env : Env Ctx Engine Mg) (ctx : Ctx)
    (engine : Option Engine) (cfg : Cfg) : Result :=
  let sec := cfg.Raw "database"
  if MustBool (sec "skip_migrations") false then { err := none, calls := [] }
  else
    let mg := env.NewScopedMigrator engine cfg "resource"
    let mg := env.AddCreateMigration mg
    let mg := env.initResourceTables mg
    let locking := MustBool (sec "migration_locking") true
    let timeout := env.MustInt (sec "locking_attempt_timeout_sec")
    { err := env.RunMigrations mg ctx locking timeout
      calls := [.NewScopedMigrator "resource", .AddCreateMigration, .initResourceTables,
        .RunMigrations locking timeout] }

/-- The configuration of the test: section `database` with `skip_migrations = true`. -/
def skipCfg : Cfg :=
  { Raw := fun sec key =>
      if sec = "database" ∧ key = "skip_migrations" then "true" else "" }

/-- A configuration without any key. -/
def emptyCfg : Cfg :=
  { Raw := fun _ _ => "" }

/-- A migrator package whose migrations fail on a nil engine and succeed otherwise; the
migrator is the engine it was created on. -/
def strictEnv : Env Unit Unit (Option Unit) :=
  { MustInt := fun _ => 0
    NewScopedMigrator := fun engine _ _ => engine
    AddCreateMigration := fun mg => mg
    initResourceTables := fun mg => mg
    RunMigrations := fun mg _ _ _ =>
      match mg with
      | none => some "nil engine"
      | some _ => none }

end Migrations

/-! # Theorems: wirecheck -/

namespace Wirecheck

/-! ## The shape of a traversal: a pre-order listing is closed under sub-traversals -/

theorem closed_nil : Closed [] := by
  intro n hn
  cases hn

theorem closed_append {l₁ l₂ : List Node} (h₁ : Closed l₁) (h₂ : Closed l₂) :
    Closed (l₁ ++ l₂) := by
  intro n hn
  rcases List.mem_append.1 hn with h | h
  · exact ⟨(h₁ n h).1, fun m hm => List.mem_append.2 (Or.inl ((h₁ n h).2 m hm))⟩
  · exact ⟨(h₂ n h).1, fun m hm => List.mem_append.2 (Or.inr ((h₂ n h).2 m hm))⟩

theorem closed_cons {n : Node} {l : List Node} (hn : Inspect n = n :: l) (hi : n.inner)
    (hl : Closed l) : Closed (n :: l) := by
  intro k hk
  rcases List.mem_cons.1 hk with h | h
  · subst h
    exact ⟨hi, fun m hm => by rw [hn] at hm; exact hm⟩
  · exact ⟨(hl k h).1, fun m hm => List.mem_cons_of_mem _ ((hl k h).2 m hm)⟩

theorem closed_ident (name : String) : Closed [Node.expr (.ident name)] :=
  closed_cons (by simp [Inspect, walkExpr]) trivial closed_nil

theorem closed_walkIdents (names : List String) : Closed (walkIdents names) := by
  induction names with
  | nil => exact closed_nil
  | cons a t ih => exact closed_append (closed_ident a) ih

theorem closed_walkOptIdent (name : Option String) : Closed (walkOptIdent name) := by
  cases name with
  | none => exact closed_nil
  | some a => exact closed_ident a

mutual
theorem closed_walkExpr : (e : Expr) → Closed (walkExpr e)
  | .badExpr => closed_cons (by simp [Inspect, walkExpr]) trivial closed_nil
  | .ident n => closed_ident n
  | .ellipsis elt =>
    closed_cons (by simp [Inspect, walkExpr]) trivial (closed_walkOptExpr elt)
  | .basicLit v => closed_cons (by simp [Inspect, walkExpr]) trivial closed_nil
  | .funcLit t b =>
    closed_cons (by simp [Inspect, walkExpr]) trivial
      (closed_append (closed_walkFuncType t) (closed_walkBlock b))
  | .compositeLit t es =>
    closed_cons (by simp [Inspect, walkExpr]) trivial
      (closed_append (closed_walkOptExpr t) (closed_walkExprs es))
  | .parenExpr x => closed_cons (by simp [Inspect, walkExpr]) trivial (closed_walkExpr x)
  | .selectorExpr x s =>
    closed_cons (by simp [Inspect, walkExpr]) trivial
      (closed_append (closed_walkExpr x) (closed_ident s))
  | .indexExpr x i =>
    closed_cons (by simp [Inspect, walkExpr]) trivial
      (closed_append (closed_walkExpr x) (closed_walkExpr i))
  | .indexListExpr x is =>
    closed_cons (by simp [Inspect, walkExpr]) trivial
      (closed_append (closed_walkExpr x) (closed_walkExprs is))
  | .sliceExpr x l h m =>
    closed_cons (by simp [Inspect, walkExpr]) trivial
      (closed_append (closed_append (closed_append (closed_walkExpr x) (closed_walkOptExpr l))
        (closed_walkOptExpr h)) (closed_walkOptExpr m))
  | .typeAssertExpr x t =>
    closed_cons (by simp [Inspect, walkExpr]) trivial
      (closed_append (closed_walkExpr x) (closed_walkOptExpr t))
  | .callExpr p f as =>
    closed_cons (by simp [Inspect, walkExpr]) trivial
      (closed_append (closed_walkExpr f) (closed_walkExprs as))
  | .starExpr x => closed_cons (by simp [Inspect, walkExpr]) trivial (closed_walkExpr x)
  | .unaryExpr op x => closed_cons (by simp [Inspect, walkExpr]) trivial (closed_walkExpr x)
  | .binaryExpr x op y =>
    closed_cons (by simp [Inspect, walkExpr]) trivial
      (closed_append (closed_walkExpr x) (closed_walkExpr y))
  | .keyValueExpr k v =>
    closed_cons (by simp [Inspect, walkExpr]) trivial
      (closed_append (closed_walkExpr k) (closed_walkExpr v))
  | .arrayType l e =>
    closed_cons (by simp [Inspect, walkExpr]) trivial
      (closed_append (closed_walkOptExpr l) (closed_walkExpr e))
  | .structType fs =>
    closed_cons (by simp [Inspect, walkExpr]) trivial (closed_walkFieldList fs)
  | .funcType t => by
    rw [walkExpr]
    exact closed_walkFuncType t
  | .interfaceType ms =>
    closed_cons (by simp [Inspect, walkExpr]) trivial (closed_walkFieldList ms)
  | .mapType k v =>
    closed_cons (by simp [Inspect, walkExpr]) trivial
      (closed_append (closed_walkExpr k) (closed_walkExpr v))
  | .chanType v => closed_cons (by simp [Inspect, walkExpr]) trivial (closed_walkExpr v)
theorem closed_walkOptExpr : (e : Option Expr) → Closed (walkOptExpr e)
  | none => closed_nil
  | some e => by
    rw [walkOptExpr]
    exact closed_walkExpr e
theorem closed_walkExprs : (es : List Expr) → Closed (walkExprs es)
  | [] => closed_nil
  | e :: es => by
    rw [walkExprs]
    exact closed_append (closed_walkExpr e) (closed_walkExprs es)
theorem closed_walkField : (f : Field) → Closed (walkField f)
  | .mk names t =>
    closed_cons (by simp [Inspect, walkField]) trivial
      (closed_append (closed_walkIdents names) (closed_walkOptExpr t))
theorem closed_walkFields : (fs : List Field) → Closed (walkFields fs)
  | [] => closed_nil
  | f :: fs => by
    rw [walkFields]
    exact closed_append (closed_walkField f) (closed_walkFields fs)
theorem closed_walkFieldList : (l : FieldList) → Closed (walkFieldList l)
  | .mk l => closed_cons (by simp [Inspect, walkFieldList]) trivial (closed_walkFields l)
theorem closed_walkOptFieldList : (l : Option FieldList) → Closed (walkOptFieldList l)
  | none => closed_nil
  | some l => by
    rw [walkOptFieldList]
    exact closed_walkFieldList l
theorem closed_walkFuncType : (t : FuncType) → Closed (walkFuncType t)
  | .mk tps ps rs =>
    closed_cons (by simp [Inspect, walkExpr, walkFuncType]) trivial
      (closed_append (closed_append (closed_walkOptFieldList tps) (closed_walkFieldList ps))
        (closed_walkOptFieldList rs))
theorem closed_walkBlock : (b : Block) → Closed (walkBlock b)
  | .mk l => closed_cons (by simp [Inspect, walkStmt, walkBlock]) trivial (closed_walkStmts l)
theorem closed_walkStmt : (s : Stmt) → Closed (walkStmt s)
  | .badStmt => closed_cons (by simp [Inspect, walkStmt]) trivial closed_nil
  | .declStmt d => closed_cons (by simp [Inspect, walkStmt]) trivial (closed_walkGenDecl d)
  | .emptyStmt => closed_cons (by simp [Inspect, walkStmt]) trivial closed_nil
  | .labeledStmt l s =>
    closed_cons (by simp [Inspect, walkStmt]) trivial
      (closed_append (closed_ident l) (closed_walkStmt s))
  | .exprStmt x => closed_cons (by simp [Inspect, walkStmt]) trivial (closed_walkExpr x)
  | .sendStmt c v =>
    closed_cons (by simp [Inspect, walkStmt]) trivial
      (closed_append (closed_walkExpr c) (closed_walkExpr v))
  | .incDecStmt x tok => closed_cons (by simp [Inspect, walkStmt]) trivial (closed_walkExpr x)
  | .assignStmt lhs tok rhs =>
    closed_cons (by simp [Inspect, walkStmt]) trivial
      (closed_append (closed_walkExprs lhs) (closed_walkExprs rhs))
  | .goStmt c => closed_cons (by simp [Inspect, walkStmt]) trivial (closed_walkExpr c)
  | .deferStmt c => closed_cons (by simp [Inspect, walkStmt]) trivial (closed_walkExpr c)
  | .returnStmt rs => closed_cons (by simp [Inspect, walkStmt]) trivial (closed_walkExprs rs)
  | .branchStmt tok l =>
    closed_cons (by simp [Inspect, walkStmt]) trivial (closed_walkOptIdent l)
  | .blockStmt b => by
    rw [walkStmt]
    exact closed_walkBlock b
  | .ifStmt i c b e =>
    closed_cons (by simp [Inspect, walkStmt]) trivial
      (closed_append (closed_append (closed_append (closed_walkOptStmt i) (closed_walkExpr c))
        (closed_walkBlock b)) (closed_walkOptStmt e))
  | .caseClause l b =>
    closed_cons (by simp [Inspect, walkStmt]) trivial
      (closed_append (closed_walkExprs l) (closed_walkStmts b))
  | .switchStmt i t b =>
    closed_cons (by simp [Inspect, walkStmt]) trivial
      (closed_append (closed_append (closed_walkOptStmt i) (closed_walkOptExpr t))
        (closed_walkBlock b))
  | .typeSwitchStmt i a b =>
    closed_cons (by simp [Inspect, walkStmt]) trivial
      (closed_append (closed_append (closed_walkOptStmt i) (closed_walkStmt a))
        (closed_walkBlock b))
  | .commClause c b =>
    closed_cons (by simp [Inspect, walkStmt]) trivial
      (closed_append (closed_walkOptStmt c) (closed_walkStmts b))
  | .selectStmt b => closed_cons (by simp [Inspect, walkStmt]) trivial (closed_walkBlock b)
  | .forStmt i c p b =>
    closed_cons (by simp [Inspect, walkStmt]) trivial
      (closed_append (closed_append (closed_append (closed_walkOptStmt i) (closed_walkOptExpr c))
        (closed_walkOptStmt p)) (closed_walkBlock b))
  | .rangeStmt k v x b =>
    closed_cons (by simp [Inspect, walkStmt]) trivial
      (closed_append (closed_append (closed_append (closed_walkOptExpr k) (closed_walkOptExpr v))
        (closed_walkExpr x)) (closed_walkBlock b))
theorem closed_walkOptStmt : (s : Option Stmt) → Closed (walkOptStmt s)
  | none => closed_nil
  | some s => by
    rw [walkOptStmt]
    exact closed_walkStmt s
theorem closed_walkStmts : (ss : List Stmt) → Closed (walkStmts ss)
  | [] => closed_nil
  | s :: ss => by
    rw [walkStmts]
    exact closed_append (closed_walkStmt s) (closed_walkStmts ss)
theorem closed_walkSpec : (s : Spec) → Closed (walkSpec s)
  | .importSpec n p =>
    closed_cons (by simp [Inspect, walkSpec]) trivial
      (closed_append (closed_walkOptIdent n)
        (closed_cons (by simp [Inspect, walkExpr]) trivial closed_nil))
  | .valueSpec ns t vs =>
    closed_cons (by simp [Inspect, walkSpec]) trivial
      (closed_append (closed_append (closed_walkIdents ns) (closed_walkOptExpr t))
        (closed_walkExprs vs))
  | .typeSpec n tps t =>
    closed_cons (by simp [Inspect, walkSpec]) trivial
      (closed_append (closed_ident n)
        (closed_append (closed_walkOptFieldList tps) (closed_walkExpr t)))
theorem closed_walkSpecs : (ss : List Spec) → Closed (walkSpecs ss)
  | [] => closed_nil
  | s :: ss => by
    rw [walkSpecs]
    exact closed_append (closed_walkSpec s) (closed_walkSpecs ss)
theorem closed_walkGenDecl : (d : GenDecl) → Closed (walkGenDecl d)
  | .mk tok specs =>
    closed_cons (by simp [Inspect, walkDecl, walkGenDecl]) trivial (closed_walkSpecs specs)
end

/-! ## The traversal lists the nodes of the tree -/

theorem flatMap_exprNodes (es : List Expr) : (exprNodes es).flatMap Inspect = walkExprs es := by
  induction es with
  | nil => rfl
  | cons e es ih =>
    rw [walkExprs, ← ih]
    rfl

theorem flatMap_optExprNodes (e : Option Expr) :
    (optExprNodes e).flatMap Inspect = walkOptExpr e := by
  cases e with
  | none => rfl
  | some e => simp [optExprNodes, walkOptExpr, Inspect]

theorem flatMap_stmtNodes (ss : List Stmt) : (stmtNodes ss).flatMap Inspect = walkStmts ss := by
  induction ss with
  | nil => rfl
  | cons s ss ih =>
    rw [walkStmts, ← ih]
    rfl

theorem flatMap_optStmtNodes (s : Option Stmt) :
    (optStmtNodes s).flatMap Inspect = walkOptStmt s := by
  cases s with
  | none => rfl
  | some s => simp [optStmtNodes, walkOptStmt, Inspect]

theorem flatMap_optFieldListNodes (l : Option FieldList) :
    (optFieldListNodes l).flatMap Inspect = walkOptFieldList l := by
  cases l with
  | none => rfl
  | some l => simp [optFieldListNodes, walkOptFieldList, Inspect]

theorem flatMap_optBlockNodes (b : Option Block) :
    (optBlockNodes b).flatMap Inspect = walkOptBlock b := by
  cases b with
  | none => rfl
  | some b => simp [optBlockNodes, walkOptBlock, Inspect, walkStmt]

theorem flatMap_walkIdents (names : List String) :
    (walkIdents names).flatMap Inspect = walkIdents names := by
  induction names with
  | nil => rfl
  | cons a t ih =>
    simp only [walkIdents, List.map_cons, List.flatMap_cons] at ih ⊢
    rw [ih]
    simp [Inspect, walkExpr]

theorem flatMap_walkOptIdent (name : Option String) :
    (walkOptIdent name).flatMap Inspect = walkOptIdent name := by
  cases name with
  | none => rfl
  | some a => simp [walkOptIdent, Inspect, walkExpr]

theorem flatMap_fieldNodes (l : List Field) :
    (l.map Node.field).flatMap Inspect = walkFields l := by
  induction l with
  | nil => rfl
  | cons f fs ih =>
    rw [walkFields, ← ih]
    rfl

theorem flatMap_specNodes (l : List Spec) :
    (l.map Node.spec).flatMap Inspect = walkSpecs l := by
  induction l with
  | nil => rfl
  | cons f fs ih =>
    rw [walkSpecs, ← ih]
    rfl

theorem flatMap_declNodes (l : List Decl) :
    (l.map Node.decl).flatMap Inspect = l.flatMap walkDecl := by
  induction l with
  | nil => rfl
  | cons f fs ih =>
    rw [List.flatMap_cons, ← ih]
    rfl

theorem inspect_eq (n : Node) : Inspect n = n :: n.children.flatMap Inspect := by
  cases n with
  | expr e =>
    cases e with
    | funcType t =>
      cases t
      simp [Inspect, walkExpr, walkFuncType, Node.children, flatMap_optFieldListNodes]
    | _ =>
      simp [Inspect, walkExpr, walkStmt, walkBlock, Node.children, flatMap_exprNodes,
        flatMap_optExprNodes]
  | field f =>
    cases f
    simp [Inspect, walkField, Node.children, flatMap_walkIdents, flatMap_optExprNodes]
  | fieldList l =>
    cases l
    simp [Inspect, walkFieldList, Node.children, flatMap_fieldNodes]
  | stmt s =>
    cases s with
    | blockStmt b =>
      cases b
      simp [Inspect, walkStmt, walkBlock, Node.children, flatMap_stmtNodes]
    | _ =>
      simp [Inspect, walkStmt, walkBlock, walkExpr, walkDecl, Node.children, flatMap_exprNodes,
        flatMap_optExprNodes, flatMap_stmtNodes, flatMap_optStmtNodes, flatMap_walkOptIdent]
  | spec s =>
    cases s <;>
      simp [Inspect, walkSpec, walkExpr, Node.children, flatMap_exprNodes, flatMap_optExprNodes,
        flatMap_walkIdents, flatMap_walkOptIdent, flatMap_optFieldListNodes]
  | decl d =>
    cases d with
    | badDecl => simp [Inspect, walkDecl, Node.children]
    | genDecl g =>
      cases g
      simp [Inspect, walkDecl, walkGenDecl, Node.children, flatMap_specNodes]
    | funcDecl d =>
      simp [Inspect, walkDecl, walkFuncDecl, walkExpr, Node.children, flatMap_optFieldListNodes,
        flatMap_optBlockNodes]
  | file f =>
    simp [Inspect, walkFile, walkExpr, Node.children, flatMap_declNodes]

theorem length_le_flatMap {α β : Type} (f : α → List β) (l : List α) (a : α) (h : a ∈ l) :
    (f a).length ≤ (l.flatMap f).length := by
  induction l with
  | nil => cases h
  | cons b t ih =>
    rw [List.flatMap_cons, List.length_append]
    rcases List.mem_cons.1 h with rfl | h
    · omega
    · have := ih h
      omega

theorem contains_of_mem_inspect (k : Nat) :
    ∀ (root n : Node), (Inspect root).length ≤ k → n ∈ Inspect root → root.Contains n := by
  induction k with
  | zero =>
    intro root n hk hn
    rw [inspect_eq] at hk
    simp at hk
  | succ k ih =>
    intro root n hk hn
    rw [inspect_eq, List.mem_cons, List.mem_flatMap] at hn
    rcases hn with rfl | ⟨c, hc, hn⟩
    · exact Relation.ReflTransGen.refl
    · have hlen : (Inspect c).length ≤ k := by
        have h1 := length_le_flatMap Inspect root.children c hc
        rw [inspect_eq root, List.length_cons] at hk
        omega
      exact Relation.ReflTransGen.head hc (ih c n hlen hn)

theorem mem_inspect_of_contains (root n : Node) (h : root.Contains n) : n ∈ Inspect root := by
  induction h using Relation.ReflTransGen.head_induction_on with
  | refl =>
    rw [inspect_eq]
    exact List.mem_cons_self _ _
  | head hab _ ih =>
    rw [inspect_eq, List.mem_cons, List.mem_flatMap]
    exact Or.inr ⟨_, hab, ih⟩

theorem mem_inspect_iff (root n : Node) : n ∈ Inspect root ↔ root.Contains n :=
  ⟨contains_of_mem_inspect _ root n (Nat.le_refl _), mem_inspect_of_contains root n⟩

/-! ## The coupling scanner -/

theorem isParameter_iff (ident : String) (funcDecl : FuncDecl) :
    isParameter ident funcDecl = true ↔ ident ∈ paramNames funcDecl := by
  simp only [isParameter, paramNames, List.any_eq_true, List.mem_flatMap, decide_eq_true_eq]
  constructor
  · rintro ⟨f, hf, n, hn, rfl⟩
    exact ⟨f, hf, hn⟩
  · rintro ⟨f, hf, hn⟩
    exact ⟨f, hf, ident, hn, rfl⟩

theorem foldl_collect {α β : Type} (g : α → Option β) (l : List α) (init : List β) :
    l.foldl (fun acc a => match g a with
      | some b => acc ++ [b]
      | none => acc) init = init ++ l.filterMap g := by
  induction l generalizing init with
  | nil => simp
  | cons a t ih =>
    rw [List.foldl_cons, ih]
    cases h : g a <;> simp [List.filterMap_cons, h]

theorem couplingFinding?_eq_none (funcDecl : FuncDecl) (fset : FileSet) (n : Node)
    (h : ∀ pos name sel args,
      n = Node.expr (.callExpr pos (.selectorExpr (.ident name) sel) args) → False) :
    couplingFinding? funcDecl fset n = none := by
  unfold couplingFinding?
  split
  · exact absurd rfl (fun e => h _ _ _ _ e)
  · rfl

theorem findMethodCallsInFunction_eq (funcDecl : FuncDecl) (fset : FileSet) :
    findMethodCallsInFunction funcDecl fset =
      (Inspect (.decl (.funcDecl funcDecl))).filterMap (couplingFinding? funcDecl fset) := by
  have h := foldl_collect (couplingFinding? funcDecl fset) (Inspect (.decl (.funcDecl funcDecl))) []
  rw [List.nil_append] at h
  rw [← h, findMethodCallsInFunction]
  congr 1
  funext calls n
  split
  · rename_i pos name sel args
    by_cases hp : name ∈ paramNames funcDecl
    · simp [couplingFinding?, (isParameter_iff name funcDecl).2 hp, hp]
    · have hq : isParameter name funcDecl = false := by
        cases hb : isParameter name funcDecl
        · rfl
        · exact absurd ((isParameter_iff name funcDecl).1 hb) hp
      simp [couplingFinding?, hq, hp]
  · rename_i hne
    rw [couplingFinding?_eq_none funcDecl fset n hne]

theorem couplingFinding?_isSome (funcDecl : FuncDecl) (fset : FileSet) (n : Node) :
    (couplingFinding? funcDecl fset n).isSome = isCouplingCallSite funcDecl n := by
  unfold couplingFinding? isCouplingCallSite
  split
  · rename_i pos x m args
    by_cases hp : x ∈ paramNames funcDecl <;> simp [hp]
  · rfl

theorem length_filterMap_eq_countP {α β : Type} (g : α → Option β) (l : List α) :
    (l.filterMap g).length = l.countP (fun a => (g a).isSome) := by
  induction l with
  | nil => rfl
  | cons a t ih =>
    cases h : g a <;> simp [List.filterMap_cons, List.countP_cons, h, ih]

theorem couplingFinding?_receiver (funcDecl : FuncDecl) (fset : FileSet) (n : Node)
    (c : methodCall) (h : couplingFinding? funcDecl fset n = some c) :
    ∃ pos args, n = Node.expr (.callExpr pos (.selectorExpr (.ident c.receiver) c.method) args) ∧
      c.receiver ∈ paramNames funcDecl ∧ c.pos = pos ∧ c.line = fset.Line pos ∧
      c.callPath = [] := by
  unfold couplingFinding? at h
  split at h
  · rename_i pos x m args
    by_cases hp : x ∈ paramNames funcDecl
    · rw [if_pos hp] at h
      cases h
      exact ⟨pos, args, rfl, hp, rfl, rfl, rfl⟩
    · rw [if_neg hp] at h
      cases h
  · cases h

theorem filterMap_walkStmts_replicate (g : Node → Option methodCall) (s : Stmt) (x : methodCall)
    (h : (walkStmt s).filterMap g = [x]) (k : Nat) :
    (walkStmts (List.replicate k s)).filterMap g = List.replicate k x := by
  induction k with
  | zero => simp [walkStmts]
  | succ k ih => simp [List.replicate_succ, walkStmts, List.filterMap_append, h, ih]

theorem findMethodCallsInFunction_repeated (f p m : String) (pos k : Nat) (fset : FileSet) :
    findMethodCallsInFunction (repeatedCallDecl f p m pos k) fset =
      List.replicate k
        { receiver := p, method := m, line := fset.Line pos, pos := pos, callPath := [] } := by
  have hp : paramNames (repeatedCallDecl f p m pos k) = [p] := by
    simp [paramNames, repeatedCallDecl, FuncType.params, FieldList.list, Field.names]
  rw [findMethodCallsInFunction_eq]
  have hs : (walkStmt (.exprStmt (.callExpr pos (.selectorExpr (.ident p) m) []))).filterMap
      (couplingFinding? (repeatedCallDecl f p m pos k) fset) =
      [{ receiver := p, method := m, line := fset.Line pos, pos := pos, callPath := [] }] := by
    simp [walkStmt, walkExpr, walkExprs, couplingFinding?, hp]
  have hk := filterMap_walkStmts_replicate _ _ _ hs k
  simp only [Inspect, walkDecl, walkFuncDecl]
  simp only [repeatedCallDecl] at hk ⊢
  simp [walkOptFieldList, walkFuncType, walkFieldList, walkFields, walkField, walkIdents,
    walkOptExpr, walkExpr, walkOptBlock, walkBlock, List.filterMap_append, couplingFinding?, hk]

theorem mem_findMethodCalls_iff (funcDecl : FuncDecl) (fset : FileSet) (c : methodCall) :
    c ∈ findMethodCallsInFunction funcDecl fset ↔
      ∃ n, (Node.decl (.funcDecl funcDecl)).Contains n ∧
        couplingFinding? funcDecl fset n = some c := by
  rw [findMethodCallsInFunction_eq, List.mem_filterMap]
  constructor
  · rintro ⟨n, hn, hc⟩
    exact ⟨n, (mem_inspect_iff _ n).1 hn, hc⟩
  · rintro ⟨n, hn, hc⟩
    exact ⟨n, (mem_inspect_iff _ n).2 hn, hc⟩

theorem nestedArgCall_findings (p : String) (fset : FileSet) :
    findMethodCallsInFunction (exprDecl p (nestedArgCall p)) fset =
      [{ receiver := p, method := "A", line := fset.Line 10, pos := 10, callPath := [] },
       { receiver := p, method := "B", line := fset.Line 20, pos := 20, callPath := [] }] := by
  rw [findMethodCallsInFunction_eq]
  simp [Inspect, walkDecl, walkFuncDecl, exprDecl, nestedArgCall, walkOptFieldList, walkFuncType,
    walkFieldList, walkFields, walkField, walkIdents, walkOptExpr, walkExpr, walkExprs,
    walkOptBlock, walkBlock, walkStmts, walkStmt, couplingFinding?, paramNames, FuncType.params,
    FieldList.list, Field.names]

theorem indexListCall_findings (p : String) (fset : FileSet) :
    findMethodCallsInFunction (exprDecl p (indexListCall p)) fset =
      [{ receiver := p, method := "M", line := fset.Line 20, pos := 20, callPath := [] }] := by
  rw [findMethodCallsInFunction_eq]
  simp [Inspect, walkDecl, walkFuncDecl, exprDecl, indexListCall, walkOptFieldList, walkFuncType,
    walkFieldList, walkFields, walkField, walkIdents, walkOptExpr, walkExpr, walkExprs,
    walkOptBlock, walkBlock, walkStmts, walkStmt, couplingFinding?, paramNames, FuncType.params,
    FieldList.list, Field.names]

theorem genericDecl_findings (fset : FileSet) :
    findMethodCallsInFunction genericDecl fset =
      [{ receiver := "unsafe", method := "Sizeof", line := fset.Line 5, pos := 5,
         callPath := [] }] := by
  rfl

/-- C1. The coupling scanner is exact. The traversal `ast.Inspect` is the pre-order of the syntax
tree: a node, then the traversals of its children in order; so it lists exactly the nodes the
declaration contains, at any depth, type parameters, call arguments and function literals
included. `findMethodCallsInFunction` returns, in that order, one finding for each call
expression `<identifier>.<method>(...)` of the declaration whose identifier is a declared
parameter name, carrying that identifier as receiver and that selector as method, and nothing
else. The number of findings is the number of such call sites, `k` identical calls `p.m()` give
`k` findings, and every receiver is a parameter name. For a parameter `p`, `p.A(p.B())` gives the
finding of `A`, then that of `B`; `Make[A, B](p.M())` gives the finding of `M`; and a call in the
constraint of a type parameter is found like any other. -/
theorem findMethodCallsInFunction_exact (funcDecl : FuncDecl) (fset : FileSet) :
    (∀ n, Inspect n = n :: n.children.flatMap Inspect) ∧
    (∀ n, n ∈ Inspect (.decl (.funcDecl funcDecl)) ↔
      (Node.decl (.funcDecl funcDecl)).Contains n) ∧
    findMethodCallsInFunction funcDecl fset =
        (Inspect (.decl (.funcDecl funcDecl))).filterMap (couplingFinding? funcDecl fset) ∧
    (∀ c, c ∈ findMethodCallsInFunction funcDecl fset ↔
      ∃ n, (Node.decl (.funcDecl funcDecl)).Contains n ∧
        couplingFinding? funcDecl fset n = some c) ∧
    (∀ pos x m args, (Node.decl (.funcDecl funcDecl)).Contains
        (.expr (.callExpr pos (.selectorExpr (.ident x) m) args)) → x ∈ paramNames funcDecl →
      { receiver := x, method := m, line := fset.Line pos, pos := pos, callPath := [] } ∈
        findMethodCallsInFunction funcDecl fset) ∧
    (findMethodCallsInFunction funcDecl fset).length =
        (Inspect (.decl (.funcDecl funcDecl))).countP (isCouplingCallSite funcDecl) ∧
    (∀ c ∈ findMethodCallsInFunction funcDecl fset, c.receiver ∈ paramNames funcDecl) ∧
    (∀ (f p m : String) (pos k : Nat),
      findMethodCallsInFunction (repeatedCallDecl f p m pos k) fset =
        List.replicate k
          { receiver := p, method := m, line := fset.Line pos, pos := pos, callPath := [] }) ∧
    (∀ p, findMethodCallsInFunction (exprDecl p (nestedArgCall p)) fset =
      [{ receiver := p, method := "A", line := fset.Line 10, pos := 10, callPath := [] },
       { receiver := p, method := "B", line := fset.Line 20, pos := 20, callPath := [] }]) ∧
    (∀ p, findMethodCallsInFunction (exprDecl p (indexListCall p)) fset =
      [{ receiver := p, method := "M", line := fset.Line 20, pos := 20, callPath := [] }]) ∧
    findMethodCallsInFunction genericDecl fset =
      [{ receiver := "unsafe", method := "Sizeof", line := fset.Line 5, pos := 5,
         callPath := [] }] := by
  refine ⟨inspect_eq, mem_inspect_iff _, findMethodCallsInFunction_eq funcDecl fset,
    mem_findMethodCalls_iff funcDecl fset, ?_, ?_, ?_, ?_,
    fun p => nestedArgCall_findings p fset, fun p => indexListCall_findings p fset,
    genericDecl_findings fset⟩
  · intro pos x m args hc hx
    rw [mem_findMethodCalls_iff]
    exact ⟨_, hc, by simp [couplingFinding?, hx]⟩
  · rw [findMethodCallsInFunction_eq, length_filterMap_eq_countP]
    congr 1
    funext n
    exact couplingFinding?_isSome funcDecl fset n
  · intro c hc
    rw [findMethodCallsInFunction_eq, List.mem_filterMap] at hc
    obtain ⟨n, _, hn⟩ := hc
    obtain ⟨_, _, _, h, _⟩ := couplingFinding?_receiver funcDecl fset n c hn
    exact h
  · intro f p m pos k
    exact findMethodCallsInFunction_repeated f p m pos k fset

/-! ## Provider discovery -/

theorem foldl_setTrue (g : Node → Option String) (l : List Node) (init : String → Bool)
    (x : String) :
    (l.foldl (fun wf n => match g n with
      | some k => setTrue wf k
      | none => wf) init) x = true ↔ init x = true ∨ ∃ n ∈ l, g n = some x := by
  induction l generalizing init with
  | nil => simp
  | cons a t ih =>
    rw [List.foldl_cons, ih]
    cases h : g a with
    | none => simp [h]
    | some k =>
      simp only [setTrue, List.mem_cons, exists_eq_or_imp, h, Option.some.injEq]
      by_cases hk : x = k
      · simp [hk]
      · have hk2 : ¬ k = x := fun e => hk e.symm
        simp [hk, hk2]

theorem extractProviderFunctionsFromInitialize_iff (funcDecl : FuncDecl)
    (wireFunctions : String → Bool) (x : String) :
    extractProviderFunctionsFromInitialize funcDecl wireFunctions x = true ↔
      wireFunctions x = true ∨
        ∃ n ∈ Inspect (.decl (.funcDecl funcDecl)), calleeName? n = some x := by
  rw [← foldl_setTrue calleeName?]
  have hstep : extractProviderFunctionsFromInitialize funcDecl wireFunctions =
      (Inspect (.decl (.funcDecl funcDecl))).foldl (fun wf n => match calleeName? n with
        | some k => setTrue wf k
        | none => wf) wireFunctions := by
    unfold extractProviderFunctionsFromInitialize
    congr 1
    funext wf n
    cases n with
    | expr e =>
      cases e with
      | callExpr p fn args => cases fn <;> simp [extractProviderFromCall, calleeName?]
      | _ => simp [calleeName?]
    | _ => simp [calleeName?]
  rw [hstep]

theorem hasPrefix_or_eq (name : String) :
    (decide (name = "Initialize") || HasPrefix name "Initialize") = HasPrefix name "Initialize" := by
  by_cases h : name = "Initialize"
  · subst h
    decide
  · simp [h]

theorem foldl_initializers (step : (String → Bool) → Node → String → Bool)
    (hd : ∀ wf d, step wf (.decl (.funcDecl d)) =
      if HasPrefix d.name "Initialize" = true then extractProviderFunctionsFromInitialize d wf
      else wf)
    (ho : ∀ wf n, (∀ d, n ≠ Node.decl (.funcDecl d)) → step wf n = wf)
    (l : List Node) (init : String → Bool) (x : String) :
    (l.foldl step init) x = true ↔ init x = true ∨
      ∃ d, Node.decl (.funcDecl d) ∈ l ∧ HasPrefix d.name "Initialize" = true ∧
        ∃ n ∈ Inspect (.decl (.funcDecl d)), calleeName? n = some x := by
  induction l generalizing init with
  | nil => simp
  | cons a t ih =>
    rw [List.foldl_cons, ih]
    by_cases ha : ∃ d, a = Node.decl (.funcDecl d)
    · obtain ⟨d, rfl⟩ := ha
      rw [hd]
      by_cases hp : HasPrefix d.name "Initialize" = true
      · rw [if_pos hp, extractProviderFunctionsFromInitialize_iff]
        constructor
        · rintro ((h | h) | ⟨d2, hm, h2⟩)
          · exact Or.inl h
          · exact Or.inr ⟨d, List.mem_cons_self _ _, hp, h⟩
          · exact Or.inr ⟨d2, List.mem_cons_of_mem _ hm, h2⟩
        · rintro (h | ⟨d2, hm, hp2, h2⟩)
          · exact Or.inl (Or.inl h)
          · rcases List.mem_cons.1 hm with e | hm
            · cases e
              exact Or.inl (Or.inr h2)
            · exact Or.inr ⟨d2, hm, hp2, h2⟩
      · rw [if_neg hp]
        constructor
        · rintro (h | ⟨d2, hm, h2⟩)
          · exact Or.inl h
          · exact Or.inr ⟨d2, List.mem_cons_of_mem _ hm, h2⟩
        · rintro (h | ⟨d2, hm, hp2, h2⟩)
          · exact Or.inl h
          · rcases List.mem_cons.1 hm with e | hm
            · cases e
              exact absurd hp2 hp
            · exact Or.inr ⟨d2, hm, hp2, h2⟩
    · have hne : ∀ d, a ≠ Node.decl (.funcDecl d) := fun d e => ha ⟨d, e⟩
      rw [ho _ _ hne]
      constructor
      · rintro (h | ⟨d2, hm, h2⟩)
        · exact Or.inl h
        · exact Or.inr ⟨d2, List.mem_cons_of_mem _ hm, h2⟩
      · rintro (h | ⟨d2, hm, h2⟩)
        · exact Or.inl h
        · rcases List.mem_cons.1 hm with e | hm
          · exact absurd e.symm (hne d2)
          · exact Or.inr ⟨d2, hm, h2⟩

theorem closed_funcDecl_rest (d : FuncDecl) :
    Closed (walkOptFieldList d.recv ++ [Node.expr (.ident d.name)] ++ walkFuncType d.type ++
      walkOptBlock d.body) := by
  refine closed_append (closed_append (closed_append (closed_walkOptFieldList _)
    (closed_ident _)) (closed_walkFuncType _)) ?_
  cases d.body with
  | none => exact closed_nil
  | some b => exact closed_walkBlock b

theorem funcDecl_mem_walkDecl (decl : Decl) (d : FuncDecl) :
    Node.decl (.funcDecl d) ∈ walkDecl decl ↔ decl = .funcDecl d := by
  cases decl with
  | badDecl => simp [walkDecl]
  | genDecl g =>
    simp only [walkDecl, reduceCtorEq, iff_false]
    intro h
    exact (closed_walkGenDecl g _ h).1
  | funcDecl d2 =>
    simp only [walkDecl, walkFuncDecl, List.mem_cons, Node.decl.injEq, Decl.funcDecl.injEq]
    constructor
    · rintro (h | h)
      · exact h.symm
      · exact ((closed_funcDecl_rest d2 _ h).1).elim
    · intro h
      exact Or.inl h.symm

theorem funcDecl_mem_walkFile (file : File) (d : FuncDecl) :
    Node.decl (.funcDecl d) ∈ Inspect (.file file) ↔ Decl.funcDecl d ∈ file.decls := by
  simp only [Inspect, walkFile, List.mem_cons, reduceCtorEq, false_or, List.mem_flatMap,
    funcDecl_mem_walkDecl]
  constructor
  · rintro ⟨decl, hm, rfl⟩
    exact hm
  · intro h
    exact ⟨_, h, rfl⟩

theorem parseWireGenFile_ok (parseFile : String → Except String File) (filePath : String)
    (file : File) (h : parseFile filePath = .ok file) :
    ∃ ws, parseWireGenFile parseFile filePath = .ok ws ∧
      ∀ n, ws n = true ↔ ∃ d, Decl.funcDecl d ∈ file.decls ∧
        HasPrefix d.name "Initialize" = true ∧
        ∃ m ∈ Inspect (.decl (.funcDecl d)), calleeName? m = some n := by
  unfold parseWireGenFile
  rw [h]
  refine ⟨_, rfl, fun n => ?_⟩
  rw [foldl_initializers _ ?_ ?_]
  · simp only [emptyMap, Bool.false_eq_true, false_or, funcDecl_mem_walkFile]
  · intro wf d
    simp only [hasPrefix_or_eq]
  · intro wf n hn
    split
    · exact absurd rfl (hn _)
    · rfl

theorem calleeName?_eq_some (m : Node) (n : String) :
    calleeName? m = some n ↔
      ∃ pos fn args, m = Node.expr (.callExpr pos fn args) ∧
        (fn = .ident n ∨ ∃ x, fn = .selectorExpr x n) := by
  cases m with
  | expr e =>
    cases e with
    | callExpr p fn args =>
      constructor
      · intro h
        refine ⟨p, fn, args, rfl, ?_⟩
        cases fn <;> simp_all [calleeName?]
      · rintro ⟨pos, fn2, args2, e, h⟩
        cases e
        rcases h with rfl | ⟨x, rfl⟩ <;> simp [calleeName?]
    | _ => simp [calleeName?]
  | _ => simp [calleeName?]

theorem parseWireGenFile_initializeFoo (filePath : String) :
    parseWireGenFile (fun _ => .ok (initializerFile "InitializeFoo")) filePath =
      .ok (setTrue (setTrue emptyMap "ProvideA") "ProvideB") := by
  rfl

theorem parseWireGenFile_lowercase (filePath : String) :
    parseWireGenFile (fun _ => .ok (initializerFile "initializeFoo")) filePath = .ok emptyMap := by
  rfl

theorem parseWireGenFile_nested (filePath : String) :
    parseWireGenFile (fun _ => .ok nestedInitializerFile) filePath =
      .ok (setTrue (setTrue emptyMap "ProvideA") "ProvideB") := by
  rfl

theorem parseWireGenFile_generic (filePath : String) :
    parseWireGenFile (fun _ => .ok genericInitializerFile) filePath =
      .ok (setTrue (setTrue (setTrue emptyMap "Sizeof") "int32") "ProvideFoo") := by
  rfl

theorem setTrue_two (a b n : String) :
    setTrue (setTrue emptyMap a) b n = true ↔ n = a ∨ n = b := by
  simp only [setTrue, emptyMap]
  by_cases h1 : n = b
  · simp [h1]
  · by_cases h2 : n = a <;> simp [h1, h2]

theorem setTrue_three (a b c n : String) :
    setTrue (setTrue (setTrue emptyMap a) b) c n = true ↔ n = a ∨ n = b ∨ n = c := by
  simp only [setTrue, emptyMap]
  by_cases h1 : n = c
  · simp [h1]
  · by_cases h2 : n = b
    · simp [h1, h2]
    · by_cases h3 : n = a <;> simp [h1, h2, h3]

/-- C2. Provider discovery: when the initializer file parses, `parseWireGenFile` returns a set
that contains a name exactly when some function declaration of the file whose name starts with
"Initialize" contains, at any depth of its syntax tree, a call expression whose callee is that
bare identifier, or a selector expression selecting that name. For
`func InitializeFoo(){ x := ProvideA(); y := pkg.ProvideB(x) }` the set is exactly ProvideA and
ProvideB; the same body under the name `initializeFoo` gives the empty set;
`func InitializeApp() { ProvideA(ProvideB()) }` gives ProvideA and ProvideB; and
`func InitializeApp[T interface{ ~[unsafe.Sizeof(int32(0))]byte }]() { ProvideFoo() }` gives
Sizeof, int32 and ProvideFoo, the calls of the constraint being calls of the declaration. -/
theorem parseWireGenFile_providerSet (parseFile : String → Except String File)
    (filePath : String) (file : File) (h : parseFile filePath = .ok file) :
    (∃ ws, parseWireGenFile parseFile filePath = .ok ws ∧
      ∀ n, ws n = true ↔ ∃ d, Decl.funcDecl d ∈ file.decls ∧
        HasPrefix d.name "Initialize" = true ∧
        ∃ pos fn args,
          (Node.decl (.funcDecl d)).Contains (.expr (.callExpr pos fn args)) ∧
          (fn = .ident n ∨ ∃ x, fn = .selectorExpr x n)) ∧
    (∃ ws, parseWireGenFile (fun _ => .ok (initializerFile "InitializeFoo")) filePath = .ok ws ∧
      ∀ n, ws n = true ↔ n = "ProvideA" ∨ n = "ProvideB") ∧
    (∃ ws, parseWireGenFile (fun _ => .ok (initializerFile "initializeFoo")) filePath = .ok ws ∧
      ∀ n, ws n = false) ∧
    (∃ ws, parseWireGenFile (fun _ => .ok nestedInitializerFile) filePath = .ok ws ∧
      ∀ n, ws n = true ↔ n = "ProvideA" ∨ n = "ProvideB") ∧
    (∃ ws, parseWireGenFile (fun _ => .ok genericInitializerFile) filePath = .ok ws ∧
      ∀ n, ws n = true ↔ n = "Sizeof" ∨ n = "int32" ∨ n = "ProvideFoo") := by
  refine ⟨?_, ⟨_, parseWireGenFile_initializeFoo filePath, setTrue_two _ _⟩,
    ⟨_, parseWireGenFile_lowercase filePath, fun _ => rfl⟩,
    ⟨_, parseWireGenFile_nested filePath, setTrue_two _ _⟩,
    ⟨_, parseWireGenFile_generic filePath, setTrue_three _ _ _⟩⟩
  obtain ⟨ws, hws, hiff⟩ := parseWireGenFile_ok parseFile filePath file h
  refine ⟨ws, hws, fun n => ?_⟩
  rw [hiff]
  constructor
  · rintro ⟨d, hd, hp, m, hm, hc⟩
    obtain ⟨pos, fn, args, rfl, hfn⟩ := (calleeName?_eq_some m n).1 hc
    exact ⟨d, hd, hp, pos, fn, args, (mem_inspect_iff _ _).1 hm, hfn⟩
  · rintro ⟨d, hd, hp, pos, fn, args, hm, hfn⟩
    exact ⟨d, hd, hp, _, (mem_inspect_iff _ _).2 hm,
      (calleeName?_eq_some _ n).2 ⟨pos, fn, args, rfl, hfn⟩⟩

/-- Witness for C2 on the initializer file `func InitializeApp() { ProvideA(ProvideB()) }`. -/
theorem parseWireGenFile_providerSet_witness :
    (fun _ => Except.ok nestedInitializerFile : String → Except String File)
        "wire_gen.go" = .ok nestedInitializerFile ∧
    ∃ ws, parseWireGenFile (fun _ => .ok nestedInitializerFile) "wire_gen.go" = .ok ws ∧
      ∀ n, ws n = true ↔ ∃ d, Decl.funcDecl d ∈ nestedInitializerFile.decls ∧
        HasPrefix d.name "Initialize" = true ∧
        ∃ pos fn args,
          (Node.decl (.funcDecl d)).Contains (.expr (.callExpr pos fn args)) ∧
          (fn = .ident n ∨ ∃ x, fn = .selectorExpr x n) :=
  ⟨rfl, (parseWireGenFile_providerSet (fun _ => .ok nestedInitializerFile)
    "wire_gen.go" nestedInitializerFile rfl).1⟩

/-! ## The call-graph walk and its step-indexed form -/

theorem analyzeProvider_eq (settings : Settings) (pass : Pass) (funcDecl : FuncDecl)
    (callPath : List String) :
    analyzeProviderFunctionForTightCoupling settings pass funcDecl callPath =
      Event.scan funcDecl callPath ::
        (reportCalls funcDecl (findMethodCallsInFunction funcDecl pass.Fset) callPath ++
          (if settings.Recursive then
            analyzeRecursiveFunctionCalls settings pass
              (findFunctionCallsInFunction funcDecl pass.Fset) callPath
          else [])) := by
  rw [analyzeProviderFunctionForTightCoupling]

theorem analyzeRecursive_eq (settings : Settings) (pass : Pass)
    (functionCalls : List functionCall) (callPath : List String) :
    analyzeRecursiveFunctionCalls settings pass functionCalls callPath =
      if callPath.length > 10 then []
      else functionCalls.flatMap (followCall settings pass callPath) := by
  rw [analyzeRecursiveFunctionCalls]
  by_cases h : callPath.length > 10
  · simp [h]
  · simp only [h, dite_false, if_false]
    congr 1

theorem analyzeCallsFuel_eq (settings : Settings) (pass : Pass) (callPath : List String)
    (step : FuncDecl → List String → Option (List Event))
    (hstep : ∀ funcDecl name, step funcDecl (callPath ++ [name]) =
      some (analyzeProviderFunctionForTightCoupling settings pass funcDecl (callPath ++ [name])))
    (functionCalls : List functionCall) :
    analyzeCallsFuel step pass callPath functionCalls =
      some (functionCalls.flatMap (followCall settings pass callPath)) := by
  induction functionCalls with
  | nil => rfl
  | cons c rest ih =>
    rw [analyzeCallsFuel, List.flatMap_cons, followCall, ih]
    by_cases hc : containsFunction callPath c.funcName = true
    · simp [hc]
    · simp only [hc, if_false, Bool.false_eq_true]
      cases hf : findFunctionDeclaration pass c.funcName c.pkg with
      | none => simp
      | some d => simp [hstep]

theorem analyzeFuel_eq (settings : Settings) (pass : Pass) (fuel : Nat) :
    ∀ (funcDecl : FuncDecl) (callPath : List String), 11 - callPath.length < fuel →
      analyzeProviderFunctionForTightCouplingFuel settings pass fuel funcDecl callPath =
        some (analyzeProviderFunctionForTightCoupling settings pass funcDecl callPath) := by
  induction fuel with
  | zero =>
    intro d p h
    omega
  | succ fuel ih =>
    intro d p h
    rw [analyzeProviderFunctionForTightCouplingFuel, analyzeProvider_eq, analyzeRecursive_eq,
      analyzeRecursiveFunctionCallsFuel]
    by_cases hr : settings.Recursive = true
    · by_cases hl : p.length > 10
      · simp [hr, hl]
      · have hstep : ∀ funcDecl name,
            analyzeProviderFunctionForTightCouplingFuel settings pass fuel funcDecl
              (p ++ [name]) =
            some (analyzeProviderFunctionForTightCoupling settings pass funcDecl
              (p ++ [name])) := by
          intro funcDecl name
          apply ih
          simp only [List.length_append, List.length_singleton]
          omega
        rw [analyzeCallsFuel_eq settings pass p _ hstep]
        simp [hr, hl]
    · simp [hr]

theorem analyze_of_fuel {α : Type} (f : List Event → α) (x : α) (settings : Settings)
    (pass : Pass) (fuel : Nat) (funcDecl : FuncDecl) (callPath : List String)
    (hf : 11 - callPath.length < fuel)
    (h : (analyzeProviderFunctionForTightCouplingFuel settings pass fuel funcDecl callPath).map f
      = some x) :
    f (analyzeProviderFunctionForTightCoupling settings pass funcDecl callPath) = x := by
  rw [analyzeFuel_eq settings pass fuel funcDecl callPath hf] at h
  exact Option.some.inj h

theorem chain11_findings :
    findings (analyzeProviderFunctionForTightCoupling recursiveSettings
      (packageOf (chainDecls chain11)) (callerDecl "A1" "A2" 1100) ["A1"]) =
    [{ receiver := "dep", method := "Start", line := 1, pos := 100, callPath := chain11 }] :=
  analyze_of_fuel _ _ _ _ 12 _ _ (by decide) (by decide)

/-! ## Reachable scans -/

theorem mem_followCall (settings : Settings) (pass : Pass) (callPath : List String)
    (funcCall : functionCall) (e : Event) :
    e ∈ followCall settings pass callPath funcCall ↔
      containsFunction callPath funcCall.funcName = false ∧
      ∃ callee, findFunctionDeclaration pass funcCall.funcName funcCall.pkg = some callee ∧
        e ∈ analyzeProviderFunctionForTightCoupling settings pass callee
          (callPath ++ [funcCall.funcName]) := by
  unfold followCall
  cases hc : containsFunction callPath funcCall.funcName with
  | true => simp
  | false =>
    cases hf : findFunctionDeclaration pass funcCall.funcName funcCall.pkg with
    | none => simp
    | some d => simp

theorem mem_analyze_iff (settings : Settings) (pass : Pass) (funcDecl : FuncDecl)
    (callPath : List String) (e : Event) :
    e ∈ analyzeProviderFunctionForTightCoupling settings pass funcDecl callPath ↔
      e = Event.scan funcDecl callPath ∨
      e ∈ reportCalls funcDecl (findMethodCallsInFunction funcDecl pass.Fset) callPath ∨
      (settings.Recursive = true ∧ callPath.length ≤ 10 ∧
        ∃ funcCall ∈ findFunctionCallsInFunction funcDecl pass.Fset,
          e ∈ followCall settings pass callPath funcCall) := by
  rw [analyzeProvider_eq, analyzeRecursive_eq, List.mem_cons, List.mem_append]
  by_cases hr : settings.Recursive = true
  · by_cases hl : callPath.length > 10
    · have hl2 : ¬ callPath.length ≤ 10 := by omega
      simp [hr, hl, hl2]
    · have hl2 : callPath.length ≤ 10 := by omega
      simp [hr, hl, hl2, List.mem_flatMap]
  · simp [hr]

theorem follows_of_mem (settings : Settings) (pass : Pass) (funcDecl : FuncDecl)
    (callPath : List String) (funcCall : functionCall) (callee : FuncDecl)
    (hr : settings.Recursive = true) (hl : callPath.length ≤ 10)
    (hm : funcCall ∈ findFunctionCallsInFunction funcDecl pass.Fset)
    (hc : containsFunction callPath funcCall.funcName = false)
    (hf : findFunctionDeclaration pass funcCall.funcName funcCall.pkg = some callee) :
    Reaches settings pass (funcDecl, callPath) (callee, callPath ++ [funcCall.funcName]) :=
  Relation.ReflTransGen.single (Follows.call funcDecl callPath funcCall callee hr hl hm hc hf)

theorem mem_analyze_reaches_aux (settings : Settings) (pass : Pass) (n : Nat) :
    ∀ (funcDecl : FuncDecl) (callPath : List String) (e : Event), 11 - callPath.length ≤ n →
      e ∈ analyzeProviderFunctionForTightCoupling settings pass funcDecl callPath →
      ∃ d p, Reaches settings pass (funcDecl, callPath) (d, p) ∧
        (e = Event.scan d p ∨ e ∈ reportCalls d (findMethodCallsInFunction d pass.Fset) p) := by
  induction n with
  | zero =>
    intro d0 p0 e hn he
    rcases (mem_analyze_iff settings pass d0 p0 e).1 he with h | h | ⟨_, hl, _⟩
    · exact ⟨d0, p0, Relation.ReflTransGen.refl, Or.inl h⟩
    · exact ⟨d0, p0, Relation.ReflTransGen.refl, Or.inr h⟩
    · omega
  | succ n ih =>
    intro d0 p0 e hn he
    rcases (mem_analyze_iff settings pass d0 p0 e).1 he with h | h | ⟨hr, hl, fc, hfc, hfe⟩
    · exact ⟨d0, p0, Relation.ReflTransGen.refl, Or.inl h⟩
    · exact ⟨d0, p0, Relation.ReflTransGen.refl, Or.inr h⟩
    · obtain ⟨hc, callee, hf, hin⟩ := (mem_followCall settings pass p0 fc e).1 hfe
      have hlen : 11 - (p0 ++ [fc.funcName]).length ≤ n := by
        simp only [List.length_append, List.length_singleton]
        omega
      obtain ⟨d, p, hreach, hev⟩ := ih callee (p0 ++ [fc.funcName]) e hlen hin
      exact ⟨d, p, Relation.ReflTransGen.trans
        (follows_of_mem settings pass d0 p0 fc callee hr hl hfc hc hf) hreach, hev⟩

theorem mem_analyze_of_follows (settings : Settings) (pass : Pass)
    (a b : FuncDecl × List String) (h : Follows settings pass a b) (e : Event)
    (he : e ∈ analyzeProviderFunctionForTightCoupling settings pass b.1 b.2) :
    e ∈ analyzeProviderFunctionForTightCoupling settings pass a.1 a.2 := by
  cases h with
  | call d p fc callee hr hl hm hc hf =>
    rw [mem_analyze_iff]
    exact Or.inr (Or.inr ⟨hr, hl, fc, hm,
      (mem_followCall settings pass p fc e).2 ⟨hc, callee, hf, he⟩⟩)

theorem mem_analyze_of_reaches (settings : Settings) (pass : Pass)
    (a b : FuncDecl × List String) (h : Reaches settings pass a b) (e : Event)
    (he : e ∈ analyzeProviderFunctionForTightCoupling settings pass b.1 b.2) :
    e ∈ analyzeProviderFunctionForTightCoupling settings pass a.1 a.2 := by
  induction h using Relation.ReflTransGen.head_induction_on with
  | refl => exact he
  | head hab _ ih => exact mem_analyze_of_follows settings pass _ _ hab e ih

theorem mem_analyze_reaches (settings : Settings) (pass : Pass) (funcDecl : FuncDecl)
    (callPath : List String) (e : Event) :
    e ∈ analyzeProviderFunctionForTightCoupling settings pass funcDecl callPath ↔
      ∃ d p, Reaches settings pass (funcDecl, callPath) (d, p) ∧
        (e = Event.scan d p ∨ e ∈ reportCalls d (findMethodCallsInFunction d pass.Fset) p) := by
  constructor
  · exact mem_analyze_reaches_aux settings pass (11 - callPath.length) funcDecl callPath e
      (Nat.le_refl _)
  · rintro ⟨d, p, hreach, hev⟩
    apply mem_analyze_of_reaches settings pass (funcDecl, callPath) (d, p) hreach
    rw [mem_analyze_iff]
    rcases hev with h | h
    · exact Or.inl h
    · exact Or.inr (Or.inl h)

/-! ## The run over the package -/

theorem analyzeProvidersFuel_eq (settings : Settings) (pass : Pass) (fuel : Nat)
    (hf : 11 ≤ fuel) (wireFunctions : String → Bool) (decls : List FuncDecl) :
    analyzeProvidersFuel settings pass fuel wireFunctions decls =
      some (decls.flatMap (fun funcDecl =>
        if wireFunctions funcDecl.name then
          analyzeProviderFunctionForTightCoupling settings pass funcDecl [funcDecl.name]
        else [])) := by
  induction decls with
  | nil => rfl
  | cons d rest ih =>
    rw [analyzeProvidersFuel, ih, List.flatMap_cons]
    by_cases hw : wireFunctions d.name = true
    · have h := analyzeFuel_eq settings pass fuel d [d.name]
        (by simp only [List.length_singleton]; omega)
      simp [hw, h]
    · simp [hw]

theorem runFuel_eq (fuel : Nat) (hf : 11 ≤ fuel) (parseFile : String → Except String File)
    (settings : Settings) (pass : Pass) :
    runFuel fuel parseFile settings pass = some (run parseFile settings pass) := by
  unfold runFuel run
  by_cases hw : settings.WireGen = ""
  · rw [if_pos hw, if_pos hw]
  · rw [if_neg hw, if_neg hw]
    cases parseWireGenFile parseFile settings.WireGen with
    | error err => rfl
    | ok ws =>
      show Option.map _ (analyzeProvidersFuel settings pass fuel ws (preorderFuncDecls pass)) = _
      rw [analyzeProvidersFuel_eq settings pass fuel hf ws]
      rfl

theorem run_of_fuel {α : Type} (f : List Event → α) (x : α) (fuel : Nat) (hf : 11 ≤ fuel)
    (parseFile : String → Except String File) (settings : Settings) (pass : Pass)
    (h : (runFuel fuel parseFile settings pass).map (fun r => f r.events) = some x) :
    f (run parseFile settings pass).events = x := by
  rw [runFuel_eq fuel hf] at h
  exact Option.some.inj h

theorem filterMap_funcDecl_closed (l : List Node) (h : Closed l) :
    l.filterMap Node.funcDecl? = [] := by
  rw [List.filterMap_eq_nil_iff]
  intro n hn
  have hi := (h n hn).1
  cases n with
  | decl d =>
    cases d with
    | funcDecl d => exact hi.elim
    | _ => rfl
  | _ => rfl

theorem filterMap_funcDecl_walkDecl (decl : Decl) :
    (walkDecl decl).filterMap Node.funcDecl? = (decl.funcDecl?).toList := by
  cases decl with
  | badDecl => rfl
  | genDecl g =>
    exact filterMap_funcDecl_closed _ (closed_walkGenDecl g)
  | funcDecl d =>
    rw [walkDecl, walkFuncDecl, List.filterMap_cons]
    simp only [Node.funcDecl?, Decl.funcDecl?, Option.toList]
    rw [filterMap_funcDecl_closed _ (closed_funcDecl_rest d)]

theorem preorderFuncDecls_eq (pass : Pass) : preorderFuncDecls pass = topLevelFuncDecls pass := by
  unfold preorderFuncDecls topLevelFuncDecls
  induction pass.Files with
  | nil => rfl
  | cons f fs ih =>
    rw [List.flatMap_cons, List.filterMap_append, ih, List.flatMap_cons]
    congr 1
    simp only [Inspect, walkFile, List.filterMap_cons, Node.funcDecl?]
    induction f.decls with
    | nil => rfl
    | cons d ds ihd =>
      rw [List.flatMap_cons, List.filterMap_append, ihd, filterMap_funcDecl_walkDecl]
      cases d <;> rfl

/-! ## Invariants of the walk -/

theorem containsFunction_eq_false_iff (callPath : List String) (funcName : String) :
    containsFunction callPath funcName = false ↔ funcName ∉ callPath := by
  unfold containsFunction
  rw [← Bool.not_eq_true, List.any_eq_true]
  constructor
  · intro h hm
    exact h ⟨funcName, hm, by simp⟩
  · rintro h ⟨x, hx, hxe⟩
    have : x = funcName := by simpa using hxe
    exact h (this ▸ hx)

theorem findFunctionDeclaration_name (pass : Pass) (funcName pkg : String) (d : FuncDecl)
    (h : findFunctionDeclaration pass funcName pkg = some d) : d.name = funcName := by
  unfold findFunctionDeclaration at h
  obtain ⟨file, _, hfile⟩ := List.exists_of_findSome?_eq_some h
  obtain ⟨decl, _, hdecl⟩ := List.exists_of_findSome?_eq_some hfile
  cases decl with
  | funcDecl d2 =>
    simp only at hdecl
    by_cases hn : d2.name = funcName
    · rw [if_pos hn] at hdecl
      split at hdecl
      · cases hdecl
        exact hn
      · cases hdecl
    · rw [if_neg hn] at hdecl
      cases hdecl
  | badDecl => cases hdecl
  | genDecl g => cases hdecl

theorem mem_scans (events : List Event) (d : FuncDecl) (p : List String) :
    (d, p) ∈ scans events ↔ Event.scan d p ∈ events := by
  unfold scans
  rw [List.mem_filterMap]
  constructor
  · rintro ⟨e, he, h⟩
    cases e with
    | scan d2 p2 =>
      simp only [Option.some.injEq, Prod.mk.injEq] at h
      obtain ⟨rfl, rfl⟩ := h
      exact he
    | finding c diag => cases h
    | failure diag => cases h
  · intro h
    exact ⟨_, h, rfl⟩

theorem mem_findings (events : List Event) (c : methodCall) :
    c ∈ findings events ↔ ∃ diag, Event.finding c diag ∈ events := by
  unfold findings
  rw [List.mem_filterMap]
  constructor
  · rintro ⟨e, he, h⟩
    cases e with
    | scan d2 p2 => cases h
    | finding c2 diag =>
      simp only [Option.some.injEq] at h
      subst h
      exact ⟨diag, he⟩
    | failure diag => cases h
  · rintro ⟨diag, h⟩
    exact ⟨_, h, rfl⟩

theorem mem_reportCalls (funcDecl : FuncDecl) (calls : List methodCall) (callPath : List String)
    (e : Event) :
    e ∈ reportCalls funcDecl calls callPath ↔
      ∃ call ∈ calls, e = Event.finding { call with callPath := callPath }
        { Pos := call.pos,
          Message := reportMessage funcDecl { call with callPath := callPath } callPath } := by
  unfold reportCalls
  rw [List.mem_map]
  constructor
  · rintro ⟨call, hc, rfl⟩
    exact ⟨call, hc, rfl⟩
  · rintro ⟨call, hc, rfl⟩
    exact ⟨call, hc, rfl⟩

theorem scan_mem_analyze (settings : Settings) (pass : Pass) (funcDecl : FuncDecl)
    (callPath : List String) (d : FuncDecl) (p : List String) :
    Event.scan d p ∈ analyzeProviderFunctionForTightCoupling settings pass funcDecl callPath ↔
      Reaches settings pass (funcDecl, callPath) (d, p) := by
  rw [mem_analyze_reaches]
  constructor
  · rintro ⟨d2, p2, hr, h | h⟩
    · cases h
      exact hr
    · obtain ⟨call, _, hc⟩ := (mem_reportCalls _ _ _ _).1 h
      cases hc
  · intro h
    exact ⟨d, p, h, Or.inl rfl⟩

theorem finding_mem_analyze (settings : Settings) (pass : Pass) (funcDecl : FuncDecl)
    (callPath : List String) (c : methodCall) (diag : Diagnostic) :
    Event.finding c diag ∈
        analyzeProviderFunctionForTightCoupling settings pass funcDecl callPath ↔
      ∃ d p, Reaches settings pass (funcDecl, callPath) (d, p) ∧
        ∃ call ∈ findMethodCallsInFunction d pass.Fset,
          c = { call with callPath := p } ∧
          diag = { Pos := call.pos,
                   Message := reportMessage d { call with callPath := p } p } := by
  rw [mem_analyze_reaches]
  constructor
  · rintro ⟨d, p, hr, h | h⟩
    · cases h
    · obtain ⟨call, hcall, hc⟩ := (mem_reportCalls _ _ _ _).1 h
      cases hc
      exact ⟨d, p, hr, call, hcall, rfl, rfl⟩
  · rintro ⟨d, p, hr, call, hcall, rfl, rfl⟩
    exact ⟨d, p, hr, Or.inr ((mem_reportCalls _ _ _ _).2 ⟨call, hcall, rfl⟩)⟩

theorem reaches_invariant (settings : Settings) (pass : Pass)
    (I : FuncDecl × List String → Prop)
    (hstep : ∀ a b, I a → Follows settings pass a b → I b)
    (a b : FuncDecl × List String) (ha : I a) (h : Reaches settings pass a b) : I b := by
  induction h with
  | refl => exact ha
  | tail _ hbc ih => exact hstep _ _ ih hbc

theorem reaches_length (settings : Settings) (pass : Pass) (a b : FuncDecl × List String)
    (ha : a.2.length ≤ 11) (h : Reaches settings pass a b) : b.2.length ≤ 11 := by
  refine reaches_invariant settings pass (fun x => x.2.length ≤ 11) ?_ a b ha h
  intro x y _ hxy
  cases hxy with
  | call d p fc callee hr hl hm hc hf =>
    simp only [List.length_append, List.length_singleton]
    omega

theorem reaches_nodup (settings : Settings) (pass : Pass) (a b : FuncDecl × List String)
    (ha : a.2.Nodup) (h : Reaches settings pass a b) : b.2.Nodup := by
  refine reaches_invariant settings pass (fun x => x.2.Nodup) ?_ a b ha h
  intro x y hx hxy
  cases hxy with
  | call d p fc callee hr hl hm hc hf =>
    have hnot := (containsFunction_eq_false_iff p fc.funcName).1 hc
    rw [List.nodup_append]
    refine ⟨hx, List.nodup_singleton _, ?_⟩
    intro s hs hs2
    rw [List.mem_singleton] at hs2
    exact hnot (hs2 ▸ hs)

theorem reaches_last (settings : Settings) (pass : Pass) (a b : FuncDecl × List String)
    (ha : a.2.getLast? = some a.1.name) (h : Reaches settings pass a b) :
    b.2.getLast? = some b.1.name := by
  refine reaches_invariant settings pass (fun x => x.2.getLast? = some x.1.name) ?_ a b ha h
  intro x y _ hxy
  cases hxy with
  | call d p fc callee hr hl hm hc hf =>
    simp only [List.getLast?_concat]
    rw [findFunctionDeclaration_name pass _ _ _ hf]

theorem reaches_head (settings : Settings) (pass : Pass) (a b : FuncDecl × List String)
    (x : String) (ha : a.2.head? = some x) (h : Reaches settings pass a b) :
    b.2.head? = some x := by
  refine reaches_invariant settings pass (fun y => y.2.head? = some x) ?_ a b ha h
  intro y z hy hyz
  cases hyz with
  | call d p fc callee hr hl hm hc hf =>
    simp only [List.head?_append]
    simp only at hy
    rw [hy]
    rfl

theorem reaches_length_mono (settings : Settings) (pass : Pass) (a b : FuncDecl × List String)
    (h : Reaches settings pass a b) : a.2.length ≤ b.2.length := by
  refine reaches_invariant settings pass (fun x => a.2.length ≤ x.2.length) ?_ a b
    (Nat.le_refl _) h
  intro x y hx hxy
  cases hxy with
  | call d p fc callee hr hl hm hc hf =>
    simp only [List.length_append, List.length_singleton]
    simp only at hx
    omega

/-! ## Depth ceiling, cycle guard, termination -/

theorem mem_run (parseFile : String → Except String File) (settings : Settings) (pass : Pass)
    (e : Event) (h : e ∈ (run parseFile settings pass).events) :
    (∃ diag, e = Event.failure diag) ∨
      ∃ funcDecl, funcDecl ∈ preorderFuncDecls pass ∧
        e ∈ analyzeProviderFunctionForTightCoupling settings pass funcDecl [funcDecl.name] := by
  unfold run at h
  by_cases hw : settings.WireGen = ""
  · rw [if_pos hw] at h
    cases h
  · rw [if_neg hw] at h
    cases hp : parseWireGenFile parseFile settings.WireGen with
    | error err =>
      rw [hp] at h
      exact Or.inl ⟨_, List.mem_singleton.1 h⟩
    | ok ws =>
      rw [hp] at h
      obtain ⟨d, hd, he⟩ := List.mem_flatMap.1 h
      by_cases hws : ws d.name = true
      · rw [if_pos hws] at he
        exact Or.inr ⟨d, hd, he⟩
      · rw [if_neg hws] at he
        cases he

theorem scan_length_le (settings : Settings) (pass : Pass) (funcDecl : FuncDecl) (d : FuncDecl)
    (p : List String)
    (h : Event.scan d p ∈
      analyzeProviderFunctionForTightCoupling settings pass funcDecl [funcDecl.name]) :
    p.length ≤ 11 :=
  reaches_length settings pass (funcDecl, [funcDecl.name]) (d, p) (by simp)
    ((scan_mem_analyze settings pass funcDecl _ d p).1 h)

theorem finding_length_le (settings : Settings) (pass : Pass) (funcDecl : FuncDecl)
    (c : methodCall) (diag : Diagnostic)
    (h : Event.finding c diag ∈
      analyzeProviderFunctionForTightCoupling settings pass funcDecl [funcDecl.name]) :
    c.callPath.length ≤ 11 := by
  obtain ⟨d, p, hr, call, _, rfl, _⟩ := (finding_mem_analyze settings pass funcDecl _ c diag).1 h
  exact reaches_length settings pass (funcDecl, [funcDecl.name]) (d, p) (by simp) hr

theorem chain12_findings :
    findings (analyzeProviderFunctionForTightCoupling recursiveSettings
      (packageOf (chainDecls chain12)) (callerDecl "A1" "A2" 1200) ["A1"]) = [] :=
  analyze_of_fuel _ _ _ _ 12 _ _ (by decide) (by decide)

theorem chain12_scans :
    scanNames (analyzeProviderFunctionForTightCoupling recursiveSettings
      (packageOf (chainDecls chain12)) (callerDecl "A1" "A2" 1200) ["A1"]) =
    (List.range 11).map (fun i => (chain11.getD i "", chain11.take (i + 1))) :=
  analyze_of_fuel _ _ _ _ 12 _ _ (by decide) (by decide)

/-- C3, as the code has it. In recursive mode every function is scanned, and every finding is
produced, with a call path of length at most 11: the walk gives up only when the path is longer
than 10, so a path of length 10 is still extended once. For the chain of 12 functions `A1`,
..., `A12`, each calling the next and `A12` calling `dep.Start()`, the walk from `A1` under
`[A1]` scans `A1`, ..., `A11` and produces no finding; for the chain of 11 the finding in `A11`
is produced, with the call path `A1`, ..., `A11`. -/
theorem callPath_length_le_eleven (parseFile : String → Except String File)
    (settings : Settings) (pass : Pass) :
    (∀ d p, Event.scan d p ∈ (run parseFile settings pass).events → p.length ≤ 11) ∧
    (∀ c diag, Event.finding c diag ∈ (run parseFile settings pass).events → c.callPath.length ≤ 11) ∧
    (∀ funcDecl d p, Event.scan d p ∈
      analyzeProviderFunctionForTightCoupling settings pass funcDecl [funcDecl.name] →
        p.length ≤ 11) ∧
    (∀ funcDecl c diag, Event.finding c diag ∈
      analyzeProviderFunctionForTightCoupling settings pass funcDecl [funcDecl.name] →
        c.callPath.length ≤ 11) ∧
    findings (analyzeProviderFunctionForTightCoupling recursiveSettings
      (packageOf (chainDecls chain12)) (callerDecl "A1" "A2" 1200) ["A1"]) = [] ∧
    scanNames (analyzeProviderFunctionForTightCoupling recursiveSettings
      (packageOf (chainDecls chain12)) (callerDecl "A1" "A2" 1200) ["A1"]) =
      (List.range 11).map (fun i => (chain11.getD i "", chain11.take (i + 1))) ∧
    findings (analyzeProviderFunctionForTightCoupling recursiveSettings
      (packageOf (chainDecls chain11)) (callerDecl "A1" "A2" 1100) ["A1"]) =
      [{ receiver := "dep", method := "Start", line := 1, pos := 100, callPath := chain11 }] := by
  refine ⟨?_, ?_, ?_, ?_, chain12_findings, chain12_scans, chain11_findings⟩
  · intro d p h
    rcases mem_run parseFile settings pass _ h with ⟨diag, hd⟩ | ⟨funcDecl, _, hf⟩
    · cases hd
    · exact scan_length_le settings pass funcDecl d p hf
  · intro c diag h
    rcases mem_run parseFile settings pass _ h with ⟨diag2, hd⟩ | ⟨funcDecl, _, hf⟩
    · cases hd
    · exact finding_length_le settings pass funcDecl c diag hf
  · intro funcDecl d p h
    exact scan_length_le settings pass funcDecl d p h
  · intro funcDecl c diag h
    exact finding_length_le settings pass funcDecl c diag h

/-- C3 as stated fails: in the chain of 11 functions `A1`, ..., `A11` the walk from `A1` under
`[A1]` produces the finding of `dep.Start()` located in `A11` (position 100), and its call path
has length 11, not at most 10. -/
theorem depth_ceiling_counterexample :
    ∃ c ∈ findings (analyzeProviderFunctionForTightCoupling recursiveSettings
        (packageOf (chainDecls chain11)) (callerDecl "A1" "A2" 1100) ["A1"]),
      c.pos = 100 ∧ c.callPath = chain11 ∧ ¬ c.callPath.length ≤ 10 := by
  rw [chain11_findings]
  exact ⟨_, List.mem_singleton.2 rfl, rfl, rfl, by decide⟩

theorem cycle_scans :
    scanNames (analyzeProviderFunctionForTightCoupling recursiveSettings cyclePackage
      (callerDecl "A" "B" 100) ["A"]) = [("A", ["A"]), ("B", ["A", "B"])] :=
  analyze_of_fuel _ _ _ _ 12 _ _ (by decide) (by decide)

theorem scan_nodup (settings : Settings) (pass : Pass) (funcDecl : FuncDecl) (d : FuncDecl)
    (p : List String)
    (h : Event.scan d p ∈
      analyzeProviderFunctionForTightCoupling settings pass funcDecl [funcDecl.name]) :
    p.Nodup ∧ p.getLast? = some d.name := by
  have hr := (scan_mem_analyze settings pass funcDecl _ d p).1 h
  exact ⟨reaches_nodup settings pass (funcDecl, [funcDecl.name]) (d, p)
      (List.nodup_singleton _) hr,
    reaches_last settings pass (funcDecl, [funcDecl.name]) (d, p) rfl hr⟩

/-- C4. Cycle guard: started from the singleton call path of a provider, every call path with
which `analyzeProviderFunctionForTightCoupling` is entered has pairwise distinct names and ends
in the name of the declaration being scanned, so a callee whose name is already on the path is
never scanned on that branch. In the package where `A` calls `B` and `B` calls `A`, the
recursive walk from `A` scans `A` under `[A]`, then `B` under `[A, B]`, and nothing else. -/
theorem callPath_nodup (parseFile : String → Except String File) (settings : Settings)
    (pass : Pass) :
    (∀ funcDecl d p, Event.scan d p ∈
      analyzeProviderFunctionForTightCoupling settings pass funcDecl [funcDecl.name] →
        p.Nodup ∧ p.getLast? = some d.name) ∧
    (∀ d p, Event.scan d p ∈ (run parseFile settings pass).events →
      p.Nodup ∧ p.getLast? = some d.name) ∧
    scanNames (analyzeProviderFunctionForTightCoupling recursiveSettings cyclePackage
      (callerDecl "A" "B" 100) ["A"]) = [("A", ["A"]), ("B", ["A", "B"])] := by
  refine ⟨fun funcDecl d p h => scan_nodup settings pass funcDecl d p h, ?_, cycle_scans⟩
  intro d p h
  rcases mem_run parseFile settings pass _ h with ⟨diag, hd⟩ | ⟨funcDecl, _, hf⟩
  · cases hd
  · exact scan_nodup settings pass funcDecl d p hf

theorem follows_measure (settings : Settings) (pass : Pass) (a b : FuncDecl × List String)
    (h : Follows settings pass a b) :
    a.2.length ≤ 10 ∧ b.2.length = a.2.length + 1 ∧ 11 - b.2.length < 11 - a.2.length := by
  cases h with
  | call d p fc callee hr hl hm hc hf =>
    show p.length ≤ 10 ∧ (p ++ [fc.funcName]).length = p.length + 1 ∧
      11 - (p ++ [fc.funcName]).length < 11 - p.length
    rw [List.length_append, List.length_singleton]
    omega

theorem chain11_fuel_ten :
    analyzeProviderFunctionForTightCouplingFuel recursiveSettings (packageOf (chainDecls chain11))
      10 (callerDecl "A1" "A2" 1100) ["A1"] = none := by
  rw [← Option.not_isSome_iff_eq_none]
  decide

theorem chain11_scans :
    scanNames (analyzeProviderFunctionForTightCoupling recursiveSettings
      (packageOf (chainDecls chain11)) (callerDecl "A1" "A2" 1100) ["A1"]) =
    (List.range 11).map (fun i => (chain11.getD i "", chain11.take (i + 1))) :=
  analyze_of_fuel _ _ _ _ 12 _ _ (by decide) (by decide)

/-- C5, as the code has it. Termination: the mutually recursive walk
`analyzeProviderFunctionForTightCoupling` / `analyzeRecursiveFunctionCalls` terminates for every
package, every declaration and every call path, whatever the call graph, and the measure is 11
minus the length of the call path, the depth ceiling plus one: run with a budget of nested calls
above that number the walk returns, with the events of the total walk, and every nested call is
made from a path of length at most 10, extends the path by one name and makes the measure
strictly smaller. -/
theorem walk_terminates (settings : Settings) (pass : Pass) (fuel : Nat) (funcDecl : FuncDecl)
    (callPath : List String) (h : 11 - callPath.length < fuel) :
    analyzeProviderFunctionForTightCouplingFuel settings pass fuel funcDecl callPath =
      some (analyzeProviderFunctionForTightCoupling settings pass funcDecl callPath) ∧
    (∀ a b, Follows settings pass a b →
      a.2.length ≤ 10 ∧ b.2.length = a.2.length + 1 ∧ 11 - b.2.length < 11 - a.2.length) ∧
    (∀ d p, Event.scan d p ∈
        analyzeProviderFunctionForTightCoupling settings pass funcDecl callPath →
      Reaches settings pass (funcDecl, callPath) (d, p) ∧ callPath.length ≤ p.length ∧
        (callPath.length ≤ 11 → p.length ≤ 11)) :=
  ⟨analyzeFuel_eq settings pass fuel funcDecl callPath h,
    fun a b hab => follows_measure settings pass a b hab,
    fun d p hs =>
      have hr := (scan_mem_analyze settings pass funcDecl callPath d p).1 hs
      ⟨hr, reaches_length_mono settings pass (funcDecl, callPath) (d, p) hr,
        fun hl => reaches_length settings pass (funcDecl, callPath) (d, p) hl hr⟩⟩

/-- Witness for C5 on the chain of 11 functions: with the budget 11 the walk from `A1` under
`[A1]` returns. -/
theorem walk_terminates_witness :
    11 - ["A1"].length < 11 ∧
    analyzeProviderFunctionForTightCouplingFuel recursiveSettings (packageOf (chainDecls chain11))
        11 (callerDecl "A1" "A2" 1100) ["A1"] =
      some (analyzeProviderFunctionForTightCoupling recursiveSettings
        (packageOf (chainDecls chain11)) (callerDecl "A1" "A2" 1100) ["A1"]) :=
  ⟨by decide, (walk_terminates recursiveSettings (packageOf (chainDecls chain11)) 11
    (callerDecl "A1" "A2" 1100) ["A1"] (by decide)).1⟩

/-- C5 as stated fails: the depth ceiling minus the length of the call path does not bound the
recursion. In the chain of 11 functions `A1`, ..., `A11` the walk from `A1` under `[A1]` nests 11
scans, the last one, of `A11`, under the path `A1`, ..., `A11` of length 11; with a budget of 10
nested calls, which exceeds the ceiling 10 minus the length 1, the walk does not return. -/
theorem walk_terminates_counterexample :
    10 - ["A1"].length < 10 ∧
    analyzeProviderFunctionForTightCouplingFuel recursiveSettings (packageOf (chainDecls chain11))
      10 (callerDecl "A1" "A2" 1100) ["A1"] = none ∧
    (scanNames (analyzeProviderFunctionForTightCoupling recursiveSettings
      (packageOf (chainDecls chain11)) (callerDecl "A1" "A2" 1100) ["A1"])).length = 11 ∧
    ("A11", chain11) ∈ scanNames (analyzeProviderFunctionForTightCoupling recursiveSettings
      (packageOf (chainDecls chain11)) (callerDecl "A1" "A2" 1100) ["A1"]) ∧
    ¬ chain11.length ≤ 10 := by
  refine ⟨by decide, chain11_fuel_ten, ?_, ?_, by decide⟩
  · rw [chain11_scans]
    rfl
  · rw [chain11_scans]
    decide

/-! ## Diagnostic messages -/

theorem mem_findingPairs (events : List Event) (c : methodCall) (diag : Diagnostic) :
    (c, diag) ∈ findingPairs events ↔ Event.finding c diag ∈ events := by
  unfold findingPairs
  rw [List.mem_filterMap]
  constructor
  · rintro ⟨e, he, h⟩
    cases e with
    | scan d2 p2 => cases h
    | finding c2 diag2 =>
      simp only [Option.some.injEq, Prod.mk.injEq] at h
      obtain ⟨rfl, rfl⟩ := h
      exact he
    | failure diag2 => cases h
  · intro h
    exact ⟨_, h, rfl⟩

theorem helperPackage_findingPairs :
    findingPairs (run parseProvideFoo recursiveSettings helperPackage).events =
      [({ receiver := "dep", method := "Start", line := 1, pos := 100,
          callPath := ["ProvideFoo", "helper"] },
        { Pos := 100,
          Message := "helper() directly calls dep.Start() in wire provider function (via call path: ProvideFoo -> helper)" })] :=
  run_of_fuel _ _ 12 (by decide) _ _ _ (by decide)

theorem provideFoo_diagnostics (recursive : Bool) :
    diagnostics (run parseProvideFoo { WireGen := "wire_gen.go", Recursive := recursive }
      (packageOf [provideFooDecl])).events =
      [{ Pos := 50,
         Message := "ProvideFoo() directly calls dep.Start() in wire provider function" }] := by
  cases recursive
  · exact run_of_fuel _ _ 12 (by decide) _ _ _ (by decide)
  · exact run_of_fuel _ _ 12 (by decide) _ _ _ (by decide)

theorem reportMessage_head (funcDecl : FuncDecl) (call : methodCall) (callPath : List String) :
    ∃ rest, reportMessage funcDecl call callPath =
      funcDecl.name ++ "() directly calls " ++ call.receiver ++ "." ++ call.method ++
        "() in wire provider function" ++ rest := by
  unfold reportMessage
  by_cases h : callPath.length > 1
  · exact ⟨" (via call path: " ++ Join callPath " -> " ++ ")", by rw [if_pos h]⟩
  · refine ⟨"", ?_⟩
    rw [if_neg h, String.append_empty]

theorem finding_head (settings : Settings) (pass : Pass) (funcDecl : FuncDecl) (c : methodCall)
    (diag : Diagnostic)
    (h : Event.finding c diag ∈
      analyzeProviderFunctionForTightCoupling settings pass funcDecl [funcDecl.name]) :
    ∃ F, c.callPath.getLast? = some F ∧ c.callPath.head? = some funcDecl.name ∧
      ∃ rest, diag.Message = F ++ "() directly calls " ++ c.receiver ++ "." ++ c.method ++
        "() in wire provider function" ++ rest := by
  obtain ⟨d, p, hr, call, _, rfl, rfl⟩ :=
    (finding_mem_analyze settings pass funcDecl _ c diag).1 h
  refine ⟨d.name, reaches_last settings pass (funcDecl, [funcDecl.name]) (d, p) rfl hr,
    reaches_head settings pass (funcDecl, [funcDecl.name]) (d, p) _ rfl hr, ?_⟩
  exact reportMessage_head d _ p

theorem nodup_head_last (l : List String) (x : String) (hn : l.Nodup)
    (hh : l.head? = some x) (hl : l.getLast? = some x) : l.length = 1 := by
  cases l with
  | nil => cases hh
  | cons a t =>
    cases t with
    | nil => rfl
    | cons b u =>
      exfalso
      simp only [List.head?_cons, Option.some.injEq] at hh
      subst hh
      rw [List.getLast?_cons_cons] at hl
      have hmem : a ∈ b :: u := List.mem_of_getLast?_eq_some hl
      exact (List.nodup_cons.1 hn).1 hmem

theorem reaches_same_length (settings : Settings) (pass : Pass) (a b : FuncDecl × List String)
    (h : Reaches settings pass a b) (hl : b.2.length = a.2.length) : b = a := by
  cases h with
  | refl => rfl
  | tail hab hbc =>
    exfalso
    have h₁ := reaches_length_mono settings pass _ _ hab
    have h₂ := (follows_measure settings pass _ _ hbc).2.1
    omega

theorem mem_run_wire (parseFile : String → Except String File) (settings : Settings)
    (pass : Pass) (e : Event) (diag : Diagnostic) (c : methodCall)
    (he : e = Event.finding c diag) (h : e ∈ (run parseFile settings pass).events) :
    ∃ ws provider, parseWireGenFile parseFile settings.WireGen = .ok ws ∧
      ws provider.name = true ∧ provider ∈ topLevelFuncDecls pass ∧
      e ∈ analyzeProviderFunctionForTightCoupling settings pass provider [provider.name] := by
  unfold run at h
  by_cases hw : settings.WireGen = ""
  · rw [if_pos hw] at h
    cases h
  · rw [if_neg hw] at h
    cases hp : parseWireGenFile parseFile settings.WireGen with
    | error err =>
      rw [hp] at h
      rw [he] at h
      cases List.mem_singleton.1 h
    | ok ws =>
      rw [hp] at h
      obtain ⟨d, hd, hin⟩ := List.mem_flatMap.1 h
      by_cases hws : ws d.name = true
      · rw [if_pos hws] at hin
        rw [preorderFuncDecls_eq] at hd
        exact ⟨ws, d, rfl, hws, hd, hin⟩
      · rw [if_neg hws] at hin
        cases hin

/-- C6, as the code has it. Diagnostic message head: every finding of a run comes from the walk
started at a provider, a function declaration of the package whose name is in the provider set,
and was found in a declaration `d` scanned under the finding's call path. The message begins
with F + "() directly calls " + receiver + "." + method + "() in wire provider function" where F
is the name of `d`, the declaration in which the call lies, and the last element of the call
path; the first element of the path is the provider's name; F is the provider's name exactly when
the path has length 1, and then `d` is the provider itself. For
`func ProvideFoo(dep *Dep) *Foo { dep.Start(); return &Foo{dep} }` with ProvideFoo in the
provider set, the single diagnostic is exactly
"ProvideFoo() directly calls dep.Start() in wire provider function", in either mode. -/
theorem message_head (parseFile : String → Except String File) (settings : Settings)
    (pass : Pass) (c : methodCall) (diag : Diagnostic)
    (h : Event.finding c diag ∈ (run parseFile settings pass).events) :
    (∃ ws provider d,
      parseWireGenFile parseFile settings.WireGen = .ok ws ∧ ws provider.name = true ∧
      provider ∈ topLevelFuncDecls pass ∧
      Event.scan d c.callPath ∈
        analyzeProviderFunctionForTightCoupling settings pass provider [provider.name] ∧
      (∃ call ∈ findMethodCallsInFunction d pass.Fset,
        c = { call with callPath := c.callPath }) ∧
      c.callPath.head? = some provider.name ∧
      c.callPath.getLast? = some d.name ∧
      (d.name = provider.name ↔ c.callPath.length = 1) ∧
      (c.callPath.length = 1 → d = provider) ∧
      ∃ rest, diag.Message = d.name ++ "() directly calls " ++ c.receiver ++ "." ++ c.method ++
        "() in wire provider function" ++ rest) ∧
    (∀ recursive, diagnostics (run parseProvideFoo
        { WireGen := "wire_gen.go", Recursive := recursive } (packageOf [provideFooDecl])).events =
      [{ Pos := 50,
         Message := "ProvideFoo() directly calls dep.Start() in wire provider function" }]) := by
  refine ⟨?_, provideFoo_diagnostics⟩
  obtain ⟨ws, provider, hws, hin, htop, hf⟩ :=
    mem_run_wire parseFile settings pass _ diag c rfl h
  obtain ⟨d, p, hr, call, hcall, rfl, rfl⟩ :=
    (finding_mem_analyze settings pass provider _ c diag).1 hf
  have hhead := reaches_head settings pass (provider, [provider.name]) (d, p) _ rfl hr
  have hlast := reaches_last settings pass (provider, [provider.name]) (d, p) rfl hr
  have hnodup := reaches_nodup settings pass (provider, [provider.name]) (d, p)
    (List.nodup_singleton _) hr
  have hone : p.length = 1 → d = provider := by
    intro hl
    have := reaches_same_length settings pass (provider, [provider.name]) (d, p) hr hl
    exact congrArg Prod.fst this
  refine ⟨ws, provider, d, hws, hin, htop,
    (scan_mem_analyze settings pass provider _ d p).2 hr, ⟨call, hcall, rfl⟩, hhead, hlast,
    ⟨?_, ?_⟩, hone, reportMessage_head d _ p⟩
  · intro hname
    apply nodup_head_last p provider.name hnodup hhead
    show p.getLast? = some provider.name
    rw [← hname]
    exact hlast
  · intro hl
    rw [hone hl]

/-- Witness for C6 on the package where `ProvideFoo` calls `helper` and `helper` calls
`dep.Start()`: the finding lies in `helper`, under the path ProvideFoo, helper, and its message
begins with the name of `helper`. -/
theorem message_head_witness :
    Event.finding
        { receiver := "dep", method := "Start", line := 1, pos := 100,
          callPath := ["ProvideFoo", "helper"] }
        { Pos := 100,
          Message := "helper() directly calls dep.Start() in wire provider function (via call path: ProvideFoo -> helper)" }
      ∈ (run parseProvideFoo recursiveSettings helperPackage).events ∧
    ∃ ws provider d,
      parseWireGenFile parseProvideFoo recursiveSettings.WireGen = .ok ws ∧
      ws provider.name = true ∧
      provider ∈ topLevelFuncDecls helperPackage ∧
      Event.scan d ["ProvideFoo", "helper"] ∈
        analyzeProviderFunctionForTightCoupling recursiveSettings helperPackage provider
          [provider.name] ∧
      (∃ call ∈ findMethodCallsInFunction d helperPackage.Fset,
        ({ receiver := "dep", method := "Start", line := 1, pos := 100,
           callPath := ["ProvideFoo", "helper"] } : methodCall) =
          { call with callPath := ["ProvideFoo", "helper"] }) ∧
      (["ProvideFoo", "helper"] : List String).head? = some provider.name ∧
      (["ProvideFoo", "helper"] : List String).getLast? = some d.name ∧
      (d.name = provider.name ↔ (["ProvideFoo", "helper"] : List String).length = 1) ∧
      ((["ProvideFoo", "helper"] : List String).length = 1 → d = provider) ∧
      ∃ rest, "helper() directly calls dep.Start() in wire provider function (via call path: ProvideFoo -> helper)" =
        d.name ++ "() directly calls " ++ "dep" ++ "." ++ "Start" ++
          "() in wire provider function" ++ rest :=
  have hmem : Event.finding
        { receiver := "dep", method := "Start", line := 1, pos := 100,
          callPath := ["ProvideFoo", "helper"] }
        { Pos := 100,
          Message := "helper() directly calls dep.Start() in wire provider function (via call path: ProvideFoo -> helper)" }
      ∈ (run parseProvideFoo recursiveSettings helperPackage).events := by
    rw [← mem_findingPairs, helperPackage_findingPairs]
    exact List.mem_singleton.2 rfl
  ⟨hmem, (message_head parseProvideFoo recursiveSettings helperPackage _ _ hmem).1⟩

/-- C6 as stated fails: in the package where `ProvideFoo` calls `helper` and `helper` calls
`dep.Start()`, the recursive run reports a finding whose call path starts with the provider
ProvideFoo, and its message begins with "helper() directly calls", not with
"ProvideFoo() directly calls". -/
theorem message_head_counterexample :
    ∃ c diag, Event.finding c diag ∈ (run parseProvideFoo recursiveSettings helperPackage).events ∧
      c.callPath.head? = some "ProvideFoo" ∧
      diag.Message = "helper() directly calls dep.Start() in wire provider function (via call path: ProvideFoo -> helper)" ∧
      HasPrefix diag.Message ("ProvideFoo" ++ "() directly calls " ++ c.receiver ++ "." ++
        c.method ++ "() in wire provider function") = false := by
  refine ⟨{ receiver := "dep", method := "Start", line := 1, pos := 100,
            callPath := ["ProvideFoo", "helper"] },
    { Pos := 100,
      Message := "helper() directly calls dep.Start() in wire provider function (via call path: ProvideFoo -> helper)" },
    (mem_findingPairs _ _ _).1 ?_, ?_⟩
  · rw [helperPackage_findingPairs]
    exact List.mem_singleton.2 rfl
  · decide

/-! ## The call-path suffix -/

theorem getLast?_base (x : String) :
    (x ++ "() in wire provider function").data.getLast? = some 'n' := by
  rw [String.data_append, List.getLast?_append]
  rfl

theorem getLast?_suffix (pre j : String) :
    (pre ++ (" (via call path: " ++ j ++ ")")).data.getLast? = some ')' := by
  rw [String.data_append, String.data_append, List.getLast?_append, List.getLast?_append]
  rfl

theorem reportMessage_suffix (funcDecl : FuncDecl) (call : methodCall) (callPath : List String) :
    ((∃ pre, reportMessage funcDecl call callPath =
        pre ++ (" (via call path: " ++ Join callPath " -> " ++ ")")) ↔ callPath.length > 1) ∧
    (callPath.length ≤ 1 → reportMessage funcDecl call callPath =
      funcDecl.name ++ "() directly calls " ++ call.receiver ++ "." ++ call.method ++
        "() in wire provider function") := by
  unfold reportMessage
  by_cases h : callPath.length > 1
  · rw [if_pos h]
    exact ⟨⟨fun _ => h, fun _ => ⟨_, rfl⟩⟩, fun h2 => absurd h (by omega)⟩
  · rw [if_neg h]
    refine ⟨⟨?_, fun h2 => absurd h2 h⟩, fun _ => rfl⟩
    rintro ⟨pre, hpre⟩
    have h1 := getLast?_base (funcDecl.name ++ "() directly calls " ++ call.receiver ++ "." ++
      call.method)
    rw [hpre, getLast?_suffix] at h1
    exact absurd h1 (by decide)

theorem finding_suffix (settings : Settings) (pass : Pass) (funcDecl : FuncDecl)
    (callPath : List String) (c : methodCall) (diag : Diagnostic)
    (h : Event.finding c diag ∈
      analyzeProviderFunctionForTightCoupling settings pass funcDecl callPath) :
    ((∃ pre, diag.Message =
        pre ++ (" (via call path: " ++ Join c.callPath " -> " ++ ")")) ↔
      c.callPath.length > 1) ∧
    (c.callPath.length ≤ 1 → ∃ F, diag.Message =
      F ++ "() directly calls " ++ c.receiver ++ "." ++ c.method ++
        "() in wire provider function") := by
  obtain ⟨d, p, _, call, _, rfl, rfl⟩ :=
    (finding_mem_analyze settings pass funcDecl _ c diag).1 h
  have hs := reportMessage_suffix d { call with callPath := p } p
  exact ⟨hs.1, fun hl => ⟨d.name, hs.2 hl⟩⟩

/-- C7. Call-path suffix: for every finding, with call path n1, ..., nk, the message ends with
" (via call path: n1 -> n2 -> ... -> nk)", the names joined by " -> ", if and only if k > 1;
otherwise the message stops after "in wire provider function". This holds for the walk from any
declaration under any call path, and so for every finding of a run. In the package where
`ProvideFoo` calls `helper` the finding in `helper` carries the suffix
" (via call path: ProvideFoo -> helper)"; the finding in the provider of the one-function
package carries none. -/
theorem callPath_suffix (parseFile : String → Except String File) (settings : Settings)
    (pass : Pass) :
    (∀ funcDecl callPath c diag, Event.finding c diag ∈
      analyzeProviderFunctionForTightCoupling settings pass funcDecl callPath →
      ((∃ pre, diag.Message =
          pre ++ (" (via call path: " ++ Join c.callPath " -> " ++ ")")) ↔
        c.callPath.length > 1) ∧
      (c.callPath.length ≤ 1 → ∃ F, diag.Message =
        F ++ "() directly calls " ++ c.receiver ++ "." ++ c.method ++
          "() in wire provider function")) ∧
    (∀ c diag, Event.finding c diag ∈ (run parseFile settings pass).events →
      ((∃ pre, diag.Message =
          pre ++ (" (via call path: " ++ Join c.callPath " -> " ++ ")")) ↔
        c.callPath.length > 1) ∧
      (c.callPath.length ≤ 1 → ∃ F, diag.Message =
        F ++ "() directly calls " ++ c.receiver ++ "." ++ c.method ++
          "() in wire provider function")) ∧
    findingPairs (run parseProvideFoo recursiveSettings helperPackage).events =
      [({ receiver := "dep", method := "Start", line := 1, pos := 100,
          callPath := ["ProvideFoo", "helper"] },
        { Pos := 100,
          Message := "helper() directly calls dep.Start() in wire provider function (via call path: ProvideFoo -> helper)" })] ∧
    findingPairs (run parseProvideFoo recursiveSettings (packageOf [provideFooDecl])).events =
      [({ receiver := "dep", method := "Start", line := 0, pos := 50,
          callPath := ["ProvideFoo"] },
        { Pos := 50,
          Message := "ProvideFoo() directly calls dep.Start() in wire provider function" })] := by
  refine ⟨fun funcDecl callPath c diag h => finding_suffix settings pass funcDecl callPath c diag h,
    ?_, helperPackage_findingPairs, run_of_fuel _ _ 12 (by decide) _ _ _ (by decide)⟩
  intro c diag h
  rcases mem_run parseFile settings pass _ h with ⟨diag2, hd⟩ | ⟨funcDecl, _, hf⟩
  · cases hd
  · exact finding_suffix settings pass funcDecl _ c diag hf

/-! ## Non-recursive mode -/

theorem filterMap_flatMap_if {α β γ : Type} (f : β → Option γ) (p : α → Bool)
    (g : α → List β) (l : List α) :
    (l.flatMap (fun a => if p a = true then g a else [])).filterMap f =
      (l.filter p).flatMap (fun a => (g a).filterMap f) := by
  induction l with
  | nil => rfl
  | cons a t ih =>
    rw [List.flatMap_cons, List.filterMap_append, ih, List.filter_cons]
    by_cases hp : p a = true
    · simp [hp]
    · simp [hp]

theorem analyze_direct (settings : Settings) (hr : settings.Recursive = false) (pass : Pass)
    (funcDecl : FuncDecl) (callPath : List String) :
    analyzeProviderFunctionForTightCoupling settings pass funcDecl callPath =
      Event.scan funcDecl callPath ::
        reportCalls funcDecl (findMethodCallsInFunction funcDecl pass.Fset) callPath := by
  rw [analyzeProvider_eq, hr]
  simp

theorem run_ok (parseFile : String → Except String File) (settings : Settings) (pass : Pass)
    (ws : String → Bool) (hw : settings.WireGen ≠ "")
    (hp : parseWireGenFile parseFile settings.WireGen = .ok ws) :
    (run parseFile settings pass).events =
      (topLevelFuncDecls pass).flatMap (fun funcDecl =>
        if ws funcDecl.name = true then
          analyzeProviderFunctionForTightCoupling settings pass funcDecl [funcDecl.name]
        else []) := by
  unfold run
  rw [if_neg hw, hp, preorderFuncDecls_eq]

theorem diagnostics_reportCalls (pass : Pass) (funcDecl : FuncDecl) :
    (reportCalls funcDecl (findMethodCallsInFunction funcDecl pass.Fset)
      [funcDecl.name]).filterMap Event.diagnostic? = ownDiagnostics pass funcDecl := by
  unfold reportCalls ownDiagnostics
  rw [List.filterMap_map]
  induction findMethodCallsInFunction funcDecl pass.Fset with
  | nil => rfl
  | cons c t ih =>
    rw [List.filterMap_cons, List.map_cons, ← ih]
    simp [Event.diagnostic?, reportMessage]

theorem scans_reportCalls (funcDecl : FuncDecl) (calls : List methodCall)
    (callPath : List String) : scans (reportCalls funcDecl calls callPath) = [] := by
  unfold scans reportCalls
  rw [List.filterMap_map, List.filterMap_eq_nil_iff]
  intro c _
  rfl

/-- C8. Non-recursive mode: when the initializer file parses to the provider set `ws`, the
diagnostics of `run` are the concatenation, over the function declarations of the package in
traversal order whose name is in `ws`, of the declaration's own findings; exactly those
declarations are scanned, each once under the path of its own name, whatever they call; and
every finding has a call path of length 1, so no message has a "via call path" suffix. -/
theorem run_nonrecursive (parseFile : String → Except String File) (settings : Settings)
    (pass : Pass) (ws : String → Bool) (hr : settings.Recursive = false)
    (hw : settings.WireGen ≠ "")
    (hp : parseWireGenFile parseFile settings.WireGen = .ok ws) :
    diagnostics (run parseFile settings pass).events =
      ((topLevelFuncDecls pass).filter (fun d => ws d.name)).flatMap (ownDiagnostics pass) ∧
    scans (run parseFile settings pass).events =
      ((topLevelFuncDecls pass).filter (fun d => ws d.name)).map (fun d => (d, [d.name])) ∧
    (∀ d p, (d, p) ∈ scans (run parseFile settings pass).events → ws d.name = true) ∧
    (∀ c ∈ findings (run parseFile settings pass).events, c.callPath.length = 1) ∧
    preorderFuncDecls pass = topLevelFuncDecls pass := by
  have hrun := run_ok parseFile settings pass ws hw hp
  have hscans : scans (run parseFile settings pass).events =
      ((topLevelFuncDecls pass).filter (fun d => ws d.name)).map (fun d => (d, [d.name])) := by
    rw [hrun]
    unfold scans
    rw [filterMap_flatMap_if]
    induction (topLevelFuncDecls pass).filter (fun d => ws d.name) with
    | nil => rfl
    | cons d t ih =>
      rw [List.flatMap_cons, ih, List.map_cons, analyze_direct settings hr,
        List.filterMap_cons]
      have h2 := scans_reportCalls d (findMethodCallsInFunction d pass.Fset) [d.name]
      unfold scans at h2
      simp only [h2]
      rfl
  refine ⟨?_, hscans, ?_, ?_, preorderFuncDecls_eq pass⟩
  · rw [hrun]
    unfold diagnostics
    rw [filterMap_flatMap_if]
    congr 1
    funext d
    rw [analyze_direct settings hr, List.filterMap_cons]
    simp only [Event.diagnostic?]
    exact diagnostics_reportCalls pass d
  · intro d p hm
    rw [hscans, List.mem_map] at hm
    obtain ⟨d2, hd2, he⟩ := hm
    cases he
    exact (List.mem_filter.1 hd2).2
  · intro c hc
    obtain ⟨diag, hd⟩ := (mem_findings _ c).1 hc
    rw [hrun, List.mem_flatMap] at hd
    obtain ⟨d, _, hd⟩ := hd
    by_cases hws : ws d.name = true
    · rw [if_pos hws, analyze_direct settings hr, List.mem_cons] at hd
      rcases hd with hd | hd
      · cases hd
      · obtain ⟨call, _, he⟩ := (mem_reportCalls _ _ _ _).1 hd
        cases he
        rfl
    · rw [if_neg hws] at hd
      cases hd

/-- Witness for C8 on the package of `ProvideFoo`, `ProvideBar` and `helper`, with ProvideFoo and
ProvideBar in the provider set: `helper` is called by `ProvideBar` and is not scanned. -/
theorem run_nonrecursive_witness :
    directSettings.Recursive = false ∧ directSettings.WireGen ≠ "" ∧
    parseWireGenFile parseProvideFooBar directSettings.WireGen =
      .ok (setTrue (setTrue emptyMap "ProvideFoo") "ProvideBar") ∧
    diagnostics (run parseProvideFooBar directSettings mixedPackage).events =
      ((topLevelFuncDecls mixedPackage).filter
        (fun d => setTrue (setTrue emptyMap "ProvideFoo") "ProvideBar" d.name)).flatMap
        (ownDiagnostics mixedPackage) ∧
    diagnostics (run parseProvideFooBar directSettings mixedPackage).events =
      [{ Pos := 50,
         Message := "ProvideFoo() directly calls dep.Start() in wire provider function" }] ∧
    scanNames (run parseProvideFooBar directSettings mixedPackage).events =
      [("ProvideFoo", ["ProvideFoo"]), ("ProvideBar", ["ProvideBar"])] :=
  ⟨rfl, by decide, rfl,
    (run_nonrecursive parseProvideFooBar directSettings mixedPackage
      (setTrue (setTrue emptyMap "ProvideFoo") "ProvideBar") rfl (by decide) rfl).1,
    run_of_fuel _ _ 12 (by decide) _ _ _ (by decide),
    run_of_fuel _ _ 12 (by decide) _ _ _ (by decide)⟩

/-! ## Identifier receivers and closures -/

theorem couplingFinding?_indirect (funcDecl : FuncDecl) (fset : FileSet) (n : Node)
    (h : n.isIndirectSelectorCall = true) : couplingFinding? funcDecl fset n = none := by
  apply couplingFinding?_eq_none
  intro pos name sel args e
  subst e
  simp [Node.isIndirectSelectorCall] at h

theorem filterMap_filter_of_none {α β : Type} (g : α → Option β) (p : α → Bool)
    (h : ∀ a, p a = false → g a = none) (l : List α) :
    (l.filter p).filterMap g = l.filterMap g := by
  induction l with
  | nil => rfl
  | cons a t ih =>
    rw [List.filter_cons]
    cases hp : p a with
    | true => simp [List.filterMap_cons, ih]
    | false => simp [List.filterMap_cons, ih, h a hp]

theorem paramNames_exprDecl (p : String) (e : Expr) : paramNames (exprDecl p e) = [p] := by
  simp [paramNames, exprDecl, FuncType.params, FieldList.list, Field.names]

theorem inspect_chainedCall (p : String) :
    Inspect (.decl (.funcDecl (exprDecl p (chainedCall p)))) =
      [.decl (.funcDecl (exprDecl p (chainedCall p))), .expr (.ident "f"),
       .expr (.funcType (.mk none (.mk [.mk [p] (some (.ident "T"))]) none)),
       .fieldList (.mk [.mk [p] (some (.ident "T"))]), .field (.mk [p] (some (.ident "T"))),
       .expr (.ident p), .expr (.ident "T"),
       .stmt (.blockStmt (.mk [.exprStmt (chainedCall p)])), .stmt (.exprStmt (chainedCall p)),
       .expr (chainedCall p),
       .expr (.selectorExpr (.callExpr 10 (.selectorExpr (.ident p) "Foo") []) "Bar"),
       .expr (.callExpr 10 (.selectorExpr (.ident p) "Foo") []),
       .expr (.selectorExpr (.ident p) "Foo"), .expr (.ident p), .expr (.ident "Foo"),
       .expr (.ident "Bar")] := by
  rfl

theorem inspect_fieldCall (p : String) :
    Inspect (.decl (.funcDecl (exprDecl p (fieldCall p)))) =
      [.decl (.funcDecl (exprDecl p (fieldCall p))), .expr (.ident "f"),
       .expr (.funcType (.mk none (.mk [.mk [p] (some (.ident "T"))]) none)),
       .fieldList (.mk [.mk [p] (some (.ident "T"))]), .field (.mk [p] (some (.ident "T"))),
       .expr (.ident p), .expr (.ident "T"),
       .stmt (.blockStmt (.mk [.exprStmt (fieldCall p)])), .stmt (.exprStmt (fieldCall p)),
       .expr (fieldCall p),
       .expr (.selectorExpr (.selectorExpr (.ident p) "field") "M"),
       .expr (.selectorExpr (.ident p) "field"), .expr (.ident p), .expr (.ident "field"),
       .expr (.ident "M")] := by
  rfl

theorem chainedCall_findings (p : String) (fset : FileSet) :
    findMethodCallsInFunction (exprDecl p (chainedCall p)) fset =
      [{ receiver := p, method := "Foo", line := fset.Line 10, pos := 10, callPath := [] }] := by
  rw [findMethodCallsInFunction_eq, inspect_chainedCall]
  simp [couplingFinding?, chainedCall, paramNames_exprDecl]

theorem fieldCall_findings (p : String) (fset : FileSet) :
    findMethodCallsInFunction (exprDecl p (fieldCall p)) fset = [] := by
  rw [findMethodCallsInFunction_eq, inspect_fieldCall]
  simp [couplingFinding?, fieldCall]

/-- C9. Only directly bound parameters match: every finding of `findMethodCallsInFunction` comes
from a call whose callee is a selector on a bare identifier, and the calls whose callee selects
on anything else contribute nothing: the findings are those of the node list with these calls
removed. For a parameter `p`, `p.Foo().Bar()` gives exactly one finding, receiver `p` and
method `Foo`, and `p.field.M()` gives none. -/
theorem only_identifier_receivers (funcDecl : FuncDecl) (fset : FileSet) :
    (∀ c ∈ findMethodCallsInFunction funcDecl fset, ∃ pos args,
      Node.expr (.callExpr pos (.selectorExpr (.ident c.receiver) c.method) args) ∈
        Inspect (.decl (.funcDecl funcDecl)) ∧ c.pos = pos) ∧
    findMethodCallsInFunction funcDecl fset =
      ((Inspect (.decl (.funcDecl funcDecl))).filter
        (fun n => !n.isIndirectSelectorCall)).filterMap (couplingFinding? funcDecl fset) ∧
    (∀ p, findMethodCallsInFunction (exprDecl p (chainedCall p)) fset =
      [{ receiver := p, method := "Foo", line := fset.Line 10, pos := 10, callPath := [] }]) ∧
    (∀ p, findMethodCallsInFunction (exprDecl p (fieldCall p)) fset = []) := by
  refine ⟨?_, ?_, fun p => chainedCall_findings p fset, fun p => fieldCall_findings p fset⟩
  · intro c hc
    rw [findMethodCallsInFunction_eq, List.mem_filterMap] at hc
    obtain ⟨n, hn, hf⟩ := hc
    obtain ⟨pos, args, rfl, _, hpos, _⟩ := couplingFinding?_receiver funcDecl fset n c hf
    exact ⟨pos, args, hn, hpos⟩
  · rw [findMethodCallsInFunction_eq, filterMap_filter_of_none]
    intro n hn
    apply couplingFinding?_indirect
    simpa using hn

theorem closureDecl_findings (fset : FileSet) :
    findMethodCallsInFunction closureDecl fset =
      [{ receiver := "p", method := "M", line := fset.Line 20, pos := 20, callPath := [] }] := by
  rfl

theorem contains_trans (a b c : Node) (h₁ : a.Contains b) (h₂ : b.Contains c) : a.Contains c :=
  Relation.ReflTransGen.trans h₁ h₂

theorem contains_child (a b : Node) (h : b ∈ a.children) : a.Contains b :=
  Relation.ReflTransGen.single h

theorem contains_body (funcDecl : FuncDecl) (body : Block) (h : funcDecl.body = some body) :
    (Node.decl (.funcDecl funcDecl)).Contains (.stmt (.blockStmt body)) := by
  apply contains_child
  simp [Node.children, optBlockNodes, h]

theorem contains_funcLit_body (t : FuncType) (b : Block) :
    (Node.expr (.funcLit t b)).Contains (.stmt (.blockStmt b)) := by
  apply contains_child
  simp [Node.children]

theorem contains_call_arg (pos : Nat) (fn : Expr) (args : List Expr) (a : Expr)
    (h : a ∈ args) : (Node.expr (.callExpr pos fn args)).Contains (.expr a) := by
  apply contains_child
  simp only [Node.children, exprNodes, List.mem_cons, List.mem_map]
  exact Or.inr ⟨a, h, rfl⟩

theorem contains_stmt (l : List Stmt) (s : Stmt) (h : s ∈ l) :
    (Node.stmt (.blockStmt (.mk l))).Contains (.stmt s) := by
  apply contains_child
  simp only [Node.children, stmtNodes, List.mem_map]
  exact ⟨s, h, rfl⟩

theorem contains_exprStmt (pre post : List Stmt) (e : Expr) :
    (Node.stmt (.blockStmt (.mk (pre ++ [.exprStmt e] ++ post)))).Contains (.expr e) := by
  have h₁ : (Node.stmt (.blockStmt (.mk (pre ++ [.exprStmt e] ++ post)))).Contains
      (.stmt (.exprStmt e)) := contains_stmt _ _ (by simp)
  have h₂ : (Node.stmt (.exprStmt e)).Contains (.expr e) :=
    contains_child _ _ (by simp [Node.children])
  exact contains_trans _ _ _ h₁ h₂

theorem contains_closure_arg (pre post : List Stmt) (pos : Nat) (fn : Expr)
    (as₁ as₂ : List Expr) (t : FuncType) (b : Block) :
    (Node.stmt (.blockStmt (.mk (pre ++
      [.exprStmt (.callExpr pos fn (as₁ ++ [.funcLit t b] ++ as₂))] ++ post)))).Contains
      (.expr (.funcLit t b)) :=
  contains_trans _ _ _ (contains_exprStmt pre post _)
    (contains_call_arg pos fn _ (.funcLit t b) (by simp))

theorem closureArgDecl_findings (fset : FileSet) :
    findMethodCallsInFunction closureArgDecl fset =
      [{ receiver := "p", method := "M", line := fset.Line 20, pos := 20, callPath := [] }] := by
  rfl

theorem nestedClosureDecl_findings (fset : FileSet) :
    findMethodCallsInFunction nestedClosureDecl fset =
      [{ receiver := "p", method := "M", line := fset.Line 30, pos := 30, callPath := [] }] := by
  rfl

/-- C10. Nested closures: `findMethodCallsInFunction` walks into the function literals of the
declaration, wherever they stand (as a statement's callee, as an argument of a call, inside
another literal), and tests the receiver against the parameter names of the enclosing
declaration only. For every function literal the body of the declaration contains, and every
call `p.m(...)` the body of that literal contains: when `p` is a parameter of the declaration
the call is reported, and when it is not, no finding has receiver `p`, whatever the parameters of
the literal are. In particular a call `p.m()` in a literal passed as an argument of a call
statement of the body is reported. For `func Provide(p Dep) { func(q Dep) { p.M(); q.M() }(p) }`
the findings are `p.M` alone; `func Provide(p Dep) { foo(func() { p.M() }) }` reports `p.M`;
and in `go func() { defer func(q Dep) { p.M(); q.N() }(p) }()` the call `p.M()` of the inner
literal is reported and `q.N()` is not. -/
theorem closure_calls (funcDecl : FuncDecl) (fset : FileSet) :
    (∀ body t b pos p m args, funcDecl.body = some body →
      (Node.stmt (.blockStmt body)).Contains (.expr (.funcLit t b)) →
      (Node.stmt (.blockStmt b)).Contains
        (.expr (.callExpr pos (.selectorExpr (.ident p) m) args)) →
      p ∈ paramNames funcDecl →
      { receiver := p, method := m, line := fset.Line pos, pos := pos, callPath := [] } ∈
        findMethodCallsInFunction funcDecl fset) ∧
    (∀ p, p ∉ paramNames funcDecl →
      ∀ c ∈ findMethodCallsInFunction funcDecl fset, c.receiver ≠ p) ∧
    (∀ (pre post : List Stmt) (pos0 pos : Nat) (fn : Expr) (as₁ as₂ args : List Expr)
        (t : FuncType) (p m : String),
      funcDecl.body = some (.mk (pre ++ [.exprStmt (.callExpr pos0 fn
        (as₁ ++ [.funcLit t (.mk [.exprStmt
          (.callExpr pos (.selectorExpr (.ident p) m) args)])] ++ as₂))] ++ post)) →
      p ∈ paramNames funcDecl →
      { receiver := p, method := m, line := fset.Line pos, pos := pos, callPath := [] } ∈
        findMethodCallsInFunction funcDecl fset) ∧
    findMethodCallsInFunction closureDecl fset =
      [{ receiver := "p", method := "M", line := fset.Line 20, pos := 20, callPath := [] }] ∧
    findMethodCallsInFunction closureArgDecl fset =
      [{ receiver := "p", method := "M", line := fset.Line 20, pos := 20, callPath := [] }] ∧
    findMethodCallsInFunction nestedClosureDecl fset =
      [{ receiver := "p", method := "M", line := fset.Line 30, pos := 30, callPath := [] }] := by
  have key : ∀ body t b pos p m args, funcDecl.body = some body →
      (Node.stmt (.blockStmt body)).Contains (.expr (.funcLit t b)) →
      (Node.stmt (.blockStmt b)).Contains
        (.expr (.callExpr pos (.selectorExpr (.ident p) m) args)) →
      p ∈ paramNames funcDecl →
      { receiver := p, method := m, line := fset.Line pos, pos := pos, callPath := [] } ∈
        findMethodCallsInFunction funcDecl fset := by
    intro body t b pos p m args hbody hlit hcall hp
    rw [mem_findMethodCalls_iff]
    refine ⟨.expr (.callExpr pos (.selectorExpr (.ident p) m) args), ?_,
      by simp [couplingFinding?, hp]⟩
    exact contains_trans _ _ _ (contains_body funcDecl body hbody)
      (contains_trans _ _ _ hlit (contains_trans _ _ _ (contains_funcLit_body t b) hcall))
  refine ⟨key, ?_, ?_, closureDecl_findings fset, closureArgDecl_findings fset,
    nestedClosureDecl_findings fset⟩
  · intro p hp c hc hrec
    obtain ⟨n, _, hf⟩ := (mem_findMethodCalls_iff funcDecl fset c).1 hc
    obtain ⟨_, _, _, hmem, _⟩ := couplingFinding?_receiver funcDecl fset n c hf
    exact hp (hrec ▸ hmem)
  · intro pre post pos0 pos fn as₁ as₂ args t p m hbody hp
    exact key _ t (.mk [.exprStmt (.callExpr pos (.selectorExpr (.ident p) m) args)])
      pos p m args hbody (contains_closure_arg pre post pos0 fn as₁ as₂ t _)
      (contains_exprStmt [] [] _) hp

/-! ## Missing configuration and parse failure -/

theorem run_empty (parseFile : String → Except String File) (recursive : Bool) (pass : Pass) :
    run parseFile { WireGen := "", Recursive := recursive } pass = { events := [], err := none } := by
  unfold run
  rw [if_pos rfl]

/-- C12. Missing configuration: when `Settings.WireGen` is the empty string, `run` reports
nothing and returns a nil error, for every package, either value of `Recursive` and every
parser: the result does not depend on what parsing the initializer file would give. -/
theorem run_without_wireGen (parseFile : String → Except String File) (recursive : Bool)
    (pass : Pass) :
    run parseFile { WireGen := "", Recursive := recursive } pass =
      { events := [], err := none } ∧
    diagnostics (run parseFile { WireGen := "", Recursive := recursive } pass).events = [] ∧
    (run parseFile { WireGen := "", Recursive := recursive } pass).err = none ∧
    diagnostics (run (parseFailing "no such file") { WireGen := "", Recursive := recursive }
      mixedPackage).events = [] ∧
    diagnostics (run parseProvideFooBar { WireGen := "", Recursive := recursive }
      mixedPackage).events = [] := by
  refine ⟨run_empty parseFile recursive pass, ?_, ?_, ?_, ?_⟩
  · rw [run_empty]
    rfl
  · rw [run_empty]
  · rw [run_empty]
    rfl
  · rw [run_empty]
    rfl

theorem run_parse_error (parseFile : String → Except String File) (settings : Settings)
    (pass : Pass) (e : String) (hw : settings.WireGen ≠ "")
    (hp : parseFile settings.WireGen = .error e) :
    run parseFile settings pass =
      { events := [Event.failure
          { Pos := 0,
            Message := "failed to parse wire-gen file " ++ settings.WireGen ++ ": " ++ e }]
        err := none } := by
  have hpw : parseWireGenFile parseFile settings.WireGen = .error e := by
    unfold parseWireGenFile
    rw [hp]
  unfold run
  rw [if_neg hw, hpw]

/-- C13. Parse failure: when `WireGen` is not empty and parsing the initializer file fails with
error `e`, `run` reports exactly one diagnostic, at position 0, with the message
"failed to parse wire-gen file " + WireGen + ": " + e; it scans no function, produces no
coupling finding, and returns a nil error. -/
theorem run_parse_failure (parseFile : String → Except String File) (settings : Settings)
    (pass : Pass) (e : String) (hw : settings.WireGen ≠ "")
    (hp : parseFile settings.WireGen = .error e) :
    diagnostics (run parseFile settings pass).events =
      [{ Pos := 0,
         Message := "failed to parse wire-gen file " ++ settings.WireGen ++ ": " ++ e }] ∧
    findings (run parseFile settings pass).events = [] ∧
    scans (run parseFile settings pass).events = [] ∧
    (run parseFile settings pass).err = none := by
  rw [run_parse_error parseFile settings pass e hw hp]
  exact ⟨rfl, rfl, rfl, rfl⟩

/-- Witness for C13 on the package of `ProvideFoo`, `ProvideBar` and `helper`, in recursive
mode, with a parser that fails with "syntax error". -/
theorem run_parse_failure_witness :
    recursiveSettings.WireGen ≠ "" ∧
    parseFailing "syntax error" recursiveSettings.WireGen = .error "syntax error" ∧
    diagnostics (run (parseFailing "syntax error") recursiveSettings mixedPackage).events =
      [{ Pos := 0, Message := "failed to parse wire-gen file wire_gen.go: syntax error" }] ∧
    findings (run (parseFailing "syntax error") recursiveSettings mixedPackage).events = [] ∧
    scans (run (parseFailing "syntax error") recursiveSettings mixedPackage).events = [] ∧
    (run (parseFailing "syntax error") recursiveSettings mixedPackage).err = none :=
  ⟨by decide, rfl,
    run_parse_failure (parseFailing "syntax error") recursiveSettings mixedPackage
      "syntax error" (by decide) rfl⟩

/-! ## Callee resolution -/

theorem findSome?_decls (name : String) (cond : Bool) (g : Decl → Option FuncDecl)
    (hf : ∀ d, g (.funcDecl d) =
      if d.name = name then (if cond = true then some d else none) else none)
    (hb : g .badDecl = none) (hg : ∀ x, g (.genDecl x) = none) (decls : List Decl) :
    decls.findSome? g =
      if cond = true then
        (decls.filterMap Decl.funcDecl?).find? (fun d => decide (d.name = name))
      else none := by
  induction decls with
  | nil => cases cond <;> rfl
  | cons a t ih =>
    rw [List.findSome?_cons, ih]
    cases a with
    | badDecl => simp [Decl.funcDecl?, hb]
    | genDecl x => simp [Decl.funcDecl?, hg]
    | funcDecl d =>
      rw [hf]
      cases cond with
      | false => simp
      | true =>
        by_cases hn : d.name = name
        · simp [Decl.funcDecl?, hn]
        · simp [Decl.funcDecl?, hn]

theorem findSome?_files (g : File → Option FuncDecl) (p : FuncDecl → Bool) (cond : Bool)
    (hfile : ∀ file, g file =
      if cond = true then (file.decls.filterMap Decl.funcDecl?).find? p else none)
    (files : List File) :
    files.findSome? g =
      if cond = true then
        (files.flatMap (fun f => f.decls.filterMap Decl.funcDecl?)).find? p
      else none := by
  induction files with
  | nil => cases cond <;> rfl
  | cons f fs ih =>
    rw [List.findSome?_cons, ih, hfile f]
    cases cond with
    | false => rfl
    | true =>
      simp only [if_true, List.flatMap_cons, List.find?_append]
      cases (f.decls.filterMap Decl.funcDecl?).find? p <;> rfl

theorem findFunctionDeclaration_eq (pass : Pass) (funcName pkg : String) :
    findFunctionDeclaration pass funcName pkg =
      if pkg = "" ∨ pkg = pass.PkgName then
        (topLevelFuncDecls pass).find? (fun d => decide (d.name = funcName))
      else none := by
  unfold findFunctionDeclaration topLevelFuncDecls
  rw [findSome?_files _ (fun d => decide (d.name = funcName))
    (decide (pkg = "") || decide (pkg = pass.PkgName))]
  · by_cases hq : pkg = "" ∨ pkg = pass.PkgName
    · have hb : (decide (pkg = "") || decide (pkg = pass.PkgName)) = true := by simpa using hq
      rw [if_pos hq, if_pos hb]
    · have hb : ¬ (decide (pkg = "") || decide (pkg = pass.PkgName)) = true := by simpa using hq
      rw [if_neg hq, if_neg hb]
  · intro file
    exact findSome?_decls funcName _ _ (fun d => rfl) rfl (fun x => rfl) file.decls

theorem findFunctionDeclaration_mem (pass : Pass) (funcName pkg : String) (d : FuncDecl)
    (h : findFunctionDeclaration pass funcName pkg = some d) :
    d ∈ topLevelFuncDecls pass ∧ d.name = funcName ∧ (pkg = "" ∨ pkg = pass.PkgName) := by
  rw [findFunctionDeclaration_eq] at h
  by_cases hq : pkg = "" ∨ pkg = pass.PkgName
  · rw [if_pos hq] at h
    exact ⟨List.mem_of_find?_eq_some h, by simpa using List.find?_some h, hq⟩
  · rw [if_neg hq] at h
    cases h

theorem findFunctionDeclaration_isSome (pass : Pass) (funcName pkg : String) :
    (∃ d, findFunctionDeclaration pass funcName pkg = some d) ↔
      (∃ d ∈ topLevelFuncDecls pass, d.name = funcName) ∧ (pkg = "" ∨ pkg = pass.PkgName) := by
  constructor
  · rintro ⟨d, hd⟩
    obtain ⟨hm, hn, hq⟩ := findFunctionDeclaration_mem pass funcName pkg d hd
    exact ⟨⟨d, hm, hn⟩, hq⟩
  · rintro ⟨⟨d, hm, hn⟩, hq⟩
    rw [findFunctionDeclaration_eq, if_pos hq]
    cases hf : (topLevelFuncDecls pass).find? (fun d => decide (d.name = funcName)) with
    | some d2 => exact ⟨d2, rfl⟩
    | none =>
      have := List.find?_eq_none.1 hf d hm
      simp [hn] at this

theorem followCall_unresolved (settings : Settings) (pass : Pass) (callPath : List String)
    (funcCall : functionCall)
    (h : findFunctionDeclaration pass funcCall.funcName funcCall.pkg = none) :
    followCall settings pass callPath funcCall = [] := by
  unfold followCall
  rw [h]
  cases containsFunction callPath funcCall.funcName <;> rfl

theorem analyzeRecursive_skip (settings : Settings) (pass : Pass) (callPath : List String)
    (funcCall : functionCall) (cs₁ cs₂ : List functionCall)
    (h : followCall settings pass callPath funcCall = []) :
    analyzeRecursiveFunctionCalls settings pass (cs₁ ++ [funcCall] ++ cs₂) callPath =
      analyzeRecursiveFunctionCalls settings pass (cs₁ ++ cs₂) callPath := by
  rw [analyzeRecursive_eq, analyzeRecursive_eq]
  by_cases hl : callPath.length > 10
  · rw [if_pos hl, if_pos hl]
  · rw [if_neg hl, if_neg hl]
    simp [List.flatMap_append, h]

theorem qualifiedPackage_other :
    findingPairs (run (parseCalling ["ProvideX"]) recursiveSettings
      (qualifiedPackage "other")).events = [] :=
  run_of_fuel _ _ 12 (by decide) _ _ _ (by decide)

theorem qualifiedPackage_own :
    findingPairs (run (parseCalling ["ProvideX"]) recursiveSettings
      (qualifiedPackage "wire")).events =
      [({ receiver := "dep", method := "Start", line := 1, pos := 100,
          callPath := ["ProvideX", "helper"] },
        { Pos := 100,
          Message := "helper() directly calls dep.Start() in wire provider function (via call path: ProvideX -> helper)" })] :=
  run_of_fuel _ _ 12 (by decide) _ _ _ (by decide)

/-- C11. Callee resolution: `findFunctionDeclaration` returns a declaration exactly when the
package has a function declaration with the name and the qualifier is empty or the package's own
name; what it returns is such a declaration. When it returns nothing,
`analyzeRecursiveFunctionCalls` skips the call: the events are those of the call list without
it, so nothing is reported for it. A call `pkg.F()` whose qualifier is not the package name is
therefore never followed: in the package `wire` where `ProvideX` calls `other.helper(dep)` and
`helper` calls `dep.Start()`, the recursive run reports nothing, while with `wire.helper(dep)`
the finding in `helper` is reported. -/
theorem findFunctionDeclaration_resolves (settings : Settings) (pass : Pass)
    (funcName pkg : String) (callPath : List String) :
    ((∃ d, findFunctionDeclaration pass funcName pkg = some d) ↔
      (∃ d ∈ topLevelFuncDecls pass, d.name = funcName) ∧ (pkg = "" ∨ pkg = pass.PkgName)) ∧
    (∀ d, findFunctionDeclaration pass funcName pkg = some d →
      d ∈ topLevelFuncDecls pass ∧ d.name = funcName) ∧
    (findFunctionDeclaration pass funcName pkg = none →
      ∀ pos cs₁ cs₂, analyzeRecursiveFunctionCalls settings pass
          (cs₁ ++ [{ funcName := funcName, pos := pos, pkg := pkg }] ++ cs₂) callPath =
        analyzeRecursiveFunctionCalls settings pass (cs₁ ++ cs₂) callPath) ∧
    (pkg ≠ "" → pkg ≠ pass.PkgName → findFunctionDeclaration pass funcName pkg = none) ∧
    findingPairs (run (parseCalling ["ProvideX"]) recursiveSettings
      (qualifiedPackage "other")).events = [] ∧
    findingPairs (run (parseCalling ["ProvideX"]) recursiveSettings
      (qualifiedPackage "wire")).events =
      [({ receiver := "dep", method := "Start", line := 1, pos := 100,
          callPath := ["ProvideX", "helper"] },
        { Pos := 100,
          Message := "helper() directly calls dep.Start() in wire provider function (via call path: ProvideX -> helper)" })] := by
  refine ⟨findFunctionDeclaration_isSome pass funcName pkg, ?_, ?_, ?_,
    qualifiedPackage_other, qualifiedPackage_own⟩
  · intro d hd
    obtain ⟨hm, hn, _⟩ := findFunctionDeclaration_mem pass funcName pkg d hd
    exact ⟨hm, hn⟩
  · intro hnone pos cs₁ cs₂
    exact analyzeRecursive_skip settings pass callPath _ cs₁ cs₂
      (followCall_unresolved settings pass callPath _ hnone)
  · intro h1 h2
    rw [findFunctionDeclaration_eq, if_neg]
    rintro (h | h)
    · exact h1 h
    · exact h2 h

theorem scan_mem_run (parseFile : String → Except String File) (settings : Settings)
    (pass : Pass) (ws : String → Bool) (hw : settings.WireGen ≠ "")
    (hp : parseWireGenFile parseFile settings.WireGen = .ok ws) (d : FuncDecl)
    (hd : d ∈ topLevelFuncDecls pass) (hws : ws d.name = true) :
    Event.scan d [d.name] ∈ (run parseFile settings pass).events := by
  rw [run_ok parseFile settings pass ws hw hp, List.mem_flatMap]
  refine ⟨d, hd, ?_⟩
  rw [if_pos hws, analyzeProvider_eq]
  exact List.mem_cons_self _ _

theorem methodPackage_findings :
    findingPairs (run (parseCalling ["ProvideX"]) recursiveSettings methodPackage).events =
      [({ receiver := "dep", method := "Start", line := 1, pos := 100,
          callPath := ["ProvideX", "helper"] },
        { Pos := 100,
          Message := "helper() directly calls dep.Start() in wire provider function (via call path: ProvideX -> helper)" })] :=
  run_of_fuel _ _ 12 (by decide) _ _ _ (by decide)

theorem methodPackage_provider :
    findingPairs (run (parseCalling ["helper"]) directSettings methodPackage).events =
      [({ receiver := "dep", method := "Start", line := 1, pos := 100,
          callPath := ["helper"] },
        { Pos := 100,
          Message := "helper() directly calls dep.Start() in wire provider function" })] ∧
    scanNames (run (parseCalling ["helper"]) directSettings methodPackage).events =
      [("helper", ["helper"]), ("helper", ["helper"])] :=
  ⟨run_of_fuel _ _ 12 (by decide) _ _ _ (by decide),
    run_of_fuel _ _ 12 (by decide) _ _ _ (by decide)⟩

/-- C19. Name-only resolution ignores receivers: for a bare call, and for a call qualified with
the package's own name, `findFunctionDeclaration` returns the first function declaration of the
package, files in order and declarations in order, whose name is the callee name, method or
not; whatever it returns is that first declaration. In the package where the method
`func (t T) helper(dep Dep)` is declared before `func helper()`, the call `helper()` in the
provider resolves to the method and the walk reports the method's `dep.Start()`. `run` scans
every function declaration whose name is in the provider set, method or not. -/
theorem findFunctionDeclaration_first (parseFile : String → Except String File)
    (settings : Settings) (pass : Pass) (funcName : String) :
    findFunctionDeclaration pass funcName "" =
      (topLevelFuncDecls pass).find? (fun d => decide (d.name = funcName)) ∧
    findFunctionDeclaration pass funcName pass.PkgName =
      (topLevelFuncDecls pass).find? (fun d => decide (d.name = funcName)) ∧
    (∀ pkg d, findFunctionDeclaration pass funcName pkg = some d →
      (topLevelFuncDecls pass).find? (fun d => decide (d.name = funcName)) = some d) ∧
    (∀ ws, settings.WireGen ≠ "" → parseWireGenFile parseFile settings.WireGen = .ok ws →
      ∀ d ∈ topLevelFuncDecls pass, ws d.name = true →
        Event.scan d [d.name] ∈ (run parseFile settings pass).events) ∧
    findFunctionDeclaration methodPackage "helper" "" = some helperMethodDecl ∧
    helperMethodDecl.recv.isSome = true ∧
    findingPairs (run (parseCalling ["ProvideX"]) recursiveSettings methodPackage).events =
      [({ receiver := "dep", method := "Start", line := 1, pos := 100,
          callPath := ["ProvideX", "helper"] },
        { Pos := 100,
          Message := "helper() directly calls dep.Start() in wire provider function (via call path: ProvideX -> helper)" })] ∧
    scanNames (run (parseCalling ["helper"]) directSettings methodPackage).events =
      [("helper", ["helper"]), ("helper", ["helper"])] ∧
    findingPairs (run (parseCalling ["helper"]) directSettings methodPackage).events =
      [({ receiver := "dep", method := "Start", line := 1, pos := 100,
          callPath := ["helper"] },
        { Pos := 100,
          Message := "helper() directly calls dep.Start() in wire provider function" })] := by
  refine ⟨?_, ?_, ?_, ?_, rfl, rfl, methodPackage_findings, methodPackage_provider.2,
    methodPackage_provider.1⟩
  · rw [findFunctionDeclaration_eq, if_pos (Or.inl rfl)]
  · rw [findFunctionDeclaration_eq, if_pos (Or.inr rfl)]
  · intro pkg d hd
    rw [findFunctionDeclaration_eq] at hd
    by_cases hq : pkg = "" ∨ pkg = pass.PkgName
    · rw [if_pos hq] at hd
      exact hd
    · rw [if_neg hq] at hd
      cases hd
  · intro ws hw hp d hd hws
    exact scan_mem_run parseFile settings pass ws hw hp d hd hws

/-! ## Call paths are call chains -/

theorem findFunctionCallsInFunction_eq (funcDecl : FuncDecl) (fset : FileSet) :
    findFunctionCallsInFunction funcDecl fset =
      (Inspect (.decl (.funcDecl funcDecl))).filterMap functionCallOf? := by
  have h := foldl_collect functionCallOf? (Inspect (.decl (.funcDecl funcDecl))) []
  rw [List.nil_append] at h
  rw [← h, findFunctionCallsInFunction]
  congr 1
  funext calls n
  cases n with
  | expr e =>
    cases e with
    | callExpr p fn args =>
      cases fn with
      | ident name => rfl
      | selectorExpr x sel => cases x <;> rfl
      | _ => rfl
    | _ => rfl
  | _ => rfl

theorem callsName_of_mem (funcDecl : FuncDecl) (fset : FileSet) (fc : functionCall)
    (h : fc ∈ findFunctionCallsInFunction funcDecl fset) : CallsName funcDecl fc.funcName := by
  rw [findFunctionCallsInFunction_eq, List.mem_filterMap] at h
  obtain ⟨n, hn, hf⟩ := h
  cases n with
  | expr e =>
    cases e with
    | callExpr p fn args =>
      cases fn with
      | ident name =>
        simp only [functionCallOf?, Option.some.injEq] at hf
        subst hf
        exact ⟨p, _, args, hn, Or.inl rfl⟩
      | selectorExpr x sel =>
        cases x with
        | ident pk =>
          simp only [functionCallOf?, Option.some.injEq] at hf
          subst hf
          exact ⟨p, _, args, hn, Or.inr ⟨_, rfl⟩⟩
        | _ => simp [functionCallOf?] at hf
      | _ => simp [functionCallOf?] at hf
    | _ => simp [functionCallOf?] at hf
  | _ => simp [functionCallOf?] at hf

theorem callChain_of_reaches (settings : Settings) (pass : Pass) (provider d : FuncDecl)
    (p : List String)
    (h : Reaches settings pass (provider, [provider.name]) (d, p)) :
    CallChain (analyzeProviderFunctionForTightCoupling settings pass provider [provider.name])
      provider d p := by
  have key : ∀ b : FuncDecl × List String,
      Reaches settings pass (provider, [provider.name]) b →
      CallChain (analyzeProviderFunctionForTightCoupling settings pass provider
        [provider.name]) provider b.1 b.2 := by
    intro b hb
    induction hb with
    | refl =>
      exact CallChain.start
        ((scan_mem_analyze settings pass provider _ provider _).2 Relation.ReflTransGen.refl)
    | tail hab hbc ih =>
      have hreach := Relation.ReflTransGen.tail hab hbc
      cases hbc with
      | call d2 p2 fc callee hr hl hm hc hf =>
        have hname := findFunctionDeclaration_name pass _ _ _ hf
        rw [← hname] at hreach ⊢
        exact CallChain.call d2 p2 callee ih
          (by rw [hname]; exact callsName_of_mem d2 pass.Fset fc hm)
          ((scan_mem_analyze settings pass provider _ callee _).2 hreach)
  exact key (d, p) h

theorem callChain_scan (events : List Event) (provider d : FuncDecl) (p : List String)
    (h : CallChain events provider d p) : Event.scan d p ∈ events := by
  cases h with
  | start hs => exact hs
  | call d2 p2 callee _ _ hs => exact hs

theorem callChain_length (events : List Event) (provider d : FuncDecl) (p : List String)
    (h : CallChain events provider d p) : 0 < p.length := by
  cases h with
  | start hs => simp
  | call d2 p2 callee _ _ hs => simp

theorem callChain_index (events : List Event) (provider d : FuncDecl) (p : List String)
    (h : CallChain events provider d p) :
    ∀ i m, p[i + 1]? = some m →
      ∃ di, Event.scan di (p.take (i + 1)) ∈ events ∧ CallsName di m := by
  induction h with
  | start hs =>
    intro i m hm
    simp at hm
  | call d2 p2 callee hchain hcalls hs ih =>
    intro i m hm
    by_cases hi : i + 1 < p2.length
    · rw [List.getElem?_append_left hi] at hm
      obtain ⟨di, hscan, hc⟩ := ih i m hm
      refine ⟨di, ?_, hc⟩
      rw [List.take_append_of_le_length (by omega)]
      exact hscan
    · have hlen := callChain_length _ _ _ _ hchain
      have hi2 : i + 1 = p2.length := by
        by_contra hne
        have hgt : p2.length < i + 1 := by omega
        have : (p2 ++ [callee.name])[i + 1]? = none := by
          rw [List.getElem?_eq_none]
          simp only [List.length_append, List.length_singleton]
          omega
        rw [this] at hm
        cases hm
      rw [hi2, List.getElem?_append_right (Nat.le_refl _)] at hm
      simp only [Nat.sub_self, List.getElem?_cons_zero, Option.some.injEq] at hm
      subst hm
      refine ⟨d2, ?_, hcalls⟩
      rw [hi2, List.take_left']
      · exact callChain_scan _ _ _ _ hchain
      · rfl

theorem finding_chain (settings : Settings) (pass : Pass) (provider : FuncDecl)
    (c : methodCall) (diag : Diagnostic)
    (h : Event.finding c diag ∈
      analyzeProviderFunctionForTightCoupling settings pass provider [provider.name]) :
    c.callPath.head? = some provider.name ∧
    ∃ d, c.callPath.getLast? = some d.name ∧
      Event.scan d c.callPath ∈
        analyzeProviderFunctionForTightCoupling settings pass provider [provider.name] ∧
      (∃ call ∈ findMethodCallsInFunction d pass.Fset,
        c = { call with callPath := c.callPath }) ∧
      ∀ i m, c.callPath[i + 1]? = some m →
        ∃ di, Event.scan di (c.callPath.take (i + 1)) ∈
            analyzeProviderFunctionForTightCoupling settings pass provider [provider.name] ∧
          CallsName di m := by
  obtain ⟨d, p, hr, call, hcall, rfl, _⟩ :=
    (finding_mem_analyze settings pass provider _ c diag).1 h
  have hchain := callChain_of_reaches settings pass provider d p hr
  refine ⟨reaches_head settings pass (provider, [provider.name]) (d, p) _ rfl hr, d,
    reaches_last settings pass (provider, [provider.name]) (d, p) rfl hr,
    callChain_scan _ _ _ _ hchain, ⟨call, hcall, rfl⟩, callChain_index _ _ _ _ hchain⟩

theorem mem_run_provider (parseFile : String → Except String File) (settings : Settings)
    (pass : Pass) (c : methodCall) (diag : Diagnostic)
    (h : Event.finding c diag ∈ (run parseFile settings pass).events) :
    ∃ provider, provider ∈ topLevelFuncDecls pass ∧
      Event.finding c diag ∈
        analyzeProviderFunctionForTightCoupling settings pass provider [provider.name] ∧
      ∀ e ∈ analyzeProviderFunctionForTightCoupling settings pass provider [provider.name],
        e ∈ (run parseFile settings pass).events := by
  by_cases hw : settings.WireGen = ""
  · unfold run at h
    rw [if_pos hw] at h
    cases h
  · cases hp : parseWireGenFile parseFile settings.WireGen with
    | error err =>
      unfold run at h
      rw [if_neg hw, hp] at h
      cases List.mem_singleton.1 h
    | ok ws =>
      have hrun := run_ok parseFile settings pass ws hw hp
      rw [hrun, List.mem_flatMap] at h
      obtain ⟨d, hd, he⟩ := h
      by_cases hws : ws d.name = true
      · rw [if_pos hws] at he
        refine ⟨d, hd, he, fun e' he' => ?_⟩
        rw [hrun, List.mem_flatMap]
        exact ⟨d, hd, by rw [if_pos hws]; exact he'⟩
      · rw [if_neg hws] at he
        cases he

/-- C14. The call path is a real call chain: for every finding with call path n1, ..., nk
produced by the walk started at a provider declaration under the path of its own name, n1 is the
provider's name, nk is the name of the declaration in which the call site lies, that declaration
is scanned under the whole path, and for every i < k some declaration is scanned under the
prefix n1, ..., ni and contains a call expression whose callee name is n(i+1). The same holds
for every finding of a run, the provider being one of the package's function declarations. -/
theorem callPath_is_call_chain (parseFile : String → Except String File)
    (settings : Settings) (pass : Pass) :
    (∀ provider c diag, Event.finding c diag ∈
        analyzeProviderFunctionForTightCoupling settings pass provider [provider.name] →
      c.callPath.head? = some provider.name ∧
      ∃ d, c.callPath.getLast? = some d.name ∧
        Event.scan d c.callPath ∈
          analyzeProviderFunctionForTightCoupling settings pass provider [provider.name] ∧
        (∃ call ∈ findMethodCallsInFunction d pass.Fset,
          c = { call with callPath := c.callPath }) ∧
        ∀ i m, c.callPath[i + 1]? = some m →
          ∃ di, Event.scan di (c.callPath.take (i + 1)) ∈
              analyzeProviderFunctionForTightCoupling settings pass provider
                [provider.name] ∧
            CallsName di m) ∧
    (∀ c diag, Event.finding c diag ∈ (run parseFile settings pass).events →
      ∃ provider, provider ∈ topLevelFuncDecls pass ∧
        c.callPath.head? = some provider.name ∧
        ∃ d, c.callPath.getLast? = some d.name ∧
          Event.scan d c.callPath ∈ (run parseFile settings pass).events ∧
          (∃ call ∈ findMethodCallsInFunction d pass.Fset,
            c = { call with callPath := c.callPath }) ∧
          ∀ i m, c.callPath[i + 1]? = some m →
            ∃ di, Event.scan di (c.callPath.take (i + 1)) ∈
                (run parseFile settings pass).events ∧
              CallsName di m) ∧
    findings (analyzeProviderFunctionForTightCoupling recursiveSettings
      (packageOf (chainDecls ["ProvideFoo", "helper", "start"]))
      (callerDecl "ProvideFoo" "helper" 300) ["ProvideFoo"]) =
      [{ receiver := "dep", method := "Start", line := 1, pos := 100,
         callPath := ["ProvideFoo", "helper", "start"] }] := by
  refine ⟨fun provider c diag h => finding_chain settings pass provider c diag h, ?_,
    analyze_of_fuel _ _ _ _ 12 _ _ (by decide) (by decide)⟩
  intro c diag h
  obtain ⟨provider, hprov, hin, hsub⟩ := mem_run_provider parseFile settings pass c diag h
  obtain ⟨hhead, d, hlast, hscan, hsite, hidx⟩ :=
    finding_chain settings pass provider c diag hin
  refine ⟨provider, hprov, hhead, d, hlast, hsub _ hscan, hsite, ?_⟩
  intro i m hm
  obtain ⟨di, hs, hc⟩ := hidx i m hm
  exact ⟨di, hsub _ hs, hc⟩

/-! ## Recursive mode refines non-recursive mode -/

theorem finding_length_ge (settings : Settings) (pass : Pass) (funcDecl : FuncDecl)
    (callPath : List String) (c : methodCall) (diag : Diagnostic)
    (h : Event.finding c diag ∈
      analyzeProviderFunctionForTightCoupling settings pass funcDecl callPath) :
    callPath.length ≤ c.callPath.length := by
  obtain ⟨d, p, hr, call, _, rfl, _⟩ :=
    (finding_mem_analyze settings pass funcDecl _ c diag).1 h
  exact reaches_length_mono settings pass (funcDecl, callPath) (d, p) hr

theorem finding_recursive_length (settings : Settings) (pass : Pass)
    (functionCalls : List functionCall) (callPath : List String) (c : methodCall)
    (diag : Diagnostic)
    (h : Event.finding c diag ∈
      analyzeRecursiveFunctionCalls settings pass functionCalls callPath) :
    callPath.length + 1 ≤ c.callPath.length := by
  rw [analyzeRecursive_eq] at h
  by_cases hl : callPath.length > 10
  · rw [if_pos hl] at h
    cases h
  · rw [if_neg hl, List.mem_flatMap] at h
    obtain ⟨fc, _, hfc⟩ := h
    obtain ⟨_, callee, _, hin⟩ := (mem_followCall settings pass callPath fc _).1 hfc
    have := finding_length_ge settings pass callee _ c diag hin
    simpa using this

theorem findingPairs_append (l₁ l₂ : List Event) :
    findingPairs (l₁ ++ l₂) = findingPairs l₁ ++ findingPairs l₂ := by
  unfold findingPairs
  rw [List.filterMap_append]

theorem findingPairs_reportCalls (funcDecl : FuncDecl) (calls : List methodCall)
    (callPath : List String) :
    ∀ cd ∈ findingPairs (reportCalls funcDecl calls callPath), cd.1.callPath = callPath := by
  rintro ⟨c, diag⟩ h
  rw [mem_findingPairs, mem_reportCalls] at h
  obtain ⟨call, _, he⟩ := h
  cases he
  rfl

theorem findingPairs_analyze_filter (wireGen : String) (pass : Pass) (funcDecl : FuncDecl) :
    (findingPairs (analyzeProviderFunctionForTightCoupling
        { WireGen := wireGen, Recursive := true } pass funcDecl [funcDecl.name])).filter
      (fun cd => decide (cd.1.callPath.length = 1)) =
    findingPairs (analyzeProviderFunctionForTightCoupling
        { WireGen := wireGen, Recursive := false } pass funcDecl [funcDecl.name]) := by
  rw [analyze_direct { WireGen := wireGen, Recursive := false } rfl, analyzeProvider_eq]
  simp only [if_true]
  have hcons : ∀ (d : FuncDecl) (p : List String) (l : List Event),
      findingPairs (Event.scan d p :: l) = findingPairs l := fun _ _ _ => rfl
  rw [hcons, hcons, findingPairs_append, List.filter_append]
  have h1 : (findingPairs (reportCalls funcDecl
      (findMethodCallsInFunction funcDecl pass.Fset) [funcDecl.name])).filter
      (fun cd => decide (cd.1.callPath.length = 1)) =
      findingPairs (reportCalls funcDecl
        (findMethodCallsInFunction funcDecl pass.Fset) [funcDecl.name]) := by
    rw [List.filter_eq_self]
    intro cd hcd
    rw [findingPairs_reportCalls _ _ _ cd hcd]
    rfl
  have h2 : (findingPairs (analyzeRecursiveFunctionCalls
      { WireGen := wireGen, Recursive := true } pass
      (findFunctionCallsInFunction funcDecl pass.Fset) [funcDecl.name])).filter
      (fun cd => decide (cd.1.callPath.length = 1)) = [] := by
    rw [List.filter_eq_nil_iff]
    rintro ⟨c, diag⟩ hcd
    rw [mem_findingPairs] at hcd
    have := finding_recursive_length _ pass _ _ c diag hcd
    simp only [List.length_singleton] at this
    simp only [decide_eq_true_eq]
    omega
  rw [h1, h2, List.append_nil]

theorem sublist_flatMap {α β : Type} (f g : α → List β) (h : ∀ a, (f a).Sublist (g a))
    (l : List α) : (l.flatMap f).Sublist (l.flatMap g) := by
  induction l with
  | nil => exact List.Sublist.refl _
  | cons a t ih =>
    rw [List.flatMap_cons, List.flatMap_cons]
    exact List.Sublist.append (h a) ih

theorem analyze_direct_sublist (wireGen : String) (pass : Pass) (funcDecl : FuncDecl)
    (callPath : List String) :
    (analyzeProviderFunctionForTightCoupling { WireGen := wireGen, Recursive := false } pass
      funcDecl callPath).Sublist
    (analyzeProviderFunctionForTightCoupling { WireGen := wireGen, Recursive := true } pass
      funcDecl callPath) := by
  rw [analyze_direct { WireGen := wireGen, Recursive := false } rfl, analyzeProvider_eq]
  exact List.Sublist.cons₂ _ (List.sublist_append_left _ _)

theorem run_direct_sublist (parseFile : String → Except String File) (wireGen : String)
    (pass : Pass) :
    (run parseFile { WireGen := wireGen, Recursive := false } pass).events.Sublist
      (run parseFile { WireGen := wireGen, Recursive := true } pass).events := by
  by_cases hw : wireGen = ""
  · subst hw
    rw [run_empty, run_empty]
  · cases hp : parseWireGenFile parseFile wireGen with
    | error err =>
      unfold run
      simp only [hw, if_false, hp]
      exact List.Sublist.refl _
    | ok ws =>
      rw [run_ok parseFile _ pass ws hw hp, run_ok parseFile _ pass ws hw hp]
      apply sublist_flatMap
      intro d
      by_cases hws : ws d.name = true
      · rw [if_pos hws, if_pos hws]
        exact analyze_direct_sublist wireGen pass d _
      · rw [if_neg hws, if_neg hws]

theorem run_findingPairs_filter (parseFile : String → Except String File) (wireGen : String)
    (pass : Pass) :
    (findingPairs (run parseFile { WireGen := wireGen, Recursive := true } pass).events).filter
      (fun cd => decide (cd.1.callPath.length = 1)) =
    findingPairs (run parseFile { WireGen := wireGen, Recursive := false } pass).events := by
  by_cases hw : wireGen = ""
  · subst hw
    rw [run_empty, run_empty]
    rfl
  · cases hp : parseWireGenFile parseFile wireGen with
    | error err =>
      unfold run
      simp only [hw, if_false, hp]
      rfl
    | ok ws =>
      rw [run_ok parseFile _ pass ws hw hp, run_ok parseFile _ pass ws hw hp]
      unfold findingPairs
      rw [filterMap_flatMap_if, filterMap_flatMap_if, List.filter_flatMap]
      congr 1
      funext d
      exact findingPairs_analyze_filter wireGen pass d

theorem diagnostics_eq_map_findingPairs (events : List Event)
    (h : ∀ diag, Event.failure diag ∉ events) :
    diagnostics events = (findingPairs events).map Prod.snd := by
  induction events with
  | nil => rfl
  | cons e t ih =>
    have ht : ∀ diag, Event.failure diag ∉ t :=
      fun diag hm => h diag (List.mem_cons_of_mem _ hm)
    cases e with
    | scan d p =>
      show diagnostics t = (findingPairs t).map Prod.snd
      exact ih ht
    | finding c diag =>
      show diag :: diagnostics t = diag :: (findingPairs t).map Prod.snd
      rw [ih ht]
    | failure diag => exact absurd (List.mem_cons_self _ _) (h diag)

theorem failure_not_mem_analyze (settings : Settings) (pass : Pass) (funcDecl : FuncDecl)
    (callPath : List String) (diag : Diagnostic) :
    Event.failure diag ∉
      analyzeProviderFunctionForTightCoupling settings pass funcDecl callPath := by
  intro h
  obtain ⟨d, p, _, h | h⟩ := (mem_analyze_reaches settings pass funcDecl callPath _).1 h
  · cases h
  · obtain ⟨call, _, he⟩ := (mem_reportCalls _ _ _ _).1 h
    cases he

theorem failure_not_mem_run (parseFile : String → Except String File) (settings : Settings)
    (pass : Pass) (ws : String → Bool) (hw : settings.WireGen ≠ "")
    (hp : parseWireGenFile parseFile settings.WireGen = .ok ws) (diag : Diagnostic) :
    Event.failure diag ∉ (run parseFile settings pass).events := by
  rw [run_ok parseFile settings pass ws hw hp, List.mem_flatMap]
  rintro ⟨d, _, hd⟩
  by_cases hws : ws d.name = true
  · rw [if_pos hws] at hd
    exact failure_not_mem_analyze settings pass d _ diag hd
  · rw [if_neg hws] at hd
    cases hd

theorem mixedPackage_recursive :
    findingPairs (run parseProvideFooBar recursiveSettings mixedPackage).events =
      [({ receiver := "dep", method := "Start", line := 0, pos := 50,
          callPath := ["ProvideFoo"] },
        { Pos := 50,
          Message := "ProvideFoo() directly calls dep.Start() in wire provider function" }),
       ({ receiver := "dep", method := "Start", line := 1, pos := 100,
          callPath := ["ProvideBar", "helper"] },
        { Pos := 100,
          Message := "helper() directly calls dep.Start() in wire provider function (via call path: ProvideBar -> helper)" })] :=
  run_of_fuel _ _ 12 (by decide) _ _ _ (by decide)

theorem mixedPackage_direct :
    findingPairs (run parseProvideFooBar directSettings mixedPackage).events =
      [({ receiver := "dep", method := "Start", line := 0, pos := 50,
          callPath := ["ProvideFoo"] },
        { Pos := 50,
          Message := "ProvideFoo() directly calls dep.Start() in wire provider function" })] :=
  run_of_fuel _ _ 12 (by decide) _ _ _ (by decide)

/-- C18. Recursive mode refines non-recursive mode: for every package, parser and wire-gen path,
the findings of the recursive run whose call path has length 1, with their diagnostics
(position and message) and in their order, are exactly the findings of the non-recursive run;
when the initializer file parses, their diagnostics are the whole diagnostic sequence of the
non-recursive run. Every other finding of the recursive run has a longer call path and a message
with the "via call path" suffix, and the events of the non-recursive run, hence its diagnostics,
are a subsequence of those of the recursive run: recursion adds, and neither removes nor alters.
In the package of `ProvideFoo`, `ProvideBar` and `helper`, recursion adds the finding in
`helper` under the path ProvideBar, helper and keeps the finding in `ProvideFoo`. -/
theorem recursive_refines_direct (parseFile : String → Except String File) (wireGen : String)
    (pass : Pass) :
    (findingPairs (run parseFile { WireGen := wireGen, Recursive := true } pass).events).filter
        (fun cd => decide (cd.1.callPath.length = 1)) =
      findingPairs (run parseFile { WireGen := wireGen, Recursive := false } pass).events ∧
    (∀ ws, wireGen ≠ "" → parseWireGenFile parseFile wireGen = .ok ws →
      diagnostics (run parseFile { WireGen := wireGen, Recursive := false } pass).events =
        ((findingPairs
          (run parseFile { WireGen := wireGen, Recursive := true } pass).events).filter
            (fun cd => decide (cd.1.callPath.length = 1))).map Prod.snd) ∧
    (∀ c diag, Event.finding c diag ∈
        (run parseFile { WireGen := wireGen, Recursive := true } pass).events →
      c.callPath.length ≠ 1 →
      c.callPath.length > 1 ∧
        ∃ pre, diag.Message =
          pre ++ (" (via call path: " ++ Join c.callPath " -> " ++ ")")) ∧
    (run parseFile { WireGen := wireGen, Recursive := false } pass).events.Sublist
      (run parseFile { WireGen := wireGen, Recursive := true } pass).events ∧
    (diagnostics (run parseFile { WireGen := wireGen, Recursive := false } pass).events).Sublist
      (diagnostics (run parseFile { WireGen := wireGen, Recursive := true } pass).events) ∧
    findingPairs (run parseProvideFooBar recursiveSettings mixedPackage).events =
      [({ receiver := "dep", method := "Start", line := 0, pos := 50,
          callPath := ["ProvideFoo"] },
        { Pos := 50,
          Message := "ProvideFoo() directly calls dep.Start() in wire provider function" }),
       ({ receiver := "dep", method := "Start", line := 1, pos := 100,
          callPath := ["ProvideBar", "helper"] },
        { Pos := 100,
          Message := "helper() directly calls dep.Start() in wire provider function (via call path: ProvideBar -> helper)" })] ∧
    findingPairs (run parseProvideFooBar directSettings mixedPackage).events =
      [({ receiver := "dep", method := "Start", line := 0, pos := 50,
          callPath := ["ProvideFoo"] },
        { Pos := 50,
          Message := "ProvideFoo() directly calls dep.Start() in wire provider function" })] := by
  refine ⟨run_findingPairs_filter parseFile wireGen pass, ?_, ?_,
    run_direct_sublist parseFile wireGen pass,
    List.Sublist.filterMap _ (run_direct_sublist parseFile wireGen pass),
    mixedPackage_recursive, mixedPackage_direct⟩
  · intro ws hw hp
    rw [run_findingPairs_filter]
    exact diagnostics_eq_map_findingPairs _
      (failure_not_mem_run parseFile _ pass ws hw hp)
  · intro c diag h hne
    rcases mem_run parseFile _ pass _ h with ⟨diag2, hd⟩ | ⟨funcDecl, _, hf⟩
    · cases hd
    · have hge := finding_length_ge _ pass funcDecl _ c diag hf
      simp only [List.length_singleton] at hge
      have hgt : c.callPath.length > 1 := by omega
      exact ⟨hgt, (finding_suffix _ pass funcDecl _ c diag hf).1.2 hgt⟩

/-! ## Determinism and the provider set -/

theorem diagnostics_append (l₁ l₂ : List Event) :
    diagnostics (l₁ ++ l₂) = diagnostics l₁ ++ diagnostics l₂ := by
  unfold diagnostics
  rw [List.filterMap_append]

theorem diagnostics_reportCalls_eq (funcDecl : FuncDecl) (calls : List methodCall)
    (callPath : List String) :
    diagnostics (reportCalls funcDecl calls callPath) =
      calls.map (fun call =>
        { Pos := call.pos,
          Message := reportMessage funcDecl { call with callPath := callPath } callPath }) := by
  unfold diagnostics reportCalls
  induction calls with
  | nil => rfl
  | cons c t ih =>
    rw [List.map_cons, List.filterMap_cons, List.map_cons, ← ih]
    rfl

theorem reportMessage_congr (funcDecl : FuncDecl) (c₁ c₂ : methodCall)
    (callPath : List String) (hr : c₁.receiver = c₂.receiver) (hm : c₁.method = c₂.method) :
    reportMessage funcDecl c₁ callPath = reportMessage funcDecl c₂ callPath := by
  unfold reportMessage
  rw [hr, hm]

theorem diagnostics_reportCalls_fset (funcDecl : FuncDecl) (fset₁ fset₂ : FileSet)
    (callPath : List String) :
    diagnostics (reportCalls funcDecl (findMethodCallsInFunction funcDecl fset₁) callPath) =
      diagnostics (reportCalls funcDecl (findMethodCallsInFunction funcDecl fset₂) callPath) := by
  rw [diagnostics_reportCalls_eq, diagnostics_reportCalls_eq, findMethodCallsInFunction_eq,
    findMethodCallsInFunction_eq, List.map_filterMap, List.map_filterMap]
  congr 1
  funext n
  unfold couplingFinding?
  split
  · rename_i pos x m args
    by_cases hp : x ∈ paramNames funcDecl
    · simp only [if_pos hp, Option.map_some']
      rfl
    · simp only [if_neg hp, Option.map_none']
  · rfl

theorem findFunctionCallsInFunction_fset (funcDecl : FuncDecl) (fset₁ fset₂ : FileSet) :
    findFunctionCallsInFunction funcDecl fset₁ = findFunctionCallsInFunction funcDecl fset₂ := by
  rw [findFunctionCallsInFunction_eq, findFunctionCallsInFunction_eq]

theorem findFunctionDeclaration_congr (pass₁ pass₂ : Pass) (hf : pass₁.Files = pass₂.Files)
    (hp : pass₁.PkgName = pass₂.PkgName) (funcName pkg : String) :
    findFunctionDeclaration pass₁ funcName pkg = findFunctionDeclaration pass₂ funcName pkg := by
  rw [findFunctionDeclaration_eq, findFunctionDeclaration_eq]
  unfold topLevelFuncDecls
  rw [hf, hp]

theorem diagnostics_analyze_congr (settings₁ settings₂ : Settings) (pass₁ pass₂ : Pass)
    (hr : settings₁.Recursive = settings₂.Recursive) (hf : pass₁.Files = pass₂.Files)
    (hp : pass₁.PkgName = pass₂.PkgName) (n : Nat) :
    ∀ (funcDecl : FuncDecl) (callPath : List String), 11 - callPath.length ≤ n →
      diagnostics (analyzeProviderFunctionForTightCoupling settings₁ pass₁ funcDecl callPath) =
        diagnostics
          (analyzeProviderFunctionForTightCoupling settings₂ pass₂ funcDecl callPath) := by
  induction n with
  | zero =>
    intro d p hn
    have hl : p.length > 10 := by omega
    rw [analyzeProvider_eq, analyzeProvider_eq, analyzeRecursive_eq, analyzeRecursive_eq,
      if_pos hl, if_pos hl, hr]
    show diagnostics (_ ++ _) = diagnostics (_ ++ _)
    rw [diagnostics_append, diagnostics_append, diagnostics_reportCalls_fset d pass₁.Fset pass₂.Fset]
  | succ n ih =>
    intro d p hn
    rw [analyzeProvider_eq, analyzeProvider_eq, analyzeRecursive_eq, analyzeRecursive_eq, hr]
    show diagnostics (_ ++ _) = diagnostics (_ ++ _)
    rw [diagnostics_append, diagnostics_append,
      diagnostics_reportCalls_fset d pass₁.Fset pass₂.Fset,
      findFunctionCallsInFunction_fset d pass₁.Fset pass₂.Fset]
    congr 1
    cases settings₂.Recursive with
    | false => rfl
    | true =>
      simp only [if_true]
      by_cases hl : p.length > 10
      · rw [if_pos hl, if_pos hl]
      · rw [if_neg hl, if_neg hl]
        unfold diagnostics
        rw [List.filterMap_flatMap, List.filterMap_flatMap]
        congr 1
        funext fc
        unfold followCall
        rw [findFunctionDeclaration_congr pass₁ pass₂ hf hp]
        cases containsFunction p fc.funcName with
        | true => rfl
        | false =>
          cases findFunctionDeclaration pass₂ fc.funcName fc.pkg with
          | none => rfl
          | some callee =>
            have := ih callee (p ++ [fc.funcName])
              (by simp only [List.length_append, List.length_singleton]; omega)
            unfold diagnostics at this
            exact this

theorem diagnostics_run_congr (parseFile₁ parseFile₂ : String → Except String File)
    (settings₁ settings₂ : Settings) (pass₁ pass₂ : Pass) (ws₁ ws₂ : String → Bool)
    (hr : settings₁.Recursive = settings₂.Recursive)
    (hw₁ : settings₁.WireGen ≠ "") (hw₂ : settings₂.WireGen ≠ "")
    (hp₁ : parseWireGenFile parseFile₁ settings₁.WireGen = .ok ws₁)
    (hp₂ : parseWireGenFile parseFile₂ settings₂.WireGen = .ok ws₂)
    (hset : ∀ n, ws₁ n = ws₂ n)
    (hf : pass₁.Files = pass₂.Files) (hp : pass₁.PkgName = pass₂.PkgName) :
    diagnostics (run parseFile₁ settings₁ pass₁).events =
      diagnostics (run parseFile₂ settings₂ pass₂).events := by
  rw [run_ok parseFile₁ settings₁ pass₁ ws₁ hw₁ hp₁,
    run_ok parseFile₂ settings₂ pass₂ ws₂ hw₂ hp₂]
  have htop : topLevelFuncDecls pass₁ = topLevelFuncDecls pass₂ := by
    unfold topLevelFuncDecls
    rw [hf]
  rw [htop]
  unfold diagnostics
  rw [List.filterMap_flatMap, List.filterMap_flatMap]
  congr 1
  funext d
  rw [hset d.name]
  by_cases hws : ws₂ d.name = true
  · rw [if_pos hws, if_pos hws]
    exact diagnostics_analyze_congr settings₁ settings₂ pass₁ pass₂ hr hf hp _ d [d.name]
      (Nat.le_refl _)
  · rw [if_neg hws, if_neg hws]

theorem parseWireGenFile_initializerCalls (parseFile : String → Except String File)
    (filePath : String) (file : File) (h : parseFile filePath = .ok file) :
    ∃ ws, parseWireGenFile parseFile filePath = .ok ws ∧
      ∀ n, ws n = true ↔ InitializerCalls file n := by
  obtain ⟨ws, hws, hiff⟩ := parseWireGenFile_ok parseFile filePath file h
  refine ⟨ws, hws, fun n => ?_⟩
  rw [hiff]
  unfold InitializerCalls CallsName
  constructor
  · rintro ⟨d, hd, hp, m, hm, hc⟩
    obtain ⟨pos, fn, args, rfl, hfn⟩ := (calleeName?_eq_some m n).1 hc
    exact ⟨d, hd, hp, pos, fn, args, hm, hfn⟩
  · rintro ⟨d, hd, hp, pos, fn, args, hm, hfn⟩
    exact ⟨d, hd, hp, _, hm, (calleeName?_eq_some _ n).2 ⟨pos, fn, args, rfl, hfn⟩⟩

theorem bool_eq_of_iff (a b : Bool) (h : a = true ↔ b = true) : a = b := by
  cases a <;> cases b <;> simp_all

/-- C15. Determinism and set semantics of the provider set: the ordered diagnostic sequence of
`run` is determined by the files of the package with its name, the `Recursive` flag and the
membership of the provider set. Two runs whose settings agree on `Recursive`, whose packages
have the same files and name, and whose initializer files parse to provider sets with the same
members give the same diagnostics in the same order; so do two runs on initializer files whose
`Initialize*` functions call the same set of names, in any order and with any repetition. Run
on the package of `ProvideFoo`, `ProvideBar` and `helper`, the initializer calling ProvideFoo,
ProvideBar and the one calling ProvideBar, ProvideFoo, ProvideBar give the same two
diagnostics. -/
theorem run_deterministic (parseFile₁ parseFile₂ : String → Except String File)
    (settings₁ settings₂ : Settings) (pass₁ pass₂ : Pass) :
    (∀ ws₁ ws₂, settings₁.Recursive = settings₂.Recursive →
      settings₁.WireGen ≠ "" → settings₂.WireGen ≠ "" →
      parseWireGenFile parseFile₁ settings₁.WireGen = .ok ws₁ →
      parseWireGenFile parseFile₂ settings₂.WireGen = .ok ws₂ →
      (∀ n, ws₁ n = ws₂ n) → pass₁.Files = pass₂.Files → pass₁.PkgName = pass₂.PkgName →
      diagnostics (run parseFile₁ settings₁ pass₁).events =
        diagnostics (run parseFile₂ settings₂ pass₂).events) ∧
    (∀ file₁ file₂, settings₁.Recursive = settings₂.Recursive →
      settings₁.WireGen ≠ "" → settings₂.WireGen ≠ "" →
      parseFile₁ settings₁.WireGen = .ok file₁ → parseFile₂ settings₂.WireGen = .ok file₂ →
      (∀ n, InitializerCalls file₁ n ↔ InitializerCalls file₂ n) →
      pass₁.Files = pass₂.Files → pass₁.PkgName = pass₂.PkgName →
      diagnostics (run parseFile₁ settings₁ pass₁).events =
        diagnostics (run parseFile₂ settings₂ pass₂).events) ∧
    diagnostics (run (parseCalling ["ProvideFoo", "ProvideBar"]) recursiveSettings
      mixedPackage).events =
      [{ Pos := 50,
         Message := "ProvideFoo() directly calls dep.Start() in wire provider function" },
       { Pos := 100,
         Message := "helper() directly calls dep.Start() in wire provider function (via call path: ProvideBar -> helper)" }] ∧
    diagnostics (run (parseCalling ["ProvideBar", "ProvideFoo", "ProvideBar"])
      recursiveSettings mixedPackageOtherLines).events =
      [{ Pos := 50,
         Message := "ProvideFoo() directly calls dep.Start() in wire provider function" },
       { Pos := 100,
         Message := "helper() directly calls dep.Start() in wire provider function (via call path: ProvideBar -> helper)" }] := by
  refine ⟨?_, ?_, run_of_fuel _ _ 12 (by decide) _ _ _ (by decide),
    run_of_fuel _ _ 12 (by decide) _ _ _ (by decide)⟩
  · intro ws₁ ws₂ hr hw₁ hw₂ hp₁ hp₂ hset hf hp
    exact diagnostics_run_congr parseFile₁ parseFile₂ settings₁ settings₂ pass₁ pass₂ ws₁ ws₂
      hr hw₁ hw₂ hp₁ hp₂ hset hf hp
  · intro file₁ file₂ hr hw₁ hw₂ hp₁ hp₂ hset hf hp
    obtain ⟨ws₁, hws₁, hiff₁⟩ := parseWireGenFile_initializerCalls parseFile₁ _ file₁ hp₁
    obtain ⟨ws₂, hws₂, hiff₂⟩ := parseWireGenFile_initializerCalls parseFile₂ _ file₂ hp₂
    exact diagnostics_run_congr parseFile₁ parseFile₂ settings₁ settings₂ pass₁ pass₂ ws₁ ws₂
      hr hw₁ hw₂ hws₁ hws₂
      (fun n => bool_eq_of_iff _ _ ((hiff₁ n).trans ((hset n).trans (hiff₂ n).symm))) hf hp

/-! ## Call paths as slices: sibling independence -/

theorem cells_set_self (h : Heap) (a : Nat) (v : List String) (ha : a < h.length) :
    Heap.cells (h.set a v) a = v := by
  simp [Heap.cells, List.getElem?_set, ha]

theorem cells_set_ne (h : Heap) (a b : Nat) (v : List String) (hab : a ≠ b) :
    Heap.cells (h.set a v) b = h.cells b := by
  simp [Heap.cells, List.getElem?_set, hab]

theorem cells_append_left (h l : Heap) (a : Nat) (ha : a < h.length) :
    Heap.cells (h ++ l) a = h.cells a := by
  simp [Heap.cells, List.getElem?_append_left ha]

theorem cells_append_length (h : Heap) (v : List String) : Heap.cells (h ++ [v]) h.length = v := by
  simp [Heap.cells]

theorem elems_length (s : Slice) (h : Heap) (hwf : s.WF h) : (s.elems h).length = s.len := by
  unfold Slice.elems
  rw [List.length_take]
  have := hwf.2.1
  have := hwf.2.2
  omega

theorem appendSlice_len (grow : Nat → Nat → Nat) (h : Heap) (s : Slice) (x : String) :
    (appendSlice grow h s x).2.len = s.len + 1 := by
  unfold appendSlice
  split <;> rfl

theorem appendSlice_wf (grow : Nat → Nat → Nat) (h : Heap) (s : Slice) (x : String)
    (hwf : s.WF h) : (appendSlice grow h s x).2.WF (appendSlice grow h s x).1 := by
  obtain ⟨ha, hc, hl⟩ := hwf
  unfold appendSlice
  split
  · rename_i hlt
    refine ⟨by simpa using ha, ?_, ?_⟩
    · show (Heap.cells (h.set s.array _) s.array).length = s.cap
      rw [cells_set_self h _ _ ha, List.length_set, hc]
    · show s.len + 1 ≤ s.cap
      omega
  · rename_i hge
    refine ⟨by simp, ?_, ?_⟩
    · show (Heap.cells (h ++ [_]) h.length).length = _
      rw [cells_append_length]
      have he : (s.elems h).length = s.len := elems_length s h ⟨ha, hc, hl⟩
      simp only [List.length_append, he, List.length_singleton, List.length_replicate]
      omega
    · show s.len + 1 ≤ max (grow s.cap (s.len + 1)) (s.len + 1)
      omega

theorem appendSlice_elems (grow : Nat → Nat → Nat) (h : Heap) (s : Slice) (x : String)
    (hwf : s.WF h) :
    (appendSlice grow h s x).2.elems (appendSlice grow h s x).1 = s.elems h ++ [x] := by
  obtain ⟨ha, hc, hl⟩ := hwf
  have he : (s.elems h).length = s.len := elems_length s h ⟨ha, hc, hl⟩
  unfold appendSlice
  split
  · rename_i hlt
    show (Heap.cells (h.set s.array _) s.array).take (s.len + 1) = _
    rw [cells_set_self h _ _ ha]
    unfold Slice.elems
    apply List.ext_getElem?
    intro i
    by_cases hi : i < s.len
    · rw [List.getElem?_take_of_lt (by omega), List.getElem?_set_ne (by omega),
        List.getElem?_append_left (by rw [List.length_take]; omega),
        List.getElem?_take_of_lt hi]
    · by_cases hi2 : i = s.len
      · subst hi2
        rw [List.getElem?_take_of_lt (by omega), List.getElem?_set_self (by omega),
          List.getElem?_append_right (by rw [List.length_take]; omega)]
        simp [List.length_take, hc, Nat.min_eq_left hl]
      · rw [List.getElem?_eq_none (by rw [List.length_take, List.length_set]; omega),
          List.getElem?_eq_none (by
            simp only [List.length_append, List.length_take, List.length_singleton]; omega)]
  · rename_i hge
    show (Heap.cells (h ++ [_]) h.length).take (s.len + 1) = _
    rw [cells_append_length, List.append_assoc, List.take_append_eq_append_take, he]
    simp [List.take_of_length_le (Nat.le_of_eq he)]
    omega

theorem frame_refl (h : Heap) (s : Slice) : Frame h h s :=
  ⟨Nat.le_refl _, fun _ _ _ => rfl, rfl, rfl⟩

theorem frame_trans (h h₁ h₂ : Heap) (s : Slice) (h01 : Frame h h₁ s) (h12 : Frame h₁ h₂ s) :
    Frame h h₂ s := by
  obtain ⟨a1, a2, a3, a4⟩ := h01
  obtain ⟨b1, b2, b3, b4⟩ := h12
  refine ⟨Nat.le_trans a1 b1, ?_, b3.trans a3, b4.trans a4⟩
  intro a ha hne
  rw [b2 a (Nat.lt_of_lt_of_le ha a1) hne, a2 a ha hne]

theorem frame_wf (h h' : Heap) (s : Slice) (hf : Frame h h' s) (hwf : s.WF h) :
    s.WF h' ∧ s.elems h' = s.elems h := by
  obtain ⟨f1, _, f3, f4⟩ := hf
  obtain ⟨ha, hc, hl⟩ := hwf
  exact ⟨⟨Nat.lt_of_lt_of_le ha f1, f4.trans hc, hl⟩, f3⟩

theorem take_set_self {α : Type} (l : List α) (n : Nat) (a : α) :
    (l.set n a).take n = l.take n :=
  List.ext_getElem? fun i => by
    rw [List.getElem?_take, List.getElem?_take]
    split
    · rw [List.getElem?_set_ne (by omega)]
    · rfl

theorem frame_append_child (grow : Nat → Nat → Nat) (h h₂ : Heap) (s : Slice) (x : String)
    (hwf : s.WF h)
    (hf : Frame (appendSlice grow h s x).1 h₂ (appendSlice grow h s x).2) : Frame h h₂ s := by
  obtain ⟨ha, hc, hl⟩ := hwf
  unfold appendSlice at hf
  split at hf
  · rename_i hlt
    obtain ⟨f1, f2, f3, f4⟩ := hf
    simp only [List.length_set] at f1 f2
    simp only [cells_set_self h _ _ ha] at f3 f4
    refine ⟨f1, ?_, ?_, ?_⟩
    · intro a hal hne
      rw [f2 a hal hne, cells_set_ne h _ _ _ (Ne.symm hne)]
    · have h1 : (h₂.cells s.array).take s.len =
          ((h₂.cells s.array).take (s.len + 1)).take s.len := by
        rw [List.take_take, Nat.min_eq_left (Nat.le_succ _)]
      have h2 : (h.cells s.array).take s.len =
          (((h.cells s.array).set s.len x).take (s.len + 1)).take s.len := by
        rw [List.take_take, Nat.min_eq_left (Nat.le_succ _), take_set_self]
      rw [h1, f3, ← h2]
    · rw [f4, List.length_set]
  · rename_i hge
    obtain ⟨f1, f2, _, _⟩ := hf
    simp only [List.length_append, List.length_singleton] at f1 f2
    have hall : ∀ a, a < h.length → h₂.cells a = h.cells a := by
      intro a hal
      rw [f2 a (by omega) (by omega), cells_append_left h _ a hal]
    refine ⟨by omega, fun a hal _ => hall a hal, ?_, ?_⟩
    · rw [hall _ ha]
    · rw [hall _ ha]

theorem analyzeProviderH_eq (grow : Nat → Nat → Nat) (settings : Settings) (pass : Pass)
    (h : Heap) (funcDecl : FuncDecl) (callPath : Slice) :
    analyzeProviderFunctionForTightCouplingH grow settings pass h funcDecl callPath =
      if settings.Recursive then
        ((analyzeRecursiveFunctionCallsH grow settings pass h
            (findFunctionCallsInFunction funcDecl pass.Fset) callPath).1,
          (Event.scan funcDecl (callPath.elems h) ::
            reportCalls funcDecl (findMethodCallsInFunction funcDecl pass.Fset)
              (callPath.elems h)) ++
          (analyzeRecursiveFunctionCallsH grow settings pass h
            (findFunctionCallsInFunction funcDecl pass.Fset) callPath).2)
      else
        (h, Event.scan funcDecl (callPath.elems h) ::
          reportCalls funcDecl (findMethodCallsInFunction funcDecl pass.Fset)
            (callPath.elems h)) := by
  rw [analyzeProviderFunctionForTightCouplingH]

theorem analyzeRecursiveH_eq (grow : Nat → Nat → Nat) (settings : Settings) (pass : Pass)
    (h : Heap) (functionCalls : List functionCall) (callPath : Slice) :
    analyzeRecursiveFunctionCallsH grow settings pass h functionCalls callPath =
      if callPath.len > 10 then (h, [])
      else functionCalls.foldl (followCallH grow settings pass callPath) (h, []) := by
  rw [analyzeRecursiveFunctionCallsH]
  by_cases hl : callPath.len > 10
  · simp [hl]
  · simp only [hl, dite_false, if_false]
    congr 1

theorem followCallH_step (grow : Nat → Nat → Nat) (settings : Settings) (pass : Pass)
    (s : Slice)
    (hchild : ∀ h₁ d s₁, s₁.WF h₁ → s₁.len = s.len + 1 →
      (analyzeProviderFunctionForTightCouplingH grow settings pass h₁ d s₁).2 =
        analyzeProviderFunctionForTightCoupling settings pass d (s₁.elems h₁) ∧
      Frame h₁ (analyzeProviderFunctionForTightCouplingH grow settings pass h₁ d s₁).1 s₁)
    (acc : Heap × List Event) (fc : functionCall) (hwf : s.WF acc.1) :
    (followCallH grow settings pass s acc fc).2 =
        acc.2 ++ followCall settings pass (s.elems acc.1) fc ∧
      Frame acc.1 (followCallH grow settings pass s acc fc).1 s := by
  unfold followCallH followCall
  cases hc : containsFunction (s.elems acc.1) fc.funcName with
  | true => exact ⟨by simp, frame_refl _ _⟩
  | false =>
    cases hf : findFunctionDeclaration pass fc.funcName fc.pkg with
    | none => exact ⟨by simp, frame_refl _ _⟩
    | some callee =>
      have hw := appendSlice_wf grow acc.1 s fc.funcName hwf
      have hl := appendSlice_len grow acc.1 s fc.funcName
      have he := appendSlice_elems grow acc.1 s fc.funcName hwf
      obtain ⟨hev, hfr⟩ := hchild _ callee _ hw hl
      refine ⟨?_, frame_append_child grow acc.1 _ s fc.funcName hwf hfr⟩
      simp only [Bool.false_eq_true, if_false]
      rw [hev, he]

theorem foldl_followCallH (grow : Nat → Nat → Nat) (settings : Settings) (pass : Pass)
    (s : Slice)
    (hchild : ∀ h₁ d s₁, s₁.WF h₁ → s₁.len = s.len + 1 →
      (analyzeProviderFunctionForTightCouplingH grow settings pass h₁ d s₁).2 =
        analyzeProviderFunctionForTightCoupling settings pass d (s₁.elems h₁) ∧
      Frame h₁ (analyzeProviderFunctionForTightCouplingH grow settings pass h₁ d s₁).1 s₁)
    (calls : List functionCall) :
    ∀ acc : Heap × List Event, s.WF acc.1 →
      (calls.foldl (followCallH grow settings pass s) acc).2 =
          acc.2 ++ calls.flatMap (followCall settings pass (s.elems acc.1)) ∧
        Frame acc.1 (calls.foldl (followCallH grow settings pass s) acc).1 s := by
  induction calls with
  | nil =>
    intro acc _
    exact ⟨by simp, frame_refl _ _⟩
  | cons c t ih =>
    intro acc hwf
    obtain ⟨hev, hfr⟩ := followCallH_step grow settings pass s hchild acc c hwf
    obtain ⟨hwf', hel⟩ := frame_wf _ _ s hfr hwf
    obtain ⟨hev2, hfr2⟩ := ih (followCallH grow settings pass s acc c) hwf'
    rw [List.foldl_cons]
    refine ⟨?_, frame_trans _ _ _ s hfr hfr2⟩
    rw [hev2, hev, hel, List.flatMap_cons, List.append_assoc]

theorem analyzeH_refines (grow : Nat → Nat → Nat) (settings : Settings) (pass : Pass)
    (n : Nat) :
    ∀ (h : Heap) (d : FuncDecl) (s : Slice), s.WF h → 11 - s.len ≤ n →
      (analyzeProviderFunctionForTightCouplingH grow settings pass h d s).2 =
        analyzeProviderFunctionForTightCoupling settings pass d (s.elems h) ∧
      Frame h (analyzeProviderFunctionForTightCouplingH grow settings pass h d s).1 s := by
  induction n with
  | zero =>
    intro h d s hwf hn
    have hl : s.len > 10 := by omega
    have hl2 : (s.elems h).length > 10 := by rw [elems_length s h hwf]; exact hl
    rw [analyzeProviderH_eq, analyzeProvider_eq, analyzeRecursiveH_eq, analyzeRecursive_eq,
      if_pos hl, if_pos hl2]
    cases settings.Recursive with
    | false => exact ⟨by simp, frame_refl _ _⟩
    | true => exact ⟨by simp, frame_refl _ _⟩
  | succ n ih =>
    intro h d s hwf hn
    rw [analyzeProviderH_eq, analyzeProvider_eq, analyzeRecursiveH_eq, analyzeRecursive_eq]
    cases settings.Recursive with
    | false => exact ⟨by simp, frame_refl _ _⟩
    | true =>
      by_cases hl : s.len > 10
      · have hl2 : (s.elems h).length > 10 := by rw [elems_length s h hwf]; exact hl
        rw [if_pos hl, if_pos hl2]
        exact ⟨by simp, frame_refl _ _⟩
      · have hl2 : ¬ (s.elems h).length > 10 := by rw [elems_length s h hwf]; exact hl
        rw [if_neg hl, if_neg hl2]
        have hchild : ∀ h₁ d₁ s₁, s₁.WF h₁ → s₁.len = s.len + 1 →
            (analyzeProviderFunctionForTightCouplingH grow settings pass h₁ d₁ s₁).2 =
              analyzeProviderFunctionForTightCoupling settings pass d₁ (s₁.elems h₁) ∧
            Frame h₁ (analyzeProviderFunctionForTightCouplingH grow settings pass h₁ d₁ s₁).1
              s₁ := fun h₁ d₁ s₁ hw₁ hl₁ => ih h₁ d₁ s₁ hw₁ (by omega)
        obtain ⟨hev, hfr⟩ := foldl_followCallH grow settings pass s hchild
          (findFunctionCallsInFunction d pass.Fset) (h, []) hwf
        refine ⟨?_, hfr⟩
        simp only [if_true]
        rw [hev]
        simp

theorem analyzeH_events (grow : Nat → Nat → Nat) (settings : Settings) (pass : Pass)
    (h : Heap) (d : FuncDecl) (s : Slice) (hwf : s.WF h) :
    (analyzeProviderFunctionForTightCouplingH grow settings pass h d s).2 =
        analyzeProviderFunctionForTightCoupling settings pass d (s.elems h) ∧
      Frame h (analyzeProviderFunctionForTightCouplingH grow settings pass h d s).1 s :=
  analyzeH_refines grow settings pass (11 - s.len) h d s hwf (Nat.le_refl _)

theorem foldl_followCallH_refines (grow : Nat → Nat → Nat) (settings : Settings) (pass : Pass)
    (s : Slice) (calls : List functionCall) (acc : Heap × List Event) (hwf : s.WF acc.1) :
    (calls.foldl (followCallH grow settings pass s) acc).2 =
        acc.2 ++ calls.flatMap (followCall settings pass (s.elems acc.1)) ∧
      Frame acc.1 (calls.foldl (followCallH grow settings pass s) acc).1 s :=
  foldl_followCallH grow settings pass s
    (fun h₁ d s₁ hw _ => analyzeH_events grow settings pass h₁ d s₁ hw) calls acc hwf

theorem analyzeRecursiveH_refines (grow : Nat → Nat → Nat) (settings : Settings) (pass : Pass)
    (h : Heap) (calls : List functionCall) (s : Slice) (hwf : s.WF h) :
    (analyzeRecursiveFunctionCallsH grow settings pass h calls s).2 =
        analyzeRecursiveFunctionCalls settings pass calls (s.elems h) ∧
      Frame h (analyzeRecursiveFunctionCallsH grow settings pass h calls s).1 s := by
  rw [analyzeRecursiveH_eq, analyzeRecursive_eq, elems_length s h hwf]
  by_cases hl : s.len > 10
  · rw [if_pos hl, if_pos hl]
    exact ⟨rfl, frame_refl _ _⟩
  · rw [if_neg hl, if_neg hl]
    obtain ⟨hev, hfr⟩ := foldl_followCallH_refines grow settings pass s calls (h, []) hwf
    exact ⟨by rw [hev]; rfl, hfr⟩

theorem followCallH_events (grow : Nat → Nat → Nat) (settings : Settings) (pass : Pass)
    (s : Slice) (acc : Heap × List Event) (fc : functionCall) :
    followCallH grow settings pass s acc fc =
      ((followCallH grow settings pass s (acc.1, []) fc).1,
        acc.2 ++ (followCallH grow settings pass s (acc.1, []) fc).2) := by
  unfold followCallH
  cases containsFunction (s.elems acc.1) fc.funcName with
  | true => simp
  | false =>
    cases findFunctionDeclaration pass fc.funcName fc.pkg with
    | none => simp
    | some callee => simp

theorem foldl_followCallH_events (grow : Nat → Nat → Nat) (settings : Settings) (pass : Pass)
    (s : Slice) (calls : List functionCall) :
    ∀ acc : Heap × List Event,
      calls.foldl (followCallH grow settings pass s) acc =
        ((calls.foldl (followCallH grow settings pass s) (acc.1, [])).1,
          acc.2 ++ (calls.foldl (followCallH grow settings pass s) (acc.1, [])).2) := by
  induction calls with
  | nil =>
    intro acc
    simp
  | cons c t ih =>
    intro acc
    rw [List.foldl_cons, List.foldl_cons, ih (followCallH grow settings pass s acc c),
      ih (followCallH grow settings pass s (acc.1, []) c), followCallH_events]
    simp only [List.append_assoc]

theorem analyzeRecursiveH_append (grow : Nat → Nat → Nat) (settings : Settings) (pass : Pass)
    (h : Heap) (cs₁ cs₂ : List functionCall) (s : Slice) :
    analyzeRecursiveFunctionCallsH grow settings pass h (cs₁ ++ cs₂) s =
      ((analyzeRecursiveFunctionCallsH grow settings pass
          (analyzeRecursiveFunctionCallsH grow settings pass h cs₁ s).1 cs₂ s).1,
        (analyzeRecursiveFunctionCallsH grow settings pass h cs₁ s).2 ++
          (analyzeRecursiveFunctionCallsH grow settings pass
            (analyzeRecursiveFunctionCallsH grow settings pass h cs₁ s).1 cs₂ s).2) := by
  simp only [analyzeRecursiveH_eq]
  by_cases hl : s.len > 10
  · simp [hl]
  · simp only [if_neg hl, List.foldl_append]
    rw [foldl_followCallH_events grow settings pass s cs₂
      (cs₁.foldl (followCallH grow settings pass s) (h, []))]

theorem analyzeRecursive_append (settings : Settings) (pass : Pass)
    (cs₁ cs₂ : List functionCall) (p : List String) :
    analyzeRecursiveFunctionCalls settings pass (cs₁ ++ cs₂) p =
      analyzeRecursiveFunctionCalls settings pass cs₁ p ++
        analyzeRecursiveFunctionCalls settings pass cs₂ p := by
  simp only [analyzeRecursive_eq]
  by_cases hl : p.length > 10
  · simp [hl]
  · simp [hl, List.flatMap_append]

theorem runH_eq (grow : Nat → Nat → Nat) (parseFile : String → Except String File)
    (settings : Settings) (pass : Pass) :
    runH grow parseFile settings pass = run parseFile settings pass := by
  unfold runH run
  by_cases hw : settings.WireGen = ""
  · rw [if_pos hw, if_pos hw]
  · rw [if_neg hw, if_neg hw]
    cases parseWireGenFile parseFile settings.WireGen with
    | error err => rfl
    | ok ws =>
      simp only
      congr 1
      have key : ∀ (decls : List FuncDecl) (acc : Heap × List Event),
          (decls.foldl (fun (acc : Heap × List Event) funcDecl =>
            if ws funcDecl.name = true then
              ((analyzeProviderFunctionForTightCouplingH grow settings pass
                  (acc.1 ++ [[funcDecl.name]]) funcDecl
                  { array := acc.1.length, len := 1, cap := 1 }).1,
                acc.2 ++ (analyzeProviderFunctionForTightCouplingH grow settings pass
                  (acc.1 ++ [[funcDecl.name]]) funcDecl
                  { array := acc.1.length, len := 1, cap := 1 }).2)
            else acc) acc).2 =
          acc.2 ++ decls.flatMap (fun funcDecl =>
            if ws funcDecl.name = true then
              analyzeProviderFunctionForTightCoupling settings pass funcDecl [funcDecl.name]
            else []) := by
        intro decls
        induction decls with
        | nil =>
          intro acc
          simp
        | cons d t ih =>
          intro acc
          rw [List.foldl_cons, ih, List.flatMap_cons]
          by_cases hws : ws d.name = true
          · have hwf : Slice.WF { array := acc.1.length, len := 1, cap := 1 }
                (acc.1 ++ [[d.name]]) :=
              ⟨by simp, by rw [cells_append_length]; rfl, Nat.le_refl _⟩
            have hel : Slice.elems { array := acc.1.length, len := 1, cap := 1 }
                (acc.1 ++ [[d.name]]) = [d.name] := by
              unfold Slice.elems
              rw [cells_append_length]
              rfl
            have := (analyzeH_events grow settings pass _ d _ hwf).1
            rw [hel] at this
            simp only [if_pos hws, this, List.append_assoc]
          · simp only [if_neg hws, List.nil_append]
      have := key (preorderFuncDecls pass) ([], [])
      simpa using this

/-- C16. Sibling independence. With the call path as a Go slice in a heap of backing arrays,
where `append(callPath, name)` may write in place into the array the caller's path points into:
`analyzeRecursiveFunctionCalls` on `cs₁ ++ cs₂` is the run on `cs₁` followed by the run on
`cs₂` in the heap the first one leaves; the events of each are those of the list-based walk
under the caller's path as it was at the start, so the diagnostics on `cs₁ ++ cs₂` are the
diagnostics on `cs₁` followed by those on `cs₂`, and the caller's path has the same elements
afterwards. A call that is not on the path and resolves to `callee` contributes exactly the walk
of `callee` under the path extended by its name, starting with that scan, whatever siblings
come before or after it. The list-based `analyzeRecursiveFunctionCalls` splits over `++` under
every call path. -/
theorem sibling_independence (grow : Nat → Nat → Nat) (settings : Settings) (pass : Pass)
    (h : Heap) (s : Slice) (cs₁ cs₂ : List functionCall) (hwf : s.WF h) :
    analyzeRecursiveFunctionCallsH grow settings pass h (cs₁ ++ cs₂) s =
      ((analyzeRecursiveFunctionCallsH grow settings pass
          (analyzeRecursiveFunctionCallsH grow settings pass h cs₁ s).1 cs₂ s).1,
        (analyzeRecursiveFunctionCallsH grow settings pass h cs₁ s).2 ++
          (analyzeRecursiveFunctionCallsH grow settings pass
            (analyzeRecursiveFunctionCallsH grow settings pass h cs₁ s).1 cs₂ s).2) ∧
    (analyzeRecursiveFunctionCallsH grow settings pass h cs₁ s).2 =
      analyzeRecursiveFunctionCalls settings pass cs₁ (s.elems h) ∧
    (analyzeRecursiveFunctionCallsH grow settings pass
        (analyzeRecursiveFunctionCallsH grow settings pass h cs₁ s).1 cs₂ s).2 =
      analyzeRecursiveFunctionCalls settings pass cs₂ (s.elems h) ∧
    diagnostics (analyzeRecursiveFunctionCallsH grow settings pass h (cs₁ ++ cs₂) s).2 =
      diagnostics (analyzeRecursiveFunctionCallsH grow settings pass h cs₁ s).2 ++
        diagnostics (analyzeRecursiveFunctionCallsH grow settings pass h cs₂ s).2 ∧
    s.elems (analyzeRecursiveFunctionCallsH grow settings pass h (cs₁ ++ cs₂) s).1 =
      s.elems h ∧
    (∀ p, analyzeRecursiveFunctionCalls settings pass (cs₁ ++ cs₂) p =
      analyzeRecursiveFunctionCalls settings pass cs₁ p ++
        analyzeRecursiveFunctionCalls settings pass cs₂ p) ∧
    (∀ p, diagnostics (analyzeRecursiveFunctionCalls settings pass (cs₁ ++ cs₂) p) =
      diagnostics (analyzeRecursiveFunctionCalls settings pass cs₁ p) ++
        diagnostics (analyzeRecursiveFunctionCalls settings pass cs₂ p)) ∧
    (∀ fc callee, s.len ≤ 10 → containsFunction (s.elems h) fc.funcName = false →
      findFunctionDeclaration pass fc.funcName fc.pkg = some callee →
      (analyzeRecursiveFunctionCallsH grow settings pass h (cs₁ ++ [fc] ++ cs₂) s).2 =
          analyzeRecursiveFunctionCalls settings pass cs₁ (s.elems h) ++
            analyzeProviderFunctionForTightCoupling settings pass callee
              (s.elems h ++ [fc.funcName]) ++
            analyzeRecursiveFunctionCalls settings pass cs₂ (s.elems h) ∧
        (analyzeProviderFunctionForTightCoupling settings pass callee
          (s.elems h ++ [fc.funcName])).head? =
          some (Event.scan callee (s.elems h ++ [fc.funcName]))) := by
  obtain ⟨hev₁, hfr₁⟩ := analyzeRecursiveH_refines grow settings pass h cs₁ s hwf
  obtain ⟨hwf₁, hel₁⟩ := frame_wf _ _ s hfr₁ hwf
  obtain ⟨hev₂, _⟩ := analyzeRecursiveH_refines grow settings pass _ cs₂ s hwf₁
  rw [hel₁] at hev₂
  refine ⟨analyzeRecursiveH_append grow settings pass h cs₁ cs₂ s, hev₁, hev₂, ?_, ?_,
    fun p => analyzeRecursive_append settings pass cs₁ cs₂ p, ?_, ?_⟩
  · rw [(analyzeRecursiveH_refines grow settings pass h (cs₁ ++ cs₂) s hwf).1,
      (analyzeRecursiveH_refines grow settings pass h cs₂ s hwf).1, hev₁,
      analyzeRecursive_append, diagnostics_append]
  · exact (frame_wf _ _ s
      (analyzeRecursiveH_refines grow settings pass h (cs₁ ++ cs₂) s hwf).2 hwf).2
  · intro p
    rw [analyzeRecursive_append, diagnostics_append]
  · intro fc callee hl hc hf
    refine ⟨?_, ?_⟩
    · rw [(analyzeRecursiveH_refines grow settings pass h (cs₁ ++ [fc] ++ cs₂) s hwf).1,
        analyzeRecursive_append, analyzeRecursive_append]
      congr 2
      have hl2 : ¬ (s.elems h).length > 10 := by rw [elems_length s h hwf]; omega
      rw [analyzeRecursive_eq, if_neg hl2]
      simp [followCall, hc, hf]
    · rw [analyzeProvider_eq]
      rfl

theorem helper_sibling_scans (pos : Nat) :
    scanNames (analyzeRecursiveFunctionCalls recursiveSettings mixedPackage
      [{ funcName := "helper", pos := pos, pkg := "" }] ["ProvideBar"]) =
      [("helper", ["ProvideBar", "helper"])] := by
  have hf : findFunctionDeclaration mixedPackage "helper" "" = some (leafDecl "helper" 100) :=
    rfl
  have hc : containsFunction ["ProvideBar"] "helper" = false := by decide
  rw [analyzeRecursive_eq, if_neg (by decide)]
  simp only [List.flatMap_cons, List.flatMap_nil, List.append_nil, followCall, hc, hf,
    Bool.false_eq_true, if_false]
  exact analyze_of_fuel _ _ _ _ 12 _ _ (by decide) (by decide)

theorem scanNames_append (l₁ l₂ : List Event) :
    scanNames (l₁ ++ l₂) = scanNames l₁ ++ scanNames l₂ := by
  unfold scanNames scans
  rw [List.filterMap_append, List.map_append]

/-- Witness for C16 on a path with a spare cell, so that both appends write into the same cell:
the two sibling calls of `helper` from `ProvideBar` in the package of `ProvideFoo`, `ProvideBar`
and `helper`. -/
theorem sibling_independence_witness :
    sparePath.WF spareHeap ∧
    sparePath.elems spareHeap = ["ProvideBar"] ∧
    (analyzeRecursiveFunctionCallsH doubling recursiveSettings mixedPackage spareHeap
        ([{ funcName := "helper", pos := 200, pkg := "" }] ++
          [{ funcName := "helper", pos := 201, pkg := "" }]) sparePath).2 =
      analyzeRecursiveFunctionCalls recursiveSettings mixedPackage
          [{ funcName := "helper", pos := 200, pkg := "" }] ["ProvideBar"] ++
        analyzeRecursiveFunctionCalls recursiveSettings mixedPackage
          [{ funcName := "helper", pos := 201, pkg := "" }] ["ProvideBar"] ∧
    scanNames (analyzeRecursiveFunctionCallsH doubling recursiveSettings mixedPackage spareHeap
        ([{ funcName := "helper", pos := 200, pkg := "" }] ++
          [{ funcName := "helper", pos := 201, pkg := "" }]) sparePath).2 =
      [("helper", ["ProvideBar", "helper"]), ("helper", ["ProvideBar", "helper"])] ∧
    sparePath.elems (analyzeRecursiveFunctionCallsH doubling recursiveSettings mixedPackage
        spareHeap
        ([{ funcName := "helper", pos := 200, pkg := "" }] ++
          [{ funcName := "helper", pos := 201, pkg := "" }]) sparePath).1 = ["ProvideBar"] := by
  have hwf : sparePath.WF spareHeap := ⟨by decide, by decide, by decide⟩
  have hel : sparePath.elems spareHeap = ["ProvideBar"] := by decide
  have h := sibling_independence doubling recursiveSettings mixedPackage spareHeap sparePath
    [{ funcName := "helper", pos := 200, pkg := "" }]
    [{ funcName := "helper", pos := 201, pkg := "" }] hwf
  obtain ⟨h1, h2, h3, _, h5, _⟩ := h
  rw [hel] at h2 h3 h5
  refine ⟨hwf, hel, ?_, ?_, h5⟩
  · rw [h1, h2, h3]
  · rw [h1, h2, h3, scanNames_append, helper_sibling_scans, helper_sibling_scans]
    rfl

end Wirecheck

/-! # Theorems: alert rule provenance -/

namespace V0alpha1

theorem provenanceKey_eq : ProvenanceStatusAnnotationKey = "grafana.app/provenance" := by
  decide

theorem getProvenanceStatus_eq_empty (r : Option AlertRule) :
    GetProvenanceStatus r = "" ↔ r = none ∨ ∃ a, r = some a ∧ a.Annotations = none := by
  cases r with
  | none => simp [GetProvenanceStatus]
  | some a =>
    cases hm : a.Annotations with
    | none => simp [GetProvenanceStatus, hm]
    | some m =>
      simp only [GetProvenanceStatus, hm, reduceCtorEq, Option.some.injEq, exists_eq_left',
        or_self, iff_false]
      cases hk : m ProvenanceStatusAnnotationKey with
      | none =>
        simp only [ProvenanceStatusNone]
        decide
      | some s =>
        simp only
        by_cases hs : s = ""
        · rw [if_pos hs]
          simp only [ProvenanceStatusNone]
          decide
        · rw [if_neg hs]
          exact hs

/-- C20. Provenance round trip: for every non-nil alert rule `o` and every string `s`,
`SetProvenanceStatus` succeeds, and afterwards `GetProvenanceStatus` returns `s` when `s` is not
empty and "none" when it is; the call changes only the annotation "grafana.app/provenance",
every other annotation and the spec being as before; and `GetProvenanceStatus` returns the empty
string exactly when the rule is nil or its annotation map is nil. -/
theorem provenance_round_trip (o : AlertRule) (s : String) :
    (∃ o', SetProvenanceStatus (some o) s = some o' ∧
      GetProvenanceStatus (some o') = (if s = "" then "none" else s) ∧
      o'.annotation "grafana.app/provenance" = some (if s = "" then "none" else s) ∧
      (∀ k, k ≠ "grafana.app/provenance" → o'.annotation k = o.annotation k) ∧
      o'.Spec = o.Spec) ∧
    (∀ r : Option AlertRule,
      GetProvenanceStatus r = "" ↔ r = none ∨ ∃ a, r = some a ∧ a.Annotations = none) ∧
    GetProvenanceStatus none = "" ∧
    GetProvenanceStatus (some bareRule) = "" ∧
    GetProvenanceStatus (SetProvenanceStatus (some bareRule) "") = "none" ∧
    GetProvenanceStatus (SetProvenanceStatus (some annotatedRule) "file") = "file" ∧
    (SetProvenanceStatus (some annotatedRule) "file").map
      (fun r => r.annotation "grafana.app/folder") = some (some "f1") := by
  refine ⟨⟨_, rfl, ?_, ?_, ?_, rfl⟩, getProvenanceStatus_eq_empty, rfl, rfl, by decide,
    by decide, by decide⟩
  · simp only [GetProvenanceStatus, if_true]
    by_cases hs : s = ""
    · simp [hs, ProvenanceStatusNone]
    · simp [hs]
  · simp [AlertRule.annotation, provenanceKey_eq, ProvenanceStatusNone]
  · intro k hk
    have hk2 : ¬ k = ProvenanceStatusAnnotationKey := by rw [provenanceKey_eq]; exact hk
    simp only [AlertRule.annotation, if_neg hk2]
    cases o.Annotations <;> rfl

end V0alpha1

/-! # Theorems: resource store migrations -/

namespace Migrations

theorem migrate_skip {Ctx Engine Mg : Type} (env : Env Ctx Engine Mg) (ctx : Ctx)
    (engine : Option Engine) (cfg : Cfg)
    (h : MustBool (cfg.Raw "database" "skip_migrations") false = true) :
    MigrateResourceStore env ctx engine cfg = { err := none, calls := [] } := by
  unfold MigrateResourceStore
  simp only [h, if_true]

theorem migrate_run {Ctx Engine Mg : Type} (env : Env Ctx Engine Mg) (ctx : Ctx)
    (engine : Option Engine) (cfg : Cfg)
    (h : MustBool (cfg.Raw "database" "skip_migrations") false = false) :
    MigrateResourceStore env ctx engine cfg =
      { err := env.RunMigrations
          (env.initResourceTables (env.AddCreateMigration
            (env.NewScopedMigrator engine cfg "resource"))) ctx
          (MustBool (cfg.Raw "database" "migration_locking") true)
          (env.MustInt (cfg.Raw "database" "locking_attempt_timeout_sec"))
        calls := [.NewScopedMigrator "resource", .AddCreateMigration, .initResourceTables,
          .RunMigrations (MustBool (cfg.Raw "database" "migration_locking") true)
            (env.MustInt (cfg.Raw "database" "locking_attempt_timeout_sec"))] } := by
  unfold MigrateResourceStore
  simp only [h, Bool.false_eq_true, if_false]

/-- C17. Skipping the resource store migrations: when the key `skip_migrations` of section
`database` reads as true, `MigrateResourceStore` returns nil and makes no call on the migrator
package, whatever the engine, nil included. When the key is absent, or reads as false, it
creates the migrator scoped "resource", adds the create migration, initialises the resource
tables and runs the migrations, and returns their result. With the configuration of the test,
`skip_migrations = true`, and a nil engine it returns nil, where running the migrations would
fail. -/
theorem migrate_skip_migrations {Ctx Engine Mg : Type} (env : Env Ctx Engine Mg) (ctx : Ctx)
    (engine : Option Engine) (cfg : Cfg) :
    (parseBool (cfg.Raw "database" "skip_migrations") = some true →
      MigrateResourceStore env ctx engine cfg = { err := none, calls := [] }) ∧
    (cfg.Raw "database" "skip_migrations" = "" ∨
        parseBool (cfg.Raw "database" "skip_migrations") = some false →
      MigrateResourceStore env ctx engine cfg =
        { err := env.RunMigrations
            (env.initResourceTables (env.AddCreateMigration
              (env.NewScopedMigrator engine cfg "resource"))) ctx
            (MustBool (cfg.Raw "database" "migration_locking") true)
            (env.MustInt (cfg.Raw "database" "locking_attempt_timeout_sec"))
          calls := [.NewScopedMigrator "resource", .AddCreateMigration, .initResourceTables,
            .RunMigrations (MustBool (cfg.Raw "database" "migration_locking") true)
              (env.MustInt (cfg.Raw "database" "locking_attempt_timeout_sec"))] }) ∧
    parseBool "true" = some true ∧
    MigrateResourceStore strictEnv () none skipCfg = { err := none, calls := [] } ∧
    MigrateResourceStore strictEnv () none emptyCfg =
      { err := some "nil engine"
        calls := [.NewScopedMigrator "resource", .AddCreateMigration, .initResourceTables,
          .RunMigrations true 0] } := by
  refine ⟨?_, ?_, by decide, by decide, by decide⟩
  · intro h
    apply migrate_skip
    unfold MustBool
    rw [h]
  · intro h
    apply migrate_run
    unfold MustBool
    rcases h with h | h
    · rw [h]
      rfl
    · rw [h]

end Migrations
